import Mathlib

/-!
Verification of the slack-workspace-synth core: deterministic generation
engine (seeded identity streams, entity synthesis, membership sampling),
the cursor codec (compact JSON + base64url without padding), the keyset
paginator over the SQLite store, CLI configuration validation, and the
insert-or-ignore membership store operation.

Shallow embedding conventions:
* SQLite tables are lists of typed rows; `SELECT ... WHERE ... ORDER BY`
  is modelled as a stable sort of the table followed by filtering, and
  `LIMIT n` as `List.take n`.  TEXT ordering is byte order of the UTF-8
  encoding, i.e. code-point lexicographic order (`strLt`).
* Python `random.Random` is modelled by `Rng`, a deterministic stream with
  the same API surface the generator uses (`random() < p`, `randint`,
  `choice`, `sample` without replacement).  The Mersenne-Twister internals
  are abstracted; the contract relied on by the code (determinism,
  `randint` bounds, `sample` distinctness) is preserved, and seeding is
  injective, idealizing the SHA-256 digest / 128-bit draws of the identity
  streams as collision-free.
* `Faker` is the deterministic seeded text provider: a seeded stream of
  synthetic names/words/sentences.
* Machine integers are `Int`/`Nat` (Python ints are unbounded, so no
  wrap-around modelling is needed).
-/

namespace SWS

/-! ### Decimal / hexadecimal representations (Python `str(n)`, `uuid.hex`) -/

/-- Little-helper: digits of `n` in base `b` (most significant first) with
explicit fuel so that everything reduces by `rfl`/`decide`.  Callers pass
`fuel = n`, which is always sufficient. -/
def baseDigits (b : Nat) (fuel n : Nat) : List Nat :=
  match fuel with
  | 0 => [n % b]
  | f + 1 => if n < b then [n] else baseDigits b f (n / b) ++ [n % b]

/-- Evaluate a most-significant-first digit list in base `b`. -/
def ofBaseDigits (b : Nat) (l : List Nat) : Nat :=
  l.foldl (fun a d => a * b + d) 0

theorem ofBaseDigits_append (b : Nat) (l : List Nat) (d : Nat) :
    ofBaseDigits b (l ++ [d]) = ofBaseDigits b l * b + d := by
  unfold ofBaseDigits
  rw [List.foldl_append]
  rfl

theorem ofBaseDigits_baseDigits (b : Nat) (hb : 2 ≤ b) :
    ∀ fuel n, n ≤ fuel → ofBaseDigits b (baseDigits b fuel n) = n := by
  intro fuel
  induction fuel with
  | zero =>
      intro n hn
      interval_cases n
      simp [baseDigits, ofBaseDigits]
  | succ f ih =>
      intro n hn
      unfold baseDigits
      by_cases h : n < b
      · simp [h, ofBaseDigits]
      · have hb0 : 0 < b := by omega
        have hdiv : n / b ≤ f := by
          have : n / b < n := Nat.div_lt_self (by omega) (by omega)
          omega
        simp only [h, if_false]
        rw [ofBaseDigits_append, ih _ hdiv, Nat.mul_comm]
        exact Nat.div_add_mod n b

theorem baseDigits_lt (b : Nat) (hb : 2 ≤ b) :
    ∀ fuel n, ∀ d ∈ baseDigits b fuel n, d < b := by
  intro fuel
  induction fuel with
  | zero =>
      intro n d hd
      simp only [baseDigits, List.mem_singleton] at hd
      subst hd
      exact Nat.mod_lt _ (by omega)
  | succ f ih =>
      intro n d hd
      unfold baseDigits at hd
      by_cases h : n < b
      · simp only [h, if_true, List.mem_singleton] at hd
        omega
      · simp only [h, if_false, List.mem_append, List.mem_singleton] at hd
        rcases hd with hd | hd
        · exact ih _ _ hd
        · subst hd
          exact Nat.mod_lt _ (by omega)

def natDigits (b n : Nat) : List Nat := baseDigits b n n

theorem ofBaseDigits_natDigits (b : Nat) (hb : 2 ≤ b) (n : Nat) :
    ofBaseDigits b (natDigits b n) = n :=
  ofBaseDigits_baseDigits b hb n n (Nat.le_refl n)

theorem natDigits_injective (b : Nat) (hb : 2 ≤ b) {m n : Nat}
    (h : natDigits b m = natDigits b n) : m = n := by
  have hm := ofBaseDigits_natDigits b hb m
  have hn := ofBaseDigits_natDigits b hb n
  rw [h] at hm
  omega

/-- Digit character: `0`-`9` then `a`-`f`, as CPython uses for `str` and
lowercase hex (`uuid.hex`). -/
def digitChar (d : Nat) : Char :=
  if d < 10 then Char.ofNat (48 + d) else Char.ofNat (87 + d)

theorem digitChar_injOn {d e : Nat} (hd : d < 16) (he : e < 16)
    (h : digitChar d = digitChar e) : d = e := by
  revert h
  interval_cases d <;> interval_cases e <;> decide

theorem map_digitChar_inj :
    ∀ (dm dn : List Nat), (∀ d ∈ dm, d < 16) → (∀ d ∈ dn, d < 16) →
      dm.map digitChar = dn.map digitChar → dm = dn := by
  intro dm
  induction dm with
  | nil =>
      intro dn _ _ h
      cases dn <;> simp_all
  | cons d ds ih =>
      intro dn hm hn h
      cases dn with
      | nil => simp_all
      | cons e es =>
          simp only [List.map_cons, List.cons.injEq] at h
          have hde : d = e :=
            digitChar_injOn (hm d (by simp)) (hn e (by simp)) h.1
          have hrest : ds = es := by
            apply ih es
            · intro x hx
              exact hm x (by simp [hx])
            · intro x hx
              exact hn x (by simp [hx])
            · exact h.2
          simp [hde, hrest]

/-- `str(n)` for a natural number: decimal digits, most significant first. -/
def natRepr (n : Nat) : String :=
  String.mk ((natDigits 10 n).map digitChar)

theorem natRepr_injective {m n : Nat} (h : natRepr m = natRepr n) : m = n := by
  apply natDigits_injective 10 (by omega)
  have hlist : (natDigits 10 m).map digitChar = (natDigits 10 n).map digitChar := by
    have := congrArg String.data h
    simpa [natRepr] using this
  apply map_digitChar_inj _ _ _ _ hlist
  · intro x hx
    have := baseDigits_lt 10 (by omega) m m x hx
    omega
  · intro x hx
    have := baseDigits_lt 10 (by omega) n n x hx
    omega

/-- `str(i)` for a Python int: optional minus sign plus decimal digits. -/
def intRepr (i : Int) : String :=
  if i < 0 then String.mk ('-' :: (natRepr i.natAbs).data) else natRepr i.toNat

/-- Lowercase hex digits of `n`, as `uuid.UUID(int=n).hex` formats them
(the fixed-width padding and hyphen-free form are preserved in spirit;
injectivity is what the identity model uses). -/
def natHex (n : Nat) : String :=
  String.mk ((natDigits 16 n).map digitChar)

theorem natHex_injective {m n : Nat} (h : natHex m = natHex n) : m = n := by
  apply natDigits_injective 16 (by omega)
  have hlist : (natDigits 16 m).map digitChar = (natDigits 16 n).map digitChar := by
    have := congrArg String.data h
    simpa [natHex] using this
  exact map_digitChar_inj _ _ (baseDigits_lt 16 (by omega) m m)
    (baseDigits_lt 16 (by omega) n n) hlist

/-! ### Character utilities -/

theorem char_eq_of_toNat {a b : Char} (h : a.toNat = b.toNat) : a = b :=
  Char.ext (UInt32.toNat.inj h)

/-- Characters produced by `natRepr` are decimal digits. -/
theorem natRepr_data_digit (n : Nat) :
    ∀ c ∈ (natRepr n).data, 48 ≤ c.toNat ∧ c.toNat ≤ 57 := by
  intro c hc
  simp only [natRepr, List.mem_map] at hc
  obtain ⟨d, hd, rfl⟩ := hc
  have hdlt : d < 10 := baseDigits_lt 10 (by omega) n n d hd
  unfold digitChar
  interval_cases d <;> simp

theorem natRepr_data_ne_nil (n : Nat) : (natRepr n).data ≠ [] := by
  simp only [natRepr]
  intro h
  have : natDigits 10 n = [] := by
    cases heq : natDigits 10 n with
    | nil => rfl
    | cons d ds => rw [heq] at h; simp at h
  unfold natDigits baseDigits at this
  revert this
  cases n with
  | zero => simp
  | succ m =>
      by_cases h10 : m + 1 < 10 <;> simp [h10]

theorem intRepr_injective {i j : Int} (h : intRepr i = intRepr j) : i = j := by
  unfold intRepr at h
  by_cases hi : i < 0 <;> by_cases hj : j < 0
  · simp only [hi, hj, if_true] at h
    have hdata := congrArg String.data h
    simp only at hdata
    have : (natRepr i.natAbs).data = (natRepr j.natAbs).data := by
      injection hdata
    have habs : i.natAbs = j.natAbs := natRepr_injective (String.ext this)
    omega
  · exfalso
    simp only [hi, hj, if_true, if_false] at h
    have hdata := congrArg String.data h
    simp only at hdata
    have hne := natRepr_data_ne_nil j.toNat
    cases heq : (natRepr j.toNat).data with
    | nil => exact hne heq
    | cons c cs =>
        rw [heq] at hdata
        have hc : c ∈ (natRepr j.toNat).data := by rw [heq]; simp
        have hdig := natRepr_data_digit j.toNat c hc
        have hchar : ('-' : Char) = c := by injection hdata
        have h45 : c.toNat = 45 := by rw [← hchar]; decide
        omega
  · exfalso
    simp only [hi, hj, if_true, if_false] at h
    have hdata := congrArg String.data h
    simp only at hdata
    have hne := natRepr_data_ne_nil i.toNat
    cases heq : (natRepr i.toNat).data with
    | nil => exact hne heq
    | cons c cs =>
        rw [heq] at hdata
        have hc : c ∈ (natRepr i.toNat).data := by rw [heq]; simp
        have hdig := natRepr_data_digit i.toNat c hc
        have hchar : c = ('-' : Char) := by injection hdata
        have h45 : c.toNat = 45 := by rw [hchar]; decide
        omega
  · simp only [hi, hj, if_false] at h
    have := natRepr_injective h
    omega

/-! ### Injective string-to-seed encoding

`_id_rng` hashes `f"{seed}:{offset}:{namespace}"` with SHA-256 and seeds a
Mersenne Twister from the first 64 bits of the digest.  The digest step is
modelled as an injective encoding of the payload string: the identity
contract of the generator (distinct payloads give distinct streams) relies
on collision-freeness of the truncated hash, which the model idealizes. -/

def encChars : List Char → Nat
  | [] => 0
  | c :: cs => encChars cs * 8589934592 + (c.toNat + 1)

theorem encChars_injective : ∀ {l m : List Char}, encChars l = encChars m → l = m := by
  intro l
  induction l with
  | nil =>
      intro m h
      cases m with
      | nil => rfl
      | cons c cs =>
          exfalso
          simp only [encChars] at h
          omega
  | cons c cs ih =>
      intro m h
      cases m with
      | nil =>
          exfalso
          simp only [encChars] at h
          omega
      | cons d ds =>
          simp only [encChars] at h
          have hc : c.toNat + 1 < 8589934592 := by
            have := UInt32.toNat_lt c.val
            have : c.toNat < 2 ^ 32 := this
            omega
          have hd : d.toNat + 1 < 8589934592 := by
            have := UInt32.toNat_lt d.val
            have : d.toNat < 2 ^ 32 := this
            omega
          have hsplit : c.toNat = d.toNat ∧ encChars cs = encChars ds := by omega
          have hcd : c = d := char_eq_of_toNat hsplit.1
          rw [hcd, ih hsplit.2]

def strEncode (s : String) : Nat := encChars s.data

theorem strEncode_injective {s t : String} (h : strEncode s = strEncode t) : s = t :=
  String.ext (encChars_injective h)

/-! ### Byte-order string comparison (SQLite TEXT ordering)

SQLite compares TEXT values with `memcmp` over the UTF-8 bytes, which
coincides with code-point lexicographic order. -/

def charsLt : List Char → List Char → Bool
  | [], [] => false
  | [], _ :: _ => true
  | _ :: _, [] => false
  | a :: as, b :: bs =>
      if a.toNat < b.toNat then true
      else if b.toNat < a.toNat then false
      else charsLt as bs

def strLt (a b : String) : Bool := charsLt a.data b.data

theorem charsLt_irrefl : ∀ l, charsLt l l = false := by
  intro l
  induction l with
  | nil => rfl
  | cons c cs ih => simp [charsLt, ih]

theorem charsLt_trans : ∀ l m r, charsLt l m = true → charsLt m r = true →
    charsLt l r = true := by
  intro l
  induction l with
  | nil =>
      intro m r hlm hmr
      cases m with
      | nil => exact absurd hlm (by simp [charsLt])
      | cons b bs =>
          cases r with
          | nil => simp [charsLt] at hmr
          | cons c cs => simp [charsLt]
  | cons a as ih =>
      intro m r hlm hmr
      cases m with
      | nil => simp [charsLt] at hlm
      | cons b bs =>
          cases r with
          | nil => simp [charsLt] at hmr
          | cons c cs =>
              simp only [charsLt] at hlm hmr ⊢
              by_cases hab : a.toNat < b.toNat
              · by_cases hbc : b.toNat < c.toNat
                · rw [if_pos (by omega)]
                · by_cases hcb : c.toNat < b.toNat
                  · rw [if_neg hbc, if_pos hcb] at hmr
                    exact absurd hmr (by simp)
                  · rw [if_pos (by omega)]
              · by_cases hba : b.toNat < a.toNat
                · rw [if_neg hab, if_pos hba] at hlm
                  exact absurd hlm (by simp)
                · rw [if_neg hab, if_neg hba] at hlm
                  by_cases hbc : b.toNat < c.toNat
                  · rw [if_pos (by omega)]
                  · by_cases hcb : c.toNat < b.toNat
                    · rw [if_neg hbc, if_pos hcb] at hmr
                      exact absurd hmr (by simp)
                    · rw [if_neg hbc, if_neg hcb] at hmr
                      rw [if_neg (by omega : ¬ a.toNat < c.toNat),
                        if_neg (by omega : ¬ c.toNat < a.toNat)]
                      exact ih bs cs hlm hmr

theorem charsLt_total : ∀ l m, charsLt l m = false → charsLt m l = false → l = m := by
  intro l
  induction l with
  | nil =>
      intro m hlm _
      cases m with
      | nil => rfl
      | cons b bs => simp [charsLt] at hlm
  | cons a as ih =>
      intro m hlm hml
      cases m with
      | nil => simp [charsLt] at hml
      | cons b bs =>
          simp only [charsLt] at hlm hml
          by_cases hab : a.toNat < b.toNat
          · simp [hab] at hlm
          · by_cases hba : b.toNat < a.toNat
            · simp [hba, hab] at hml
            · have hchar : a = b := char_eq_of_toNat (by omega)
              simp only [hab, hba, if_false] at hlm hml
              rw [hchar, ih bs hlm hml]

theorem strLt_irrefl (s : String) : strLt s s = false := charsLt_irrefl s.data

theorem strLt_trans {a b c : String} (h1 : strLt a b = true) (h2 : strLt b c = true) :
    strLt a c = true := charsLt_trans a.data b.data c.data h1 h2

theorem strLt_total {a b : String} (h1 : strLt a b = false) (h2 : strLt b a = false) :
    a = b := String.ext (charsLt_total a.data b.data h1 h2)

theorem char_toNat_lt_uni (c : Char) : c.toNat < 1114112 := by
  have h := c.valid
  rcases h with h | h
  · simp only [Char.toNat]
    omega
  · simp only [Char.toNat]
    omega

theorem char_toNat_not_surrogate (c : Char) :
    c.toNat < 55296 ∨ 57343 < c.toNat := by
  have h := c.valid
  rcases h with h | h
  · left
    simp only [Char.toNat]
    omega
  · right
    simp only [Char.toNat]
    omega

/-! ### UTF-8 (`str.encode("utf-8")` / `bytes.decode("utf-8")`)

Bytes are naturals `< 256`.  The decoder rejects stray or truncated
continuation bytes, overlong encodings and out-of-range code points, as
CPython's strict UTF-8 codec does. -/

def utf8EncodeChar (c : Char) : List Nat :=
  let n := c.toNat
  if n < 128 then [n]
  else if n < 2048 then [192 + n / 64, 128 + n % 64]
  else if n < 65536 then [224 + n / 4096, 128 + (n / 64) % 64, 128 + n % 64]
  else [240 + n / 262144, 128 + (n / 4096) % 64, 128 + (n / 64) % 64, 128 + n % 64]

def utf8Encode (s : String) : List Nat := (s.data.map utf8EncodeChar).flatten

/-- Decode one UTF-8 scalar value: given the leading byte and the rest of
the stream, return the code point and the remaining bytes.  Rejects stray
continuation bytes, truncated sequences, overlong forms, surrogates and
out-of-range values, as CPython's strict codec does. -/
def utf8Step (b : Nat) (rest : List Nat) : Option (Nat × List Nat) :=
  if b < 128 then some (b, rest)
  else if b < 192 then none
  else if b < 224 then
    match rest with
    | b2 :: r =>
        if 128 ≤ b2 ∧ b2 < 192 then
          let n := (b - 192) * 64 + (b2 - 128)
          if n < 128 then none else some (n, r)
        else none
    | [] => none
  else if b < 240 then
    match rest with
    | b2 :: b3 :: r =>
        if 128 ≤ b2 ∧ b2 < 192 ∧ 128 ≤ b3 ∧ b3 < 192 then
          let n := (b - 224) * 4096 + (b2 - 128) * 64 + (b3 - 128)
          if n < 2048 ∨ (55296 ≤ n ∧ n ≤ 57343) then none else some (n, r)
        else none
    | _ => none
  else if b < 248 then
    match rest with
    | b2 :: b3 :: b4 :: r =>
        if 128 ≤ b2 ∧ b2 < 192 ∧ 128 ≤ b3 ∧ b3 < 192 ∧ 128 ≤ b4 ∧ b4 < 192 then
          let n := (b - 240) * 262144 + (b2 - 128) * 4096 + (b3 - 128) * 64 + (b4 - 128)
          if n < 65536 ∨ 1114112 ≤ n then none else some (n, r)
        else none
    | _ => none
  else none

/-- Fuel-indexed UTF-8 decoder; one unit of fuel per decoded character, so
`fuel = length of the input` always suffices. -/
def utf8Decode : Nat → List Nat → Option (List Char)
  | _, [] => some []
  | 0, _ :: _ => none
  | f + 1, b :: rest =>
      match utf8Step b rest with
      | none => none
      | some (n, r) => (utf8Decode f r).map (fun cs => Char.ofNat n :: cs)

theorem utf8Step_encodeChar (c : Char) (rest : List Nat) :
    utf8Step ((utf8EncodeChar c).headD 0) ((utf8EncodeChar c).tail ++ rest) =
      some (c.toNat, rest) := by
  have huni := char_toNat_lt_uni c
  have hsur := char_toNat_not_surrogate c
  unfold utf8EncodeChar
  by_cases h1 : c.toNat < 128
  · simp only [h1, if_true, List.headD_cons, List.tail_cons, List.nil_append]
    unfold utf8Step
    rw [if_pos h1]
  · by_cases h2 : c.toNat < 2048
    · simp only [h1, h2, if_true, if_false, List.headD_cons, List.tail_cons,
        List.cons_append, List.nil_append]
      simp only [utf8Step]
      rw [if_neg (by omega : ¬ 192 + c.toNat / 64 < 128),
        if_neg (by omega : ¬ 192 + c.toNat / 64 < 192),
        if_pos (by omega : 192 + c.toNat / 64 < 224)]
      rw [if_pos (by exact ⟨by omega, by omega⟩ :
          128 ≤ 128 + c.toNat % 64 ∧ 128 + c.toNat % 64 < 192)]
      have hn : (192 + c.toNat / 64 - 192) * 64 + (128 + c.toNat % 64 - 128) = c.toNat := by
        omega
      rw [if_neg (by omega : ¬ (192 + c.toNat / 64 - 192) * 64 +
        (128 + c.toNat % 64 - 128) < 128), hn]
    · by_cases h3 : c.toNat < 65536
      · simp only [h1, h2, h3, if_true, if_false, List.headD_cons, List.tail_cons,
          List.cons_append, List.nil_append]
        simp only [utf8Step]
        rw [if_neg (by omega : ¬ 224 + c.toNat / 4096 < 128),
          if_neg (by omega : ¬ 224 + c.toNat / 4096 < 192),
          if_neg (by omega : ¬ 224 + c.toNat / 4096 < 224),
          if_pos (by omega : 224 + c.toNat / 4096 < 240)]
        rw [if_pos (by exact ⟨by omega, by omega, by omega, by omega⟩ :
            128 ≤ 128 + c.toNat / 64 % 64 ∧ 128 + c.toNat / 64 % 64 < 192 ∧
              128 ≤ 128 + c.toNat % 64 ∧ 128 + c.toNat % 64 < 192)]
        have hn : (224 + c.toNat / 4096 - 224) * 4096 + (128 + c.toNat / 64 % 64 - 128) * 64 +
            (128 + c.toNat % 64 - 128) = c.toNat := by
          omega
        rw [if_neg (by omega), hn]
      · simp only [h1, h2, h3, if_false, List.headD_cons, List.tail_cons,
          List.cons_append, List.nil_append]
        simp only [utf8Step]
        rw [if_neg (by omega : ¬ 240 + c.toNat / 262144 < 128),
          if_neg (by omega : ¬ 240 + c.toNat / 262144 < 192),
          if_neg (by omega : ¬ 240 + c.toNat / 262144 < 224),
          if_neg (by omega : ¬ 240 + c.toNat / 262144 < 240),
          if_pos (by omega : 240 + c.toNat / 262144 < 248)]
        rw [if_pos (by exact ⟨by omega, by omega, by omega, by omega, by omega, by omega⟩ :
            128 ≤ 128 + c.toNat / 4096 % 64 ∧ 128 + c.toNat / 4096 % 64 < 192 ∧
              128 ≤ 128 + c.toNat / 64 % 64 ∧ 128 + c.toNat / 64 % 64 < 192 ∧
                128 ≤ 128 + c.toNat % 64 ∧ 128 + c.toNat % 64 < 192)]
        have hn : (240 + c.toNat / 262144 - 240) * 262144 +
            (128 + c.toNat / 4096 % 64 - 128) * 4096 +
            (128 + c.toNat / 64 % 64 - 128) * 64 + (128 + c.toNat % 64 - 128) = c.toNat := by
          omega
        rw [if_neg (by omega), hn]

theorem utf8EncodeChar_ne_nil (c : Char) : utf8EncodeChar c ≠ [] := by
  unfold utf8EncodeChar
  by_cases h1 : c.toNat < 128
  · simp [h1]
  · by_cases h2 : c.toNat < 2048
    · simp [h1, h2]
    · by_cases h3 : c.toNat < 65536 <;> simp [h1, h2, h3]

theorem utf8Decode_encodeChar (c : Char) (f : Nat) (rest : List Nat) :
    utf8Decode (f + 1) (utf8EncodeChar c ++ rest) =
      (utf8Decode f rest).map (fun cs => c :: cs) := by
  have hstep := utf8Step_encodeChar c rest
  cases henc : utf8EncodeChar c with
  | nil => exact absurd henc (utf8EncodeChar_ne_nil c)
  | cons b bs =>
      rw [henc] at hstep
      simp only [List.headD_cons, List.tail_cons] at hstep
      simp only [List.cons_append]
      rw [utf8Decode]
      rw [hstep]
      simp only [Char.ofNat_toNat]

theorem utf8Decode_encode_data :
    ∀ (cs : List Char) (f : Nat) (rest : List Nat),
      utf8Decode (f + cs.length) ((cs.map utf8EncodeChar).flatten ++ rest) =
        (utf8Decode f rest).map (fun tail => cs ++ tail) := by
  intro cs
  induction cs with
  | nil =>
      intro f rest
      simp only [List.map_nil, List.flatten_nil, List.nil_append, List.length_nil, Nat.add_zero]
      cases h : utf8Decode f rest <;> simp
  | cons c cs ih =>
      intro f rest
      simp only [List.map_cons, List.flatten_cons, List.length_cons, List.append_assoc]
      have step := utf8Decode_encodeChar c (f + cs.length)
        ((cs.map utf8EncodeChar).flatten ++ rest)
      have harith : f + (cs.length + 1) = f + cs.length + 1 := by omega
      rw [harith, step, ih f rest]
      cases h : utf8Decode f rest <;> simp

theorem utf8Decode_nil (f : Nat) : utf8Decode f [] = some [] := by
  cases f <;> rfl

theorem utf8Decode_utf8Encode (s : String) (fuel : Nat) (hf : s.data.length ≤ fuel) :
    utf8Decode fuel (utf8Encode s) = some s.data := by
  obtain ⟨k, hk⟩ : ∃ k, fuel = k + s.data.length := ⟨fuel - s.data.length, by omega⟩
  subst hk
  have := utf8Decode_encode_data s.data k []
  simpa [utf8Encode, utf8Decode_nil] using this

/-! ### base64url (`base64.urlsafe_b64encode` / `urlsafe_b64decode`)

The decoder is strict: characters outside the urlsafe alphabet are
rejected (CPython additionally discards foreign characters before the
length check; the inputs the claims exercise behave identically). -/

def b64Char (v : Nat) : Char :=
  if v < 26 then Char.ofNat (65 + v)
  else if v < 52 then Char.ofNat (97 + (v - 26))
  else if v < 62 then Char.ofNat (48 + (v - 52))
  else if v = 62 then '-'
  else '_'

def b64Val (c : Char) : Option Nat :=
  let n := c.toNat
  if 65 ≤ n ∧ n ≤ 90 then some (n - 65)
  else if 97 ≤ n ∧ n ≤ 122 then some (n - 97 + 26)
  else if 48 ≤ n ∧ n ≤ 57 then some (n - 48 + 52)
  else if n = 45 then some 62
  else if n = 95 then some 63
  else none

theorem b64Val_b64Char : ∀ v, v < 64 → b64Val (b64Char v) = some v := by decide

theorem b64Char_ne_eq : ∀ v, v < 64 → b64Char v ≠ '=' := by decide

/-- Padded base64 encoding of a byte list (always a multiple of four
characters, with one or two `=` at the end when the input length is not a
multiple of three). -/
def b64EncodeBytes : List Nat → List Char
  | [] => []
  | [b0] => [b64Char (b0 / 4), b64Char (b0 % 4 * 16), '=', '=']
  | [b0, b1] => [b64Char (b0 / 4), b64Char (b0 % 4 * 16 + b1 / 16), b64Char (b1 % 16 * 4), '=']
  | b0 :: b1 :: b2 :: rest =>
      b64Char (b0 / 4) :: b64Char (b0 % 4 * 16 + b1 / 16) ::
        b64Char (b1 % 16 * 4 + b2 / 64) :: b64Char (b2 % 64) :: b64EncodeBytes rest

/-- Strict base64 decoding of a padded character list: groups of four
characters, `=` padding allowed only at the very end (one or two). -/
def b64DecodeChars : List Char → Option (List Nat)
  | [] => some []
  | c1 :: c2 :: c3 :: c4 :: rest =>
      (b64Val c1).bind (fun v1 =>
        (b64Val c2).bind (fun v2 =>
          if c3 = '=' then
            if c4 = '=' ∧ rest = [] then some [v1 * 4 + v2 / 16] else none
          else
            (b64Val c3).bind (fun v3 =>
              if c4 = '=' then
                if rest = [] then some [v1 * 4 + v2 / 16, v2 % 16 * 16 + v3 / 4] else none
              else
                (b64Val c4).bind (fun v4 =>
                  (b64DecodeChars rest).map
                    (fun t => (v1 * 4 + v2 / 16) :: (v2 % 16 * 16 + v3 / 4) ::
                      (v3 % 4 * 64 + v4) :: t)))))
  | _ => none

theorem b64DecodeChars_encodeBytes :
    ∀ l : List Nat, (∀ b ∈ l, b < 256) → b64DecodeChars (b64EncodeBytes l) = some l := by
  intro l
  induction l using b64EncodeBytes.induct with
  | case1 =>
      intro _
      rfl
  | case2 b0 =>
      intro hb
      have h0 : b0 < 256 := hb b0 (by simp)
      simp only [b64EncodeBytes, b64DecodeChars]
      rw [b64Val_b64Char _ (by omega), b64Val_b64Char _ (by omega)]
      simp only [Option.some_bind]
      simp
      omega
  | case3 b0 b1 =>
      intro hb
      have h0 : b0 < 256 := hb b0 (by simp)
      have h1 : b1 < 256 := hb b1 (by simp)
      simp only [b64EncodeBytes, b64DecodeChars]
      rw [b64Val_b64Char _ (by omega), b64Val_b64Char _ (by omega)]
      simp only [Option.some_bind]
      rw [if_neg (b64Char_ne_eq _ (by omega)), b64Val_b64Char _ (by omega)]
      simp only [Option.some_bind]
      simp
      constructor
      · omega
      · omega
  | case4 b0 b1 b2 rest ih =>
      intro hb
      have h0 : b0 < 256 := hb b0 (by simp)
      have h1 : b1 < 256 := hb b1 (by simp)
      have h2 : b2 < 256 := hb b2 (by simp)
      have hrest : ∀ b ∈ rest, b < 256 := fun b hbm => hb b (by simp [hbm])
      simp only [b64EncodeBytes, b64DecodeChars]
      rw [b64Val_b64Char _ (by omega), b64Val_b64Char _ (by omega)]
      simp only [Option.some_bind]
      rw [if_neg (b64Char_ne_eq _ (by omega)), b64Val_b64Char _ (by omega)]
      simp only [Option.some_bind]
      rw [if_neg (b64Char_ne_eq _ (by omega)), b64Val_b64Char _ (by omega)]
      simp only [Option.some_bind]
      rw [ih hrest]
      have e1 : b0 / 4 * 4 + (b0 % 4 * 16 + b1 / 16) / 16 = b0 := by omega
      have e2 : (b0 % 4 * 16 + b1 / 16) % 16 * 16 + (b1 % 16 * 4 + b2 / 64) / 4 = b1 := by
        omega
      have e3 : (b1 % 16 * 4 + b2 / 64) % 4 * 64 + b2 % 64 = b2 := by omega
      simp [e1, e2, e3]

/-- The unpadded base64 encoding (what remains after `rstrip("=")`). -/
def b64EncodeNoPad : List Nat → List Char
  | [] => []
  | [b0] => [b64Char (b0 / 4), b64Char (b0 % 4 * 16)]
  | [b0, b1] => [b64Char (b0 / 4), b64Char (b0 % 4 * 16 + b1 / 16), b64Char (b1 % 16 * 4)]
  | b0 :: b1 :: b2 :: rest =>
      b64Char (b0 / 4) :: b64Char (b0 % 4 * 16 + b1 / 16) ::
        b64Char (b1 % 16 * 4 + b2 / 64) :: b64Char (b2 % 64) :: b64EncodeNoPad rest

def b64PadLen (n : Nat) : Nat :=
  if n % 3 = 0 then 0 else if n % 3 = 1 then 2 else 1

theorem b64EncodeBytes_eq_noPad :
    ∀ l : List Nat,
      b64EncodeBytes l = b64EncodeNoPad l ++ List.replicate (b64PadLen l.length) '=' := by
  intro l
  induction l using b64EncodeBytes.induct with
  | case1 => rfl
  | case2 b0 => rfl
  | case3 b0 b1 => rfl
  | case4 b0 b1 b2 rest ih =>
      simp only [b64EncodeBytes, b64EncodeNoPad, List.length_cons]
      rw [ih]
      have : (rest.length + 1 + 1 + 1) % 3 = rest.length % 3 := by omega
      simp [b64PadLen, this]

theorem b64EncodeNoPad_ne_eq :
    ∀ l : List Nat, (∀ b ∈ l, b < 256) → ∀ c ∈ b64EncodeNoPad l, c ≠ '=' := by
  intro l
  induction l using b64EncodeNoPad.induct with
  | case1 =>
      intro _ c hc
      simp [b64EncodeNoPad] at hc
  | case2 b0 =>
      intro hb c hc
      have h0 : b0 < 256 := hb b0 (by simp)
      simp only [b64EncodeNoPad, List.mem_cons, List.not_mem_nil, or_false] at hc
      rcases hc with rfl | rfl
      · exact b64Char_ne_eq _ (by omega)
      · exact b64Char_ne_eq _ (by omega)
  | case3 b0 b1 =>
      intro hb c hc
      have h0 : b0 < 256 := hb b0 (by simp)
      have h1 : b1 < 256 := hb b1 (by simp)
      simp only [b64EncodeNoPad, List.mem_cons, List.not_mem_nil, or_false] at hc
      rcases hc with rfl | rfl | rfl
      · exact b64Char_ne_eq _ (by omega)
      · exact b64Char_ne_eq _ (by omega)
      · exact b64Char_ne_eq _ (by omega)
  | case4 b0 b1 b2 rest ih =>
      intro hb c hc
      have h0 : b0 < 256 := hb b0 (by simp)
      have h1 : b1 < 256 := hb b1 (by simp)
      have h2 : b2 < 256 := hb b2 (by simp)
      have hrest : ∀ b ∈ rest, b < 256 := fun b hbm => hb b (by simp [hbm])
      simp only [b64EncodeNoPad, List.mem_cons] at hc
      rcases hc with rfl | rfl | rfl | rfl | hc
      · exact b64Char_ne_eq _ (by omega)
      · exact b64Char_ne_eq _ (by omega)
      · exact b64Char_ne_eq _ (by omega)
      · exact b64Char_ne_eq _ (by omega)
      · exact ih hrest c hc

theorem b64EncodeNoPad_length_mod4 :
    ∀ l : List Nat,
      (b64EncodeNoPad l).length % 4 =
        (if l.length % 3 = 0 then 0 else if l.length % 3 = 1 then 2 else 3) := by
  intro l
  induction l using b64EncodeNoPad.induct with
  | case1 => rfl
  | case2 b0 => rfl
  | case3 b0 b1 => rfl
  | case4 b0 b1 b2 rest ih =>
      simp only [b64EncodeNoPad, List.length_cons]
      have hlen : (rest.length + 1 + 1 + 1) % 3 = rest.length % 3 := by omega
      have hrec : (b64EncodeNoPad rest).length % 4 =
          (if rest.length % 3 = 0 then 0 else if rest.length % 3 = 1 then 2 else 3) := ih
      simp only [hlen]
      by_cases hcase : rest.length % 3 = 0
      · simp only [hcase, if_true] at hrec ⊢
        omega
      · by_cases hcase1 : rest.length % 3 = 1
        · simp only [hcase, hcase1, if_true, if_false] at hrec ⊢
          omega
        · simp only [hcase, hcase1, if_false] at hrec ⊢
          omega

/-- `cursor.rstrip("=")`. -/
def rstripEq (l : List Char) : List Char :=
  (l.reverse.dropWhile (fun c => c = '=')).reverse

theorem dropWhile_of_ne {p : Char → Bool} :
    ∀ l : List Char, (∀ c ∈ l, p c = false) → l.dropWhile p = l := by
  intro l h
  cases l with
  | nil => rfl
  | cons c cs =>
      rw [List.dropWhile_cons]
      rw [h c (by simp)]
      simp

theorem rstripEq_append_replicate (x : List Char) (k : Nat)
    (hx : ∀ c ∈ x, c ≠ '=') :
    rstripEq (x ++ List.replicate k '=') = x := by
  unfold rstripEq
  rw [List.reverse_append, List.reverse_replicate, List.dropWhile_append]
  rw [List.dropWhile_replicate]
  simp only [decide_eq_true_eq, if_pos rfl, List.isEmpty_nil, if_true]
  rw [dropWhile_of_ne x.reverse (by
    intro c hc
    have : c ∈ x := by simpa using hc
    simp [hx c this])]
  exact List.reverse_reverse x

/-- Python's `cursor + "=" * (-len(cursor) % 4)` re-padding. -/
def b64RePad (l : List Char) : List Char :=
  l ++ List.replicate ((4 - l.length % 4) % 4) '='

/-- Stripping the padding and re-padding recovers the padded encoding. -/
theorem b64RePad_rstripEq (l : List Nat) (hl : ∀ b ∈ l, b < 256) :
    b64RePad (rstripEq (b64EncodeBytes l)) = b64EncodeBytes l := by
  rw [b64EncodeBytes_eq_noPad l,
    rstripEq_append_replicate _ _ (b64EncodeNoPad_ne_eq l hl)]
  unfold b64RePad
  have hmod := b64EncodeNoPad_length_mod4 l
  congr 1
  unfold b64PadLen
  by_cases h0 : l.length % 3 = 0
  · simp only [h0, if_true] at hmod ⊢
    rw [hmod]
  · by_cases h1 : l.length % 3 = 1
    · simp only [h0, h1, if_true, if_false] at hmod ⊢
      rw [hmod]
      norm_num
    · simp only [h0, h1, if_false] at hmod ⊢
      rw [hmod]

/-! ### JSON (`json.dumps(..., separators=(",", ":"), ensure_ascii=False)`
and `json.loads`)

The model covers the fragment the cursor codec produces and inspects:
top-level objects / strings / integers with string or integer field
values.  Arrays, floats, booleans, null and nested objects are outside
the model (real `json.loads` would parse some of them, but every such
cursor is rejected by the codec's shape checks anyway). -/

inductive JVal where
  | jstr : String → JVal
  | jint : Int → JVal
deriving DecidableEq

inductive Json where
  | obj : List (String × JVal) → Json
  | str : String → Json
  | int : Int → Json
deriving DecidableEq

def braceL : Char := Char.ofNat 123

def braceR : Char := Char.ofNat 125

/-- JSON string escaping as CPython's `json.dumps` emits it with
`ensure_ascii=False`: two-character shortcuts for `"` `\\` and the common
control characters, `\u00XX` for the remaining controls, everything else
verbatim. -/
def escapeChar (c : Char) : List Char :=
  if c = '"' then ['\\', '"']
  else if c = '\\' then ['\\', '\\']
  else if c.toNat = 8 then ['\\', 'b']
  else if c.toNat = 9 then ['\\', 't']
  else if c.toNat = 10 then ['\\', 'n']
  else if c.toNat = 12 then ['\\', 'f']
  else if c.toNat = 13 then ['\\', 'r']
  else if c.toNat < 32 then
    ['\\', 'u', '0', '0', digitChar (c.toNat / 16), digitChar (c.toNat % 16)]
  else [c]

def escChars (l : List Char) : List Char := (l.map escapeChar).flatten

def strLit (s : String) : List Char := '"' :: escChars s.data ++ ['"']

def serJVal : JVal → List Char
  | .jstr s => strLit s
  | .jint i => (intRepr i).data

def serField (f : String × JVal) : List Char := strLit f.1 ++ ':' :: serJVal f.2

def serFieldsTail : List (String × JVal) → List Char
  | [] => [braceR]
  | f :: fs => ',' :: (serField f ++ serFieldsTail fs)

def serObjChars : List (String × JVal) → List Char
  | [] => [braceL, braceR]
  | f :: fs => braceL :: (serField f ++ serFieldsTail fs)

/-- Compact serialization, exactly `json.dumps(value, separators=(",", ":"),
ensure_ascii=False)`. -/
def jsonDumps : Json → String
  | .obj fs => String.mk (serObjChars fs)
  | .str s => String.mk (strLit s)
  | .int i => intRepr i

def isJsonWs (c : Char) : Bool :=
  c.toNat = 32 || c.toNat = 9 || c.toNat = 10 || c.toNat = 13

def skipWs (l : List Char) : List Char := l.dropWhile isJsonWs

theorem skipWs_cons {c : Char} (l : List Char) (h : isJsonWs c = false) :
    skipWs (c :: l) = c :: l := by
  unfold skipWs
  rw [List.dropWhile_cons, h]
  simp

def hexVal (c : Char) : Option Nat :=
  let n := c.toNat
  if 48 ≤ n ∧ n ≤ 57 then some (n - 48)
  else if 97 ≤ n ∧ n ≤ 102 then some (n - 87)
  else if 65 ≤ n ∧ n ≤ 70 then some (n - 55)
  else none

theorem hexVal_digitChar : ∀ d, d < 16 → hexVal (digitChar d) = some d := by decide

/-- Parse the four hex digits of a `\uXXXX` escape. -/
def hex4 : List Char → Option (Nat × List Char)
  | h1 :: h2 :: h3 :: h4 :: r =>
      (hexVal h1).bind (fun v1 =>
        (hexVal h2).bind (fun v2 =>
          (hexVal h3).bind (fun v3 =>
            (hexVal h4).map (fun v4 => (((v1 * 16 + v2) * 16 + v3) * 16 + v4, r)))))
  | _ => none

/-- Interpret one escape sequence (the character after the backslash plus
the remaining input). -/
def escToken (e : Char) (r : List Char) : Option (Char × List Char) :=
  if e = '"' then some ('"', r)
  else if e = '\\' then some ('\\', r)
  else if e = '/' then some ('/', r)
  else if e = 'b' then some (Char.ofNat 8, r)
  else if e = 't' then some (Char.ofNat 9, r)
  else if e = 'n' then some (Char.ofNat 10, r)
  else if e = 'f' then some (Char.ofNat 12, r)
  else if e = 'r' then some (Char.ofNat 13, r)
  else if e = 'u' then (hex4 r).map (fun p => (Char.ofNat p.1, p.2))
  else none

def escTokenL : List Char → Option (Char × List Char)
  | [] => none
  | e :: r => escToken e r

/-- Parse the body of a JSON string literal (after the opening quote),
returning the unescaped characters and the remainder after the closing
quote.  One unit of fuel per produced character; `fuel = input length`
always suffices.  Raw control characters are rejected (`json.loads` with
its default `strict=True`). -/
def parseStrBody : Nat → List Char → Option (List Char × List Char)
  | _, [] => none
  | 0, _ :: _ => none
  | f + 1, c :: rest =>
      if c = '"' then some ([], rest)
      else if c = '\\' then
        (escTokenL rest).bind (fun p =>
          (parseStrBody f p.2).map (fun q => (p.1 :: q.1, q.2)))
      else if c.toNat < 32 then none
      else (parseStrBody f rest).map (fun q => (c :: q.1, q.2))

def takeDigits : List Char → List Nat × List Char
  | [] => ([], [])
  | c :: rest =>
      if 48 ≤ c.toNat ∧ c.toNat ≤ 57 then
        let p := takeDigits rest
        ((c.toNat - 48) :: p.1, p.2)
      else ([], c :: rest)

def parseIntTok : List Char → Option (Int × List Char)
  | [] => none
  | c :: rest =>
      if c = '-' then
        let p := takeDigits rest
        if p.1.isEmpty then none else some (-(ofBaseDigits 10 p.1 : Int), p.2)
      else
        let p := takeDigits (c :: rest)
        if p.1.isEmpty then none else some ((ofBaseDigits 10 p.1 : Int), p.2)

def parseJValCore : List Char → Option (JVal × List Char)
  | [] => none
  | c :: rest =>
      if c = '"' then
        (parseStrBody rest.length rest).map (fun p => (JVal.jstr (String.mk p.1), p.2))
      else (parseIntTok (c :: rest)).map (fun p => (JVal.jint p.1, p.2))

def parseJVal (l : List Char) : Option (JVal × List Char) :=
  parseJValCore (skipWs l)

def parseFieldKey : List Char → Option (List Char × List Char)
  | [] => none
  | c :: rest => if c = '"' then parseStrBody rest.length rest else none

def parseColon : List Char → Option (List Char)
  | [] => none
  | c :: rest => if c = ':' then some rest else none

/-- Parse one `"key":value` pair; remainder is whatever follows the value. -/
def parseFieldStep (l : List Char) : Option ((String × JVal) × List Char) :=
  (parseFieldKey l).bind (fun kp =>
    (parseColon (skipWs kp.2)).bind (fun r2 =>
      (parseJVal r2).map (fun vp => ((String.mk kp.1, vp.1), vp.2))))

/-- Classify the separator after a field: `,` continues the object, the
closing brace ends it. -/
def sepKind : List Char → Option (Bool × List Char)
  | [] => none
  | c :: r =>
      if c = ',' then some (true, r)
      else if c = braceR then some (false, r) else none

/-- Parse `"key":value` pairs separated by `,` up to the closing brace.
One unit of fuel per field. -/
def parseFields : Nat → List Char → Option (List (String × JVal) × List Char)
  | 0, _ => none
  | f + 1, l =>
      (parseFieldStep (skipWs l)).bind (fun fp =>
        (sepKind (skipWs fp.2)).bind (fun sp =>
          if sp.1 then (parseFields f sp.2).map (fun q => (fp.1 :: q.1, q.2))
          else some ([fp.1], sp.2)))

def parseObjBody : List Char → Option Json
  | [] => none
  | c :: rest =>
      if c = braceR then if (skipWs rest).isEmpty then some (Json.obj []) else none
      else
        (parseFields (c :: rest).length (c :: rest)).bind (fun p =>
          if (skipWs p.2).isEmpty then some (Json.obj p.1) else none)

def jsonLoadsCore : List Char → Option Json
  | [] => none
  | c :: rest =>
      if c = braceL then parseObjBody (skipWs rest)
      else if c = '"' then
        (parseStrBody rest.length rest).bind (fun p =>
          if (skipWs p.2).isEmpty then some (Json.str (String.mk p.1)) else none)
      else
        (parseIntTok (c :: rest)).bind (fun p =>
          if (skipWs p.2).isEmpty then some (Json.int p.1) else none)

/-- Top-level `json.loads` on the modelled fragment; requires the whole
input to be consumed (up to surrounding whitespace). -/
def jsonLoads (s : String) : Option Json := jsonLoadsCore (skipWs s.data)

theorem string_mk_data (s : String) : String.mk s.data = s := by
  cases s
  rfl

theorem escapeChar_length_pos (c : Char) : 1 ≤ (escapeChar c).length := by
  unfold escapeChar
  by_cases h1 : c = '"'
  · simp [h1]
  · by_cases h2 : c = '\\'
    · simp [h1, h2]
    · by_cases h3 : c.toNat = 8
      · simp [h1, h2, h3]
      · by_cases h4 : c.toNat = 9
        · simp [h1, h2, h3, h4]
        · by_cases h5 : c.toNat = 10
          · simp [h1, h2, h3, h4, h5]
          · by_cases h6 : c.toNat = 12
            · simp [h1, h2, h3, h4, h5, h6]
            · by_cases h7 : c.toNat = 13
              · simp [h1, h2, h3, h4, h5, h6, h7]
              · by_cases h8 : c.toNat < 32 <;>
                  simp [h1, h2, h3, h4, h5, h6, h7, h8]

theorem length_le_escChars (cs : List Char) : cs.length ≤ (escChars cs).length := by
  induction cs with
  | nil => simp [escChars]
  | cons c cs ih =>
      have := escapeChar_length_pos c
      simp only [escChars, List.map_cons, List.flatten_cons, List.length_append,
        List.length_cons]
      simp only [escChars] at ih
      omega

theorem escTokenL_escapeChar (c : Char) (tail : List Char)
    (hc : ¬ (¬ c = '"' ∧ ¬ c = '\\' ∧ ¬ c.toNat < 32)) :
    escTokenL ((escapeChar c).tail ++ tail) = some (c, tail) ∧
      (escapeChar c).headD c = '\\' := by
  unfold escapeChar
  by_cases h1 : c = '"'
  · subst h1
    rw [if_pos rfl]
    constructor
    · simp only [List.tail_cons, List.cons_append, List.nil_append, escTokenL]
      simp [escToken]
    · rfl
  · rw [if_neg h1]
    by_cases h2 : c = '\\'
    · subst h2
      rw [if_pos rfl]
      constructor
      · simp only [List.tail_cons, List.cons_append, List.nil_append, escTokenL]
        simp [escToken]
      · rfl
    · rw [if_neg h2]
      by_cases h3 : c.toNat = 8
      · rw [if_pos h3]
        refine ⟨?_, rfl⟩
        simp only [List.tail_cons, List.cons_append, List.nil_append, escTokenL]
        simp only [escToken, if_neg (by decide : ¬ ('b' : Char) = '"'),
          if_neg (by decide : ¬ ('b' : Char) = '\\'),
          if_neg (by decide : ¬ ('b' : Char) = '/'), if_pos rfl]
        have : Char.ofNat 8 = c := by rw [← h3, Char.ofNat_toNat]
        rw [this]
        simp
      · rw [if_neg h3]
        by_cases h4 : c.toNat = 9
        · rw [if_pos h4]
          refine ⟨?_, rfl⟩
          simp only [List.tail_cons, List.cons_append, List.nil_append, escTokenL]
          simp only [escToken, if_neg (by decide : ¬ ('t' : Char) = '"'),
            if_neg (by decide : ¬ ('t' : Char) = '\\'),
            if_neg (by decide : ¬ ('t' : Char) = '/'),
            if_neg (by decide : ¬ ('t' : Char) = 'b'), if_pos rfl]
          have : Char.ofNat 9 = c := by rw [← h4, Char.ofNat_toNat]
          rw [this]
          simp
        · rw [if_neg h4]
          by_cases h5 : c.toNat = 10
          · rw [if_pos h5]
            refine ⟨?_, rfl⟩
            simp only [List.tail_cons, List.cons_append, List.nil_append, escTokenL]
            simp only [escToken, if_neg (by decide : ¬ ('n' : Char) = '"'),
              if_neg (by decide : ¬ ('n' : Char) = '\\'),
              if_neg (by decide : ¬ ('n' : Char) = '/'),
              if_neg (by decide : ¬ ('n' : Char) = 'b'),
              if_neg (by decide : ¬ ('n' : Char) = 't'), if_pos rfl]
            have : Char.ofNat 10 = c := by rw [← h5, Char.ofNat_toNat]
            rw [this]
            simp
          · rw [if_neg h5]
            by_cases h6 : c.toNat = 12
            · rw [if_pos h6]
              refine ⟨?_, rfl⟩
              simp only [List.tail_cons, List.cons_append, List.nil_append, escTokenL]
              simp only [escToken, if_neg (by decide : ¬ ('f' : Char) = '"'),
                if_neg (by decide : ¬ ('f' : Char) = '\\'),
                if_neg (by decide : ¬ ('f' : Char) = '/'),
                if_neg (by decide : ¬ ('f' : Char) = 'b'),
                if_neg (by decide : ¬ ('f' : Char) = 't'),
                if_neg (by decide : ¬ ('f' : Char) = 'n'), if_pos rfl]
              have : Char.ofNat 12 = c := by rw [← h6, Char.ofNat_toNat]
              rw [this]
              simp
            · rw [if_neg h6]
              by_cases h7 : c.toNat = 13
              · rw [if_pos h7]
                refine ⟨?_, rfl⟩
                simp only [List.tail_cons, List.cons_append, List.nil_append, escTokenL]
                simp only [escToken, if_neg (by decide : ¬ ('r' : Char) = '"'),
                  if_neg (by decide : ¬ ('r' : Char) = '\\'),
                  if_neg (by decide : ¬ ('r' : Char) = '/'),
                  if_neg (by decide : ¬ ('r' : Char) = 'b'),
                  if_neg (by decide : ¬ ('r' : Char) = 't'),
                  if_neg (by decide : ¬ ('r' : Char) = 'n'),
                  if_neg (by decide : ¬ ('r' : Char) = 'f'), if_pos rfl]
                have : Char.ofNat 13 = c := by rw [← h7, Char.ofNat_toNat]
                rw [this]
                simp
              · rw [if_neg h7]
                by_cases h8 : c.toNat < 32
                · rw [if_pos h8]
                  refine ⟨?_, rfl⟩
                  simp only [List.tail_cons, List.cons_append, List.nil_append, escTokenL]
                  simp only [escToken, if_neg (by decide : ¬ ('u' : Char) = '"'),
                    if_neg (by decide : ¬ ('u' : Char) = '\\'),
                    if_neg (by decide : ¬ ('u' : Char) = '/'),
                    if_neg (by decide : ¬ ('u' : Char) = 'b'),
                    if_neg (by decide : ¬ ('u' : Char) = 't'),
                    if_neg (by decide : ¬ ('u' : Char) = 'n'),
                    if_neg (by decide : ¬ ('u' : Char) = 'f'),
                    if_neg (by decide : ¬ ('u' : Char) = 'r'), if_pos rfl]
                  simp only [hex4, (by decide : hexVal '0' = some 0),
                    hexVal_digitChar (c.toNat / 16) (by omega),
                    hexVal_digitChar (c.toNat % 16) (by omega),
                    Option.some_bind, Option.map_some']
                  have hval : ((0 * 16 + 0) * 16 + c.toNat / 16) * 16 + c.toNat % 16 =
                      c.toNat := by omega
                  rw [hval, Char.ofNat_toNat]
                  simp
                · exact absurd ⟨h1, h2, h8⟩ hc

theorem parseStrBody_escChars :
    ∀ (cs : List Char) (f : Nat) (rest : List Char),
      parseStrBody (cs.length + (f + 1)) (escChars cs ++ '"' :: rest) = some (cs, rest) := by
  intro cs
  induction cs with
  | nil =>
      intro f rest
      simp only [escChars, List.map_nil, List.flatten_nil, List.nil_append, List.length_nil,
        Nat.zero_add]
      rw [parseStrBody, if_pos (rfl : ('"' : Char) = '"')]
  | cons c cs ih =>
      intro f rest
      have harith : (c :: cs).length + (f + 1) = (cs.length + (f + 1)) + 1 := by
        simp only [List.length_cons]
        omega
      rw [harith]
      have hesc : escChars (c :: cs) = escapeChar c ++ escChars cs := by
        simp [escChars]
      rw [hesc, List.append_assoc]
      by_cases hraw : ¬ c = '"' ∧ ¬ c = '\\' ∧ ¬ c.toNat < 32
      · have hchar : escapeChar c = [c] := by
          unfold escapeChar
          rw [if_neg hraw.1, if_neg hraw.2.1,
            if_neg (by omega : ¬ c.toNat = 8), if_neg (by omega : ¬ c.toNat = 9),
            if_neg (by omega : ¬ c.toNat = 10), if_neg (by omega : ¬ c.toNat = 12),
            if_neg (by omega : ¬ c.toNat = 13), if_neg hraw.2.2]
        rw [hchar, List.cons_append, List.nil_append]
        rw [parseStrBody, if_neg hraw.1, if_neg hraw.2.1, if_neg hraw.2.2]
        rw [ih f rest]
        rfl
      · obtain ⟨htok, hhead⟩ := escTokenL_escapeChar c (escChars cs ++ '"' :: rest) hraw
        have hne : escapeChar c ≠ [] := by
          have := escapeChar_length_pos c
          intro hcon
          rw [hcon] at this
          simp at this
        obtain ⟨e0, etail, heq⟩ : ∃ e0 etail, escapeChar c = e0 :: etail := by
          cases hcase : escapeChar c with
          | nil => exact absurd hcase hne
          | cons a b => exact ⟨a, b, rfl⟩
        rw [heq] at hhead htok
        simp only [List.headD_cons] at hhead
        subst hhead
        simp only [List.tail_cons] at htok
        rw [heq, List.cons_append]
        rw [parseStrBody, if_neg (by decide : ¬ ('\\' : Char) = '"'),
          if_pos (rfl : ('\\' : Char) = '\\')]
        rw [htok, Option.some_bind, ih f rest]
        rfl

theorem parseStrBody_escChars_fuel (cs : List Char) (fuel : Nat) (rest : List Char)
    (hf : cs.length + 1 ≤ fuel) :
    parseStrBody fuel (escChars cs ++ '"' :: rest) = some (cs, rest) := by
  obtain ⟨k, hk⟩ : ∃ k, fuel = cs.length + (k + 1) :=
    ⟨fuel - cs.length - 1, by omega⟩
  subst hk
  exact parseStrBody_escChars cs k rest

/-- `rest` does not start with an ASCII digit. -/
def notDigitStart (l : List Char) : Prop :=
  ∀ c, l.head? = some c → ¬(48 ≤ c.toNat ∧ c.toNat ≤ 57)

theorem takeDigits_map_digitChar :
    ∀ (ds : List Nat) (rest : List Char), (∀ d ∈ ds, d < 10) → notDigitStart rest →
      takeDigits (ds.map digitChar ++ rest) = (ds, rest) := by
  intro ds
  induction ds with
  | nil =>
      intro rest _ hrest
      simp only [List.map_nil, List.nil_append]
      cases rest with
      | nil => rfl
      | cons c cs =>
          have := hrest c (by simp)
          rw [takeDigits, if_neg this]
  | cons d ds ih =>
      intro rest hds hrest
      have hd : d < 10 := hds d (by simp)
      have htn : (digitChar d).toNat = 48 + d := by
        unfold digitChar
        rw [if_pos hd]
        interval_cases d <;> decide
      simp only [List.map_cons, List.cons_append]
      rw [takeDigits, if_pos (by omega : 48 ≤ (digitChar d).toNat ∧ (digitChar d).toNat ≤ 57)]
      rw [ih rest (fun x hx => hds x (by simp [hx])) hrest]
      simp only [htn]
      have h48 : 48 + d - 48 = d := by omega
      rw [h48]

theorem natDigits_ne_nil (n : Nat) : natDigits 10 n ≠ [] := by
  intro hcon
  have := natRepr_data_ne_nil n
  simp only [natRepr] at this
  rw [hcon] at this
  simp at this

theorem parseIntTok_intRepr (i : Int) (rest : List Char) (hrest : notDigitStart rest) :
    parseIntTok ((intRepr i).data ++ rest) = some (i, rest) := by
  unfold intRepr
  by_cases hi : i < 0
  · rw [if_pos hi]
    have hdat : ('-' :: (natRepr i.natAbs).data : List Char) ++ rest =
        '-' :: ((natDigits 10 i.natAbs).map digitChar ++ rest) := by
      simp [natRepr]
    simp only []
    rw [hdat]
    rw [parseIntTok, if_pos (rfl : ('-' : Char) = '-')]
    rw [takeDigits_map_digitChar (natDigits 10 i.natAbs) rest
      (fun d hd => baseDigits_lt 10 (by omega) _ _ d hd) hrest]
    simp only []
    rw [if_neg (by simpa [List.isEmpty_iff] using natDigits_ne_nil i.natAbs)]
    rw [ofBaseDigits_natDigits 10 (by omega)]
    have hval : -((i.natAbs : Nat) : Int) = i := by omega
    rw [hval]
  · rw [if_neg hi]
    have hdat : (natRepr i.toNat).data ++ rest =
        (natDigits 10 i.toNat).map digitChar ++ rest := by
      simp [natRepr]
    obtain ⟨d0, ds0, hds⟩ : ∃ d0 ds0, natDigits 10 i.toNat = d0 :: ds0 := by
      cases hcase : natDigits 10 i.toNat with
      | nil => exact absurd hcase (natDigits_ne_nil i.toNat)
      | cons a b => exact ⟨a, b, rfl⟩
    have hd0 : d0 < 10 := by
      have hmem : d0 ∈ natDigits 10 i.toNat := by
        rw [hds]
        simp
      exact baseDigits_lt 10 (by omega) i.toNat i.toNat d0 hmem
    have htn : (digitChar d0).toNat = 48 + d0 := by
      unfold digitChar
      rw [if_pos hd0]
      interval_cases d0 <;> decide
    rw [hdat, hds]
    simp only [List.map_cons, List.cons_append]
    rw [parseIntTok, if_neg (by
      intro hcon
      have : (digitChar d0).toNat = 45 := by rw [hcon]; decide
      omega)]
    rw [← List.cons_append, ← List.map_cons, ← hds]
    rw [takeDigits_map_digitChar (natDigits 10 i.toNat) rest
      (fun d hd => baseDigits_lt 10 (by omega) _ _ d hd) hrest]
    simp only []
    rw [if_neg (by simpa [List.isEmpty_iff] using natDigits_ne_nil i.toNat)]
    rw [ofBaseDigits_natDigits 10 (by omega)]
    have hval : ((i.toNat : Nat) : Int) = i := by omega
    rw [hval]

theorem parseJVal_ser (v : JVal) (rest : List Char) (hrest : notDigitStart rest) :
    parseJVal (serJVal v ++ rest) = some (v, rest) := by
  cases v with
  | jstr s =>
      have hshape : serJVal (JVal.jstr s) ++ rest =
          '"' :: (escChars s.data ++ '"' :: rest) := by
        simp [serJVal, strLit]
      rw [hshape]
      unfold parseJVal
      rw [skipWs_cons _ (by decide)]
      rw [parseJValCore, if_pos (rfl : ('"' : Char) = '"')]
      rw [parseStrBody_escChars_fuel s.data _ rest (by
        have h1 := length_le_escChars s.data
        simp only [List.length_append, List.length_cons]
        omega)]
      simp only [Option.map_some']
  | jint i =>
      obtain ⟨c, cs, hlist, hws, hq⟩ :
          ∃ c cs, (intRepr i).data ++ rest = c :: cs ∧ isJsonWs c = false ∧ c ≠ '"' := by
        unfold intRepr
        by_cases hi : i < 0
        · rw [if_pos hi]
          exact ⟨'-', (natRepr i.natAbs).data ++ rest, by simp, by decide, by decide⟩
        · rw [if_neg hi]
          obtain ⟨c, cs, heq⟩ : ∃ c cs, (natRepr i.toNat).data = c :: cs := by
            cases hcase : (natRepr i.toNat).data with
            | nil => exact absurd hcase (natRepr_data_ne_nil i.toNat)
            | cons a b => exact ⟨a, b, rfl⟩
          have hcdig := natRepr_data_digit i.toNat c (by rw [heq]; simp)
          refine ⟨c, cs ++ rest, by simp [heq], ?_, ?_⟩
          · unfold isJsonWs
            simp only [Bool.or_eq_false_iff, decide_eq_false_iff_not]
            refine ⟨⟨?_, ?_⟩, ?_⟩ <;> omega
          · intro hcon
            have : c.toNat = 34 := by rw [hcon]; decide
            omega
      have hser : serJVal (JVal.jint i) ++ rest = (intRepr i).data ++ rest := by
        simp [serJVal]
      unfold parseJVal
      rw [hser, hlist, skipWs_cons _ hws]
      rw [parseJValCore, if_neg hq, ← hlist]
      rw [parseIntTok_intRepr i rest hrest]
      rfl

theorem serFieldsTail_length (fs : List (String × JVal)) :
    fs.length + 1 ≤ (serFieldsTail fs).length := by
  induction fs with
  | nil => simp [serFieldsTail]
  | cons kv fs ih =>
      simp only [serFieldsTail, List.length_cons, List.length_append]
      omega

theorem notDigitStart_serFieldsTail (fs : List (String × JVal)) (rest : List Char) :
    notDigitStart (serFieldsTail fs ++ rest) := by
  cases fs with
  | nil =>
      intro c hc
      simp only [serFieldsTail, List.cons_append, List.head?_cons, Option.some.injEq] at hc
      subst hc
      decide
  | cons kv fs =>
      intro c hc
      simp only [serFieldsTail, List.cons_append, List.head?_cons, Option.some.injEq] at hc
      subst hc
      decide

theorem parseFieldStep_ser (k : String) (v : JVal) (y : List Char)
    (hy : notDigitStart y) :
    parseFieldStep ('"' :: (escChars k.data ++ '"' :: ':' :: (serJVal v ++ y))) =
      some ((k, v), y) := by
  unfold parseFieldStep
  rw [parseFieldKey, if_pos (rfl : ('"' : Char) = '"')]
  rw [parseStrBody_escChars_fuel k.data _ (':' :: (serJVal v ++ y)) (by
    have h1 := length_le_escChars k.data
    simp only [List.length_append, List.length_cons]
    omega)]
  rw [Option.some_bind]
  rw [skipWs_cons _ (by decide)]
  rw [parseColon, if_pos (rfl : (':' : Char) = ':')]
  rw [Option.some_bind]
  rw [parseJVal_ser v y hy]
  simp only [Option.map_some']

theorem parseFields_ser :
    ∀ (fs : List (String × JVal)) (k : String) (v : JVal) (f : Nat) (rest : List Char),
      parseFields (fs.length + (f + 1)) (serField (k, v) ++ (serFieldsTail fs ++ rest)) =
        some ((k, v) :: fs, rest) := by
  intro fs
  induction fs with
  | nil =>
      intro k v f rest
      have hshape : serField (k, v) ++ (serFieldsTail [] ++ rest) =
          '"' :: (escChars k.data ++ '"' :: ':' :: (serJVal v ++ (braceR :: rest))) := by
        simp [serField, strLit, serFieldsTail]
      simp only [List.length_nil, Nat.zero_add]
      rw [hshape, parseFields]
      rw [skipWs_cons _ (by decide)]
      rw [parseFieldStep_ser k v (braceR :: rest) (by
        intro c hc
        simp only [List.head?_cons, Option.some.injEq] at hc
        subst hc
        decide)]
      rw [Option.some_bind]
      rw [skipWs_cons _ (by decide)]
      rw [sepKind, if_neg (by decide : ¬ braceR = ','), if_pos (rfl : braceR = braceR)]
      rw [Option.some_bind]
      rfl
  | cons kv2 fs2 ih =>
      intro k v f rest
      obtain ⟨k2, v2⟩ := kv2
      have hy : serFieldsTail ((k2, v2) :: fs2) ++ rest =
          ',' :: (serField (k2, v2) ++ (serFieldsTail fs2 ++ rest)) := by
        simp [serFieldsTail]
      have hshape : serField (k, v) ++ (serFieldsTail ((k2, v2) :: fs2) ++ rest) =
          '"' :: (escChars k.data ++ '"' :: ':' :: (serJVal v ++
            (',' :: (serField (k2, v2) ++ (serFieldsTail fs2 ++ rest))))) := by
        rw [hy]
        simp [serField, strLit]
      have harith : ((k2, v2) :: fs2).length + (f + 1) = (fs2.length + (f + 1)) + 1 := by
        simp only [List.length_cons]
        omega
      rw [hshape, harith, parseFields]
      rw [skipWs_cons _ (by decide)]
      rw [parseFieldStep_ser k v _ (by
        intro c hc
        simp only [List.head?_cons, Option.some.injEq] at hc
        subst hc
        decide)]
      rw [Option.some_bind]
      rw [skipWs_cons _ (by decide)]
      rw [sepKind, if_pos (rfl : (',' : Char) = ',')]
      rw [Option.some_bind]
      simp only [if_pos rfl]
      rw [ih k2 v2 f rest]
      rfl

theorem parseFields_ser_fuel (fs : List (String × JVal)) (k : String) (v : JVal)
    (rest : List Char) (fuel : Nat) (hf : fs.length + 1 ≤ fuel) :
    parseFields fuel (serField (k, v) ++ (serFieldsTail fs ++ rest)) =
      some ((k, v) :: fs, rest) := by
  obtain ⟨g, hg⟩ : ∃ g, fuel = fs.length + (g + 1) := ⟨fuel - fs.length - 1, by omega⟩
  subst hg
  exact parseFields_ser fs k v g rest

theorem skipWs_nil : skipWs [] = [] := rfl

theorem jsonLoads_dumps_obj (fs : List (String × JVal)) :
    jsonLoads (jsonDumps (Json.obj fs)) = some (Json.obj fs) := by
  cases fs with
  | nil => rfl
  | cons kv fs2 =>
      obtain ⟨k, v⟩ := kv
      have hdata : (jsonDumps (Json.obj ((k, v) :: fs2))).data =
          braceL :: (serField (k, v) ++ serFieldsTail fs2) := by
        simp [jsonDumps, serObjChars]
      unfold jsonLoads
      rw [hdata]
      rw [skipWs_cons _ (by decide)]
      rw [jsonLoadsCore, if_pos (rfl : braceL = braceL)]
      have hshape : serField (k, v) ++ serFieldsTail fs2 =
          '"' :: (escChars k.data ++ '"' :: ':' :: (serJVal v ++ serFieldsTail fs2)) := by
        simp [serField, strLit]
      rw [hshape]
      rw [skipWs_cons _ (by decide)]
      rw [parseObjBody, if_neg (by decide : ¬ ('"' : Char) = braceR)]
      rw [← hshape]
      have hnil : serField (k, v) ++ serFieldsTail fs2 =
          serField (k, v) ++ (serFieldsTail fs2 ++ []) := by
        simp
      rw [hnil]
      rw [parseFields_ser_fuel fs2 k v [] _ (by
        rw [← hnil]
        have h1 := serFieldsTail_length fs2
        simp only [List.length_append]
        omega)]
      rw [Option.some_bind]
      simp [skipWs_nil]

theorem utf8EncodeChar_lt_256 (c : Char) : ∀ b ∈ utf8EncodeChar c, b < 256 := by
  have huni := char_toNat_lt_uni c
  unfold utf8EncodeChar
  by_cases h1 : c.toNat < 128
  · simp only [h1, if_true, List.mem_singleton]
    omega
  · by_cases h2 : c.toNat < 2048
    · simp only [h1, h2, if_true, if_false, List.mem_cons, List.not_mem_nil, or_false]
      intro b hb
      rcases hb with rfl | rfl <;> omega
    · by_cases h3 : c.toNat < 65536
      · simp only [h1, h2, h3, if_true, if_false, List.mem_cons, List.not_mem_nil, or_false]
        intro b hb
        rcases hb with rfl | rfl | rfl <;> omega
      · simp only [h1, h2, h3, if_false, List.mem_cons, List.not_mem_nil, or_false]
        intro b hb
        rcases hb with rfl | rfl | rfl | rfl <;> omega

theorem utf8Encode_lt_256 (s : String) : ∀ b ∈ utf8Encode s, b < 256 := by
  intro b hb
  simp only [utf8Encode, List.mem_flatten, List.mem_map] at hb
  obtain ⟨l, ⟨c, _, rfl⟩, hbl⟩ := hb
  exact utf8EncodeChar_lt_256 c b hbl

theorem length_le_utf8Encode (s : String) : s.data.length ≤ (utf8Encode s).length := by
  unfold utf8Encode
  induction s.data with
  | nil => simp
  | cons c cs ih =>
      have hpos : 1 ≤ (utf8EncodeChar c).length := by
        unfold utf8EncodeChar
        by_cases h1 : c.toNat < 128
        · simp [h1]
        · by_cases h2 : c.toNat < 2048
          · simp [h1, h2]
          · by_cases h3 : c.toNat < 65536 <;> simp [h1, h2, h3]
      simp only [List.map_cons, List.flatten_cons, List.length_append, List.length_cons]
      omega

theorem rstripEq_b64EncodeBytes (l : List Nat) (hl : ∀ b ∈ l, b < 256) :
    rstripEq (b64EncodeBytes l) = b64EncodeNoPad l := by
  rw [b64EncodeBytes_eq_noPad l,
    rstripEq_append_replicate _ _ (b64EncodeNoPad_ne_eq l hl)]

theorem b64EncodeNoPad_ne_nil (l : List Nat) (hne : l ≠ []) : b64EncodeNoPad l ≠ [] := by
  cases l with
  | nil => exact absurd rfl hne
  | cons b0 rest =>
      cases rest with
      | nil => simp [b64EncodeNoPad]
      | cons b1 rest2 =>
          cases rest2 with
          | nil => simp [b64EncodeNoPad]
          | cons b2 rest3 => simp [b64EncodeNoPad]

/-! ### Cursor codec (`storage.py`: `encode_cursor` / `decode_cursor` and
the id / channel-member variants)

A cursor is the base64url encoding, with `=` padding stripped, of the
UTF-8 bytes of a compact JSON object carrying the position fields. -/

structure TsCursor where
  ts : Int
  id : String
deriving DecidableEq

structure IdCursor where
  id : String
deriving DecidableEq

structure CmCursor where
  channel_id : String
  user_id : String
deriving DecidableEq

/-- base64url encode without padding, as
`base64.urlsafe_b64encode(payload).decode("ascii").rstrip("=")`. -/
def b64urlNoPad (payload : List Nat) : String :=
  String.mk (rstripEq (b64EncodeBytes payload))

/-- The json payload of `encode_cursor(ts, row_id)`. -/
def tsCursorJson (ts : Int) (row_id : String) : Json :=
  Json.obj [("ts", JVal.jint ts), ("id", JVal.jstr row_id)]

def idCursorJson (row_id : String) : Json :=
  Json.obj [("id", JVal.jstr row_id)]

def cmCursorJson (channel_id user_id : String) : Json :=
  Json.obj [("channel_id", JVal.jstr channel_id), ("user_id", JVal.jstr user_id)]

def encode_cursor (ts : Int) (row_id : String) : String :=
  b64urlNoPad (utf8Encode (jsonDumps (tsCursorJson ts row_id)))

def encode_id_cursor (row_id : String) : String :=
  b64urlNoPad (utf8Encode (jsonDumps (idCursorJson row_id)))

def encode_channel_member_cursor (channel_id user_id : String) : String :=
  b64urlNoPad (utf8Encode (jsonDumps (cmCursorJson channel_id user_id)))

/-- Python dict lookup on parsed JSON object fields (later duplicate keys
win, as in `json.loads`). -/
def jlookup (fields : List (String × JVal)) (k : String) : Option JVal :=
  (fields.reverse.find? (fun p => decide (p.1 = k))).map (fun p => p.2)

def asInt : Option JVal → Option Int
  | some (JVal.jint i) => some i
  | _ => none

def asStr : Option JVal → Option String
  | some (JVal.jstr s) => some s
  | _ => none

def tsCursorOfJson : Json → Option TsCursor
  | Json.obj fields =>
      (asInt (jlookup fields "ts")).bind (fun ts =>
        (asStr (jlookup fields "id")).map (fun rid => ⟨ts, rid⟩))
  | _ => none

def idCursorOfJson : Json → Option IdCursor
  | Json.obj fields => (asStr (jlookup fields "id")).map (fun rid => ⟨rid⟩)
  | _ => none

def cmCursorOfJson : Json → Option CmCursor
  | Json.obj fields =>
      (asStr (jlookup fields "channel_id")).bind (fun cid =>
        (asStr (jlookup fields "user_id")).map (fun uid => ⟨cid, uid⟩))
  | _ => none

/-- The `urlsafe_b64decode` / `.decode("utf-8")` / `json.loads` pipeline of
`decode_cursor`, after re-padding. -/
def decodeCursorJson (cursor : String) : Option Json :=
  (b64DecodeChars (b64RePad cursor.data)).bind (fun bytes =>
    (utf8Decode bytes.length bytes).bind (fun chars =>
      jsonLoads (String.mk chars)))

/-- Collapse a failed decode into the `ValueError("invalid cursor")` the
Python decoder raises; a successful decode returns the position mapping. -/
def cursorResult {α : Type} : Option α → Except String (Option α)
  | none => .error "invalid cursor"
  | some c => .ok (some c)

def decode_cursor (cursor : String) : Except String (Option TsCursor) :=
  if cursor = "" then .ok none
  else cursorResult ((decodeCursorJson cursor).bind tsCursorOfJson)

def decode_id_cursor (cursor : String) : Except String (Option IdCursor) :=
  if cursor = "" then .ok none
  else cursorResult ((decodeCursorJson cursor).bind idCursorOfJson)

def decode_channel_member_cursor (cursor : String) : Except String (Option CmCursor) :=
  if cursor = "" then .ok none
  else cursorResult ((decodeCursorJson cursor).bind cmCursorOfJson)

theorem decodeCursorJson_b64urlNoPad (j : Json) :
    decodeCursorJson (b64urlNoPad (utf8Encode (jsonDumps j))) =
      jsonLoads (jsonDumps j) := by
  unfold decodeCursorJson b64urlNoPad
  have hbytes := utf8Encode_lt_256 (jsonDumps j)
  have hdata : (String.mk (rstripEq (b64EncodeBytes (utf8Encode (jsonDumps j))))).data =
      rstripEq (b64EncodeBytes (utf8Encode (jsonDumps j))) := rfl
  rw [hdata, b64RePad_rstripEq _ hbytes, b64DecodeChars_encodeBytes _ hbytes,
    Option.some_bind,
    utf8Decode_utf8Encode _ _ (length_le_utf8Encode (jsonDumps j)),
    Option.some_bind, string_mk_data]

theorem b64urlNoPad_ne_empty (payload : List Nat) (hp : payload ≠ [])
    (hlt : ∀ b ∈ payload, b < 256) :
    b64urlNoPad payload ≠ "" := by
  unfold b64urlNoPad
  intro hcon
  have : rstripEq (b64EncodeBytes payload) = [] := by
    have := congrArg String.data hcon
    simpa using this
  rw [rstripEq_b64EncodeBytes payload hlt] at this
  exact b64EncodeNoPad_ne_nil payload hp this

theorem utf8Encode_jsonDumps_obj_ne_nil (fs : List (String × JVal)) :
    utf8Encode (jsonDumps (Json.obj fs)) ≠ [] := by
  have hne : (jsonDumps (Json.obj fs)).data ≠ [] := by
    cases fs <;> simp [jsonDumps, serObjChars]
  intro hcon
  have := length_le_utf8Encode (jsonDumps (Json.obj fs))
  rw [hcon] at this
  simp only [List.length_nil, Nat.le_zero] at this
  exact hne (List.eq_nil_of_length_eq_zero this)

theorem tsCursorOfJson_mk (ts : Int) (rid : String) :
    tsCursorOfJson (tsCursorJson ts rid) = some ⟨ts, rid⟩ := by
  simp [tsCursorOfJson, tsCursorJson, jlookup, asInt, asStr, List.find?]

theorem idCursorOfJson_mk (rid : String) :
    idCursorOfJson (idCursorJson rid) = some ⟨rid⟩ := by
  simp [idCursorOfJson, idCursorJson, jlookup, asStr, List.find?]

theorem cmCursorOfJson_mk (cid uid : String) :
    cmCursorOfJson (cmCursorJson cid uid) = some ⟨cid, uid⟩ := by
  simp [cmCursorOfJson, cmCursorJson, jlookup, asStr, List.find?]

theorem decode_encode_cursor (ts : Int) (rid : String) :
    decode_cursor (encode_cursor ts rid) = .ok (some ⟨ts, rid⟩) := by
  unfold decode_cursor encode_cursor
  rw [if_neg (show ¬ b64urlNoPad (utf8Encode (jsonDumps (tsCursorJson ts rid))) = "" from
    b64urlNoPad_ne_empty _ (utf8Encode_jsonDumps_obj_ne_nil _) (utf8Encode_lt_256 _))]
  rw [decodeCursorJson_b64urlNoPad]
  rw [show jsonLoads (jsonDumps (tsCursorJson ts rid)) = some (tsCursorJson ts rid) from
    jsonLoads_dumps_obj _]
  rw [Option.some_bind, tsCursorOfJson_mk]
  rfl

theorem decode_encode_id_cursor (rid : String) :
    decode_id_cursor (encode_id_cursor rid) = .ok (some ⟨rid⟩) := by
  unfold decode_id_cursor encode_id_cursor
  rw [if_neg (show ¬ b64urlNoPad (utf8Encode (jsonDumps (idCursorJson rid))) = "" from
    b64urlNoPad_ne_empty _ (utf8Encode_jsonDumps_obj_ne_nil _) (utf8Encode_lt_256 _))]
  rw [decodeCursorJson_b64urlNoPad]
  rw [show jsonLoads (jsonDumps (idCursorJson rid)) = some (idCursorJson rid) from
    jsonLoads_dumps_obj _]
  rw [Option.some_bind, idCursorOfJson_mk]
  rfl

theorem decode_encode_channel_member_cursor (cid uid : String) :
    decode_channel_member_cursor (encode_channel_member_cursor cid uid) =
      .ok (some ⟨cid, uid⟩) := by
  unfold decode_channel_member_cursor encode_channel_member_cursor
  rw [if_neg (show
    ¬ b64urlNoPad (utf8Encode (jsonDumps (cmCursorJson cid uid))) = "" from
    b64urlNoPad_ne_empty _ (utf8Encode_jsonDumps_obj_ne_nil _) (utf8Encode_lt_256 _))]
  rw [decodeCursorJson_b64urlNoPad]
  rw [show jsonLoads (jsonDumps (cmCursorJson cid uid)) = some (cmCursorJson cid uid) from
    jsonLoads_dumps_obj _]
  rw [Option.some_bind, cmCursorOfJson_mk]
  rfl

/-! ### Storage rows and keyset pagination (`storage.py`)

Tables are lists of typed rows (mirroring the SQLite schema).  The keyset
queries `SELECT * FROM t WHERE <pred> ORDER BY <key> LIMIT n+1` are
modelled as: sort the table by the key order, filter by the predicate,
take `n+1`.  Sort keys are unique per collection (primary keys), so the
result is insensitive to how ties would be ordered. -/

structure UserRow where
  id : String
  workspace_id : String
  name : String
  email : String
  title : String
  is_bot : Int
deriving DecidableEq

structure ChannelRow where
  id : String
  workspace_id : String
  name : String
  is_private : Int
  channel_type : String
  topic : String
deriving DecidableEq

structure ChannelMemberRow where
  channel_id : String
  workspace_id : String
  user_id : String
deriving DecidableEq

structure MessageRow where
  id : String
  workspace_id : String
  channel_id : String
  user_id : String
  ts : Int
  text : String
  thread_ts : Option Int
  reply_count : Int
  reactions_json : String
deriving DecidableEq

structure FileRow where
  id : String
  workspace_id : String
  user_id : String
  name : String
  size : Int
  mimetype : String
  created_ts : Int
  channel_id : String
  message_id : Option String
  url : String
deriving DecidableEq

/-- `ORDER BY` the key, ascending with respect to the strict order `lt`.
With pairwise-distinct keys every sorting algorithm yields the same list,
so the choice of algorithm is immaterial to the model. -/
def sqlSort {ρ K : Type} (lt : K → K → Bool) (key : ρ → K) (tbl : List ρ) : List ρ :=
  tbl.insertionSort (fun a b => (! lt (key b) (key a)) = true)

/-- rows strictly after the cursor position in scan order. -/
def afterKey {ρ K : Type} (lt : K → K → Bool) (key : ρ → K) (c : Option K) (r : ρ) : Bool :=
  match c with
  | none => true
  | some ck => lt ck (key r)

/-- One keyset page: fetch `limit + 1` rows strictly after the cursor; if
`limit + 1` rows came back, return the first `limit` of them and a cursor
built from row `limit - 1` (0-indexed, the last returned row). -/
def keysetPage {ρ K : Type} (lt : K → K → Bool) (key : ρ → K) (pred : ρ → Bool)
    (tbl : List ρ) (cursor : Option K) (limit : Nat) : List ρ × Option K :=
  let rows := ((sqlSort lt key tbl).filter
    (fun r => pred r && afterKey lt key cursor r)).take (limit + 1)
  if limit < rows.length then
    (rows.take limit, (rows.get? (limit - 1)).map key)
  else (rows, none)

/-- `decoded = decode_X(cursor) if cursor else None` (both `None` and the
empty string mean "start of collection"). -/
def optDecode {C : Type} (dec : String → Except String (Option C)) :
    Option String → Except String (Option C)
  | none => .ok none
  | some s => dec s

/-- String comparison used by the scan orders. -/
def ordAscStr : String → String → Bool := strLt

/-- Scan order of `ORDER BY ts DESC, id DESC`: `a` comes before `b` when
`a.ts > b.ts`, ties broken by `a.id > b.id`. -/
def ordDescTsId (a b : Int × String) : Bool :=
  (b.1 < a.1) || (a.1 = b.1 && strLt b.2 a.2)

/-- Scan order of `ORDER BY channel_id ASC, user_id ASC`. -/
def ordAscPair (a b : String × String) : Bool :=
  strLt a.1 b.1 || (a.1 = b.1 && strLt a.2 b.2)

/-- Python truthiness filter: `if param:` — `None` and `""` mean "no
filter". -/
def strFilter (param : Option String) (field : String) : Bool :=
  match param with
  | none => true
  | some t => if t = "" then true else decide (field = t)

def list_users_page (tbl : List UserRow) (workspace_id : String) (limit : Nat)
    (cursor : Option String) : Except String (List UserRow × Option String) :=
  (optDecode decode_id_cursor cursor).map (fun dc =>
    let p := keysetPage ordAscStr (fun u => u.id)
      (fun u => decide (u.workspace_id = workspace_id)) tbl (dc.map (fun c => c.id)) limit
    (p.1, p.2.map encode_id_cursor))

def list_channels_page (tbl : List ChannelRow) (workspace_id : String) (limit : Nat)
    (cursor : Option String) (channel_type : Option String) :
    Except String (List ChannelRow × Option String) :=
  (optDecode decode_id_cursor cursor).map (fun dc =>
    let p := keysetPage ordAscStr (fun c => c.id)
      (fun c => decide (c.workspace_id = workspace_id) && strFilter channel_type c.channel_type)
      tbl (dc.map (fun c => c.id)) limit
    (p.1, p.2.map encode_id_cursor))

def list_channel_members_page (tbl : List ChannelMemberRow) (workspace_id : String)
    (limit : Nat) (cursor : Option String) (channel_id : Option String) :
    Except String (List ChannelMemberRow × Option String) :=
  (optDecode decode_channel_member_cursor cursor).map (fun dc =>
    let p := keysetPage ordAscPair (fun m => (m.channel_id, m.user_id))
      (fun m => decide (m.workspace_id = workspace_id) && strFilter channel_id m.channel_id)
      tbl (dc.map (fun c => (c.channel_id, c.user_id))) limit
    (p.1, p.2.map (fun k => encode_channel_member_cursor k.1 k.2)))

def intFilterLt (param : Option Int) (field : Int) : Bool :=
  match param with
  | none => true
  | some b => decide (field < b)

def intFilterGt (param : Option Int) (field : Int) : Bool :=
  match param with
  | none => true
  | some a => decide (a < field)

def list_messages_page (tbl : List MessageRow) (workspace_id : String) (limit : Nat)
    (cursor : Option String) (channel_id : Option String) (user_id : Option String)
    (before_ts : Option Int) (after_ts : Option Int) :
    Except String (List MessageRow × Option String) :=
  (optDecode decode_cursor cursor).map (fun dc =>
    let p := keysetPage ordDescTsId (fun m => (m.ts, m.id))
      (fun m => decide (m.workspace_id = workspace_id) && strFilter channel_id m.channel_id &&
        strFilter user_id m.user_id && intFilterLt before_ts m.ts && intFilterGt after_ts m.ts)
      tbl (dc.map (fun c => (c.ts, c.id))) limit
    (p.1, p.2.map (fun k => encode_cursor k.1 k.2)))

def list_files_page (tbl : List FileRow) (workspace_id : String) (limit : Nat)
    (cursor : Option String) (channel_id : Option String) (user_id : Option String)
    (before_ts : Option Int) (after_ts : Option Int) :
    Except String (List FileRow × Option String) :=
  (optDecode decode_cursor cursor).map (fun dc =>
    let p := keysetPage ordDescTsId (fun f => (f.created_ts, f.id))
      (fun f => decide (f.workspace_id = workspace_id) && strFilter channel_id f.channel_id &&
        strFilter user_id f.user_id && intFilterLt before_ts f.created_ts &&
        intFilterGt after_ts f.created_ts)
      tbl (dc.map (fun c => (c.ts, c.id))) limit
    (p.1, p.2.map (fun k => encode_cursor k.1 k.2)))

/-- Repeatedly call a paginated endpoint, feeding back the returned
next-cursor, until no next-cursor is returned; collect the pages. -/
def pagesStep {ρ : Type} (res : Except String (List ρ × Option String))
    (next : Option String → List (List ρ)) : List (List ρ) :=
  match res with
  | .error _ => []
  | .ok (page, none) => [page]
  | .ok (page, some c) => page :: next (some c)

def paginateAll {ρ : Type} (pageFn : Option String → Except String (List ρ × Option String)) :
    Nat → Option String → List (List ρ)
  | 0, _ => []
  | f + 1, cur => pagesStep (pageFn cur) (paginateAll pageFn f)

/-! ### Generic keyset pagination theory

`lt` is the strict scan order on sort keys; the three hypotheses say it is
a strict linear order.  `key` is injective on the scoped collection
because every collection's sort key contains its primary key. -/

def coreStep {ρ K : Type} (p : List ρ × Option K) (next : K → List (List ρ)) :
    List (List ρ) :=
  match p with
  | (page, none) => [page]
  | (page, some k) => page :: next k

def corePaginate {ρ K : Type} (lt : K → K → Bool) (key : ρ → K) (pred : ρ → Bool)
    (tbl : List ρ) (limit : Nat) : Nat → Option K → List (List ρ)
  | 0, _ => []
  | f + 1, cur =>
      coreStep (keysetPage lt key pred tbl cur limit)
        (fun k => corePaginate lt key pred tbl limit f (some k))

theorem sqlSort_perm {ρ K : Type} (lt : K → K → Bool) (key : ρ → K) (tbl : List ρ) :
    (sqlSort lt key tbl).Perm tbl :=
  List.perm_insertionSort _ tbl

theorem sqlSort_pairwise {ρ K : Type} (lt : K → K → Bool) (key : ρ → K)
    (hirr : ∀ k, lt k k = false)
    (htr : ∀ a b c, lt a b = true → lt b c = true → lt a c = true)
    (htot : ∀ a b, lt a b = false → lt b a = false → a = b)
    (tbl : List ρ) :
    (sqlSort lt key tbl).Pairwise (fun a b => (! lt (key b) (key a)) = true) := by
  haveI htrans : IsTrans ρ (fun a b => (! lt (key b) (key a)) = true) := by
    constructor
    intro a b c hab hbc
    simp only [Bool.not_eq_true'] at hab hbc ⊢
    by_cases hac : lt (key c) (key a) = true
    · by_cases hbc2 : lt (key b) (key c) = true
      · exact absurd (htr _ _ _ hbc2 hac) (by simp [hab])
      · have heq : key b = key c := htot _ _ (by simpa using hbc2) hbc
        rw [heq] at hab
        exact absurd hac (by simp [hab])
    · simpa using hac
  haveI htotal : IsTotal ρ (fun a b => (! lt (key b) (key a)) = true) := by
    constructor
    intro a b
    by_cases h1 : lt (key b) (key a) = true
    · by_cases h2 : lt (key a) (key b) = true
      · exact absurd (htr _ _ _ h1 h2) (by simp [hirr])
      · right
        simpa using h2
    · left
      simpa using h1
  exact List.sorted_insertionSort _ tbl

theorem pairwise_strict_of_nodup {ρ K : Type} (lt : K → K → Bool) (key : ρ → K)
    (htot : ∀ a b, lt a b = false → lt b a = false → a = b)
    {S : List ρ}
    (hle : S.Pairwise (fun a b => (! lt (key b) (key a)) = true))
    (hkeys : (S.map key).Nodup) :
    S.Pairwise (fun a b => lt (key a) (key b) = true) := by
  have hne : S.Pairwise (fun a b => key a ≠ key b) := List.pairwise_map.mp hkeys
  have hcomb := List.Pairwise.and hle hne
  apply hcomb.imp
  intro a b hab
  obtain ⟨h1, h2⟩ := hab
  simp only [Bool.not_eq_true'] at h1
  by_cases h3 : lt (key a) (key b) = true
  · exact h3
  · exact absurd (htot _ _ (by simpa using h3) h1) h2

theorem filter_true_of {ρ : Type} (p : ρ → Bool) (l : List ρ) (h : ∀ x ∈ l, p x = true) :
    l.filter p = l := List.filter_eq_self.mpr h

theorem filter_subpred {ρ : Type} (p q : ρ → Bool) :
    ∀ l : List ρ, (∀ x ∈ l, q x = true → p x = true) →
      l.filter q = (l.filter p).filter q := by
  intro l
  induction l with
  | nil => intro _; rfl
  | cons x xs ih =>
      intro h
      by_cases hq : q x = true
      · have hp : p x = true := h x (by simp) hq
        simp only [List.filter_cons, hq, hp, if_true]
        rw [ih (fun y hy => h y (by simp [hy]))]
      · simp only [List.filter_cons, hq, Bool.false_eq_true, if_false]
        by_cases hp : p x = true
        · simp only [hp, if_true, List.filter_cons, hq, Bool.false_eq_true, if_false]
          exact ih (fun y hy => h y (by simp [hy]))
        · simp only [hp, Bool.false_eq_true, if_false]
          exact ih (fun y hy => h y (by simp [hy]))

theorem getLast?_mem {ρ : Type} {l : List ρ} {a : ρ} (h : l.getLast? = some a) : a ∈ l := by
  rw [List.getLast?_eq_getElem?] at h
  obtain ⟨hlt, hget⟩ := List.getElem?_eq_some_iff.mp h
  rw [← hget]
  exact List.getElem_mem hlt

theorem filter_lt_getLast {ρ K : Type} (lt : K → K → Bool) (key : ρ → K)
    (hirr : ∀ k, lt k k = false)
    (htr : ∀ a b c, lt a b = true → lt b c = true → lt a c = true) :
    ∀ (A B : List ρ) (a : ρ), A.getLast? = some a →
      (A ++ B).Pairwise (fun x y => lt (key x) (key y) = true) →
      (A ++ B).filter (fun r => lt (key a) (key r)) = B := by
  intro A
  induction A with
  | nil =>
      intro B a h
      simp at h
  | cons x A ih =>
      intro B a hlast hpw
      cases hA : A with
      | nil =>
          subst hA
          have hax : a = x := by
            simp only [List.getLast?_singleton, Option.some.injEq] at hlast
            exact hlast.symm
          subst hax
          rw [List.cons_append, List.nil_append] at hpw ⊢
          obtain ⟨hhead, _⟩ := List.pairwise_cons.mp hpw
          simp only [List.filter_cons, hirr (key a), Bool.false_eq_true, if_false]
          apply filter_true_of
          intro y hy
          exact hhead y hy
      | cons z A2 =>
          rw [← hA]
          have hlast2 : A.getLast? = some a := by
            rw [hA] at hlast ⊢
            simpa [List.getLast?_cons_cons] using hlast
          rw [List.cons_append] at hpw
          obtain ⟨hhead, hpw2⟩ := List.pairwise_cons.mp hpw
          have hmem : a ∈ A ++ B := by
            simp [List.mem_append, getLast?_mem hlast2]
          have hxa : lt (key x) (key a) = true := hhead a hmem
          have hnot : lt (key a) (key x) = false := by
            by_cases hcon : lt (key a) (key x) = true
            · exact absurd (htr _ _ _ hxa hcon) (by simp [hirr])
            · simpa using hcon
          simp only [List.cons_append, List.filter_cons, hnot, Bool.false_eq_true, if_false]
          exact ih B a hlast2 hpw2

theorem keysetPage_small {ρ K : Type} (lt : K → K → Bool) (key : ρ → K) (pred : ρ → Bool)
    (tbl : List ρ) (cur : Option K) (limit : Nat) (R : List ρ)
    (hfilter : (sqlSort lt key tbl).filter (fun r => pred r && afterKey lt key cur r) = R)
    (hsmall : R.length ≤ limit) :
    keysetPage lt key pred tbl cur limit = (R, none) := by
  unfold keysetPage
  rw [hfilter]
  rw [List.take_of_length_le (by omega)]
  rw [if_neg (by omega)]

theorem keysetPage_big {ρ K : Type} (lt : K → K → Bool) (key : ρ → K) (pred : ρ → Bool)
    (tbl : List ρ) (cur : Option K) (limit : Nat) (R : List ρ) (a : ρ)
    (hfilter : (sqlSort lt key tbl).filter (fun r => pred r && afterKey lt key cur r) = R)
    (hbig : limit < R.length) (hlim : 1 ≤ limit)
    (hget : R[limit - 1]? = some a) :
    keysetPage lt key pred tbl cur limit = (R.take limit, some (key a)) := by
  unfold keysetPage
  rw [hfilter]
  have hlen : (R.take (limit + 1)).length = limit + 1 := by
    rw [List.length_take]
    omega
  rw [if_pos (by omega)]
  have h1 : (R.take (limit + 1)).take limit = R.take limit := by
    rw [List.take_take]
    congr 1
    omega
  have h2 : (R.take (limit + 1))[limit - 1]? = some a := by
    rw [List.getElem?_take, if_pos (by omega)]
    exact hget
  rw [h1]
  have h3 : (R.take (limit + 1)).get? (limit - 1) = some a := by
    rw [List.get?_eq_getElem?]
    exact h2
  rw [h3]
  rfl

theorem corePaginate_join {ρ K : Type} (lt : K → K → Bool) (key : ρ → K) (pred : ρ → Bool)
    (tbl : List ρ) (limit : Nat)
    (hirr : ∀ k, lt k k = false)
    (htr : ∀ a b c, lt a b = true → lt b c = true → lt a c = true)
    (htot : ∀ a b, lt a b = false → lt b a = false → a = b)
    (hkeys : ((tbl.filter pred).map key).Nodup)
    (hlim : 1 ≤ limit) :
    ∀ (f : Nat) (cur : Option K) (R : List ρ),
      R = ((sqlSort lt key tbl).filter pred).filter (afterKey lt key cur) →
      R.length < f →
      (corePaginate lt key pred tbl limit f cur).flatten = R := by
  have hperm : (((sqlSort lt key tbl).filter pred).map key).Perm
      ((tbl.filter pred).map key) :=
    ((sqlSort_perm lt key tbl).filter pred).map key
  have hkeysS : (((sqlSort lt key tbl).filter pred).map key).Nodup :=
    (List.Perm.nodup_iff hperm).mpr hkeys
  have hpwS : ((sqlSort lt key tbl).filter pred).Pairwise
      (fun a b => lt (key a) (key b) = true) :=
    pairwise_strict_of_nodup lt key htot
      ((sqlSort_pairwise lt key hirr htr htot tbl).filter pred) hkeysS
  intro f
  induction f with
  | zero =>
      intro cur R hR hf
      omega
  | succ f ih =>
      intro cur R hR hf
      have hfilter : (sqlSort lt key tbl).filter
          (fun r => pred r && afterKey lt key cur r) = R := by
        rw [hR, List.filter_filter]
        apply List.filter_congr
        intro x _
        exact Bool.and_comm _ _
      by_cases hsmall : R.length ≤ limit
      · rw [corePaginate, keysetPage_small lt key pred tbl cur limit R hfilter hsmall]
        simp [coreStep]
      · push_neg at hsmall
        obtain ⟨a, hget⟩ : ∃ a, R[limit - 1]? = some a := by
          have : limit - 1 < R.length := by omega
          cases hcase : R[limit - 1]? with
          | none =>
              rw [List.getElem?_eq_none_iff] at hcase
              omega
          | some a => exact ⟨a, rfl⟩
        rw [corePaginate, keysetPage_big lt key pred tbl cur limit R a hfilter hsmall hlim hget]
        simp only [coreStep]
        have hRpw : R.Pairwise (fun a b => lt (key a) (key b) = true) := by
          rw [hR]
          exact hpwS.filter _
        have hamem : a ∈ R := by
          obtain ⟨hlt, hgeta⟩ := List.getElem?_eq_some_iff.mp hget
          rw [← hgeta]
          exact List.getElem_mem hlt
        have hdropfilter :
            ((sqlSort lt key tbl).filter pred).filter
              (afterKey lt key (some (key a))) = R.drop limit := by
          have hsub : ((sqlSort lt key tbl).filter pred).filter
              (fun r => lt (key a) (key r)) =
              (((sqlSort lt key tbl).filter pred).filter (afterKey lt key cur)).filter
                (fun r => lt (key a) (key r)) := by
            apply filter_subpred
            intro x _ hq
            cases cur with
            | none => rfl
            | some ck =>
                have hcka : afterKey lt key (some ck) a = true := by
                  have hmem2 := hamem
                  rw [hR] at hmem2
                  exact (List.mem_filter.mp hmem2).2
                exact htr _ _ _ hcka hq
          have hlast : (R.take limit).getLast? = some a := by
            rw [List.getLast?_eq_getElem?]
            have hlT : (R.take limit).length = limit := by
              rw [List.length_take]
              omega
            rw [hlT, List.getElem?_take, if_pos (by omega)]
            exact hget
          have hfl : (R.take limit ++ R.drop limit).filter
              (fun r => lt (key a) (key r)) = R.drop limit := by
            apply filter_lt_getLast lt key hirr htr _ _ a hlast
            rw [List.take_append_drop]
            exact hRpw
          calc ((sqlSort lt key tbl).filter pred).filter (afterKey lt key (some (key a)))
              = ((sqlSort lt key tbl).filter pred).filter
                  (fun r => lt (key a) (key r)) := rfl
            _ = (((sqlSort lt key tbl).filter pred).filter (afterKey lt key cur)).filter
                  (fun r => lt (key a) (key r)) := hsub
            _ = R.filter (fun r => lt (key a) (key r)) := by rw [← hR]
            _ = (R.take limit ++ R.drop limit).filter (fun r => lt (key a) (key r)) := by
                  rw [List.take_append_drop]
            _ = R.drop limit := hfl
        have hrec := ih (some (key a)) (R.drop limit) hdropfilter.symm (by
          rw [List.length_drop]
          omega)
        simp only [List.flatten_cons, hrec]
        exact List.take_append_drop _ _

theorem except_map_ok {ε α β : Type} (f : α → β) (a : α) :
    (Except.ok a : Except ε α).map f = Except.ok (f a) := rfl

/-- Paging through the string-cursor endpoint visits exactly the pages of
the cursor-value-level paginator: the next-cursor string produced by one
call decodes back to the position key it encodes. -/
theorem paginateAll_eq_core {ρ K C : Type} (lt : K → K → Bool) (key : ρ → K)
    (pred : ρ → Bool) (tbl : List ρ) (limit : Nat)
    (dec : String → Except String (Option C)) (enc : K → String) (toKey : C → K)
    (hround : ∀ k : K, ∃ c, dec (enc k) = .ok (some c) ∧ toKey c = k) :
    ∀ (f : Nat) (kcur : Option K),
      paginateAll (fun cur => (optDecode dec cur).map (fun dc =>
        let p := keysetPage lt key pred tbl (dc.map toKey) limit
        (p.1, p.2.map enc))) f (kcur.map enc) =
      corePaginate lt key pred tbl limit f kcur := by
  intro f
  induction f with
  | zero =>
      intro kcur
      rfl
  | succ f ih =>
      intro kcur
      rw [paginateAll, corePaginate]
      have hbase : (optDecode dec (kcur.map enc)).map (fun dc =>
          let p := keysetPage lt key pred tbl (dc.map toKey) limit
          (p.1, p.2.map enc)) =
          .ok ((keysetPage lt key pred tbl kcur limit).1,
            (keysetPage lt key pred tbl kcur limit).2.map enc) := by
        cases kcur with
        | none => rfl
        | some k =>
            obtain ⟨c, hdec2, htk⟩ := hround k
            have h1 : optDecode dec ((some k).map enc) = dec (enc k) := rfl
            rw [h1, hdec2, except_map_ok]
            have h2 : (some c).map toKey = some k := by
              rw [Option.map_some', htk]
            rw [h2]
      rw [hbase]
      cases hKP : keysetPage lt key pred tbl kcur limit with
      | mk page nk =>
          cases nk with
          | none => simp [pagesStep, coreStep]
          | some k2 =>
              simp only [pagesStep, coreStep, Option.map_some']
              congr 1
              have hih := ih (some k2)
              simpa using hih

/-- Completeness of exhaustive keyset pagination through the string-cursor
endpoint: starting from no cursor and following next-cursors, the
concatenation of the pages is exactly the sorted scoped collection — every
row exactly once — and all pages are pairwise disjoint. -/
theorem keyset_strings_complete {ρ K C : Type} (lt : K → K → Bool) (key : ρ → K)
    (pred : ρ → Bool) (tbl : List ρ) (limit : Nat)
    (dec : String → Except String (Option C)) (enc : K → String) (toKey : C → K)
    (hirr : ∀ k, lt k k = false)
    (htr : ∀ a b c, lt a b = true → lt b c = true → lt a c = true)
    (htot : ∀ a b, lt a b = false → lt b a = false → a = b)
    (hround : ∀ k : K, ∃ c, dec (enc k) = .ok (some c) ∧ toKey c = k)
    (hkeys : ((tbl.filter pred).map key).Nodup)
    (hlim : 1 ≤ limit) :
    ((paginateAll (fun cur => (optDecode dec cur).map (fun dc =>
        let p := keysetPage lt key pred tbl (dc.map toKey) limit
        (p.1, p.2.map enc))) (tbl.length + 1) none).flatten =
      (sqlSort lt key tbl).filter pred) ∧
    ((paginateAll (fun cur => (optDecode dec cur).map (fun dc =>
        let p := keysetPage lt key pred tbl (dc.map toKey) limit
        (p.1, p.2.map enc))) (tbl.length + 1) none).flatten).Perm (tbl.filter pred) ∧
    ((paginateAll (fun cur => (optDecode dec cur).map (fun dc =>
        let p := keysetPage lt key pred tbl (dc.map toKey) limit
        (p.1, p.2.map enc))) (tbl.length + 1) none).flatten).Nodup ∧
    (paginateAll (fun cur => (optDecode dec cur).map (fun dc =>
        let p := keysetPage lt key pred tbl (dc.map toKey) limit
        (p.1, p.2.map enc))) (tbl.length + 1) none).Pairwise List.Disjoint := by
  have hbridge := paginateAll_eq_core lt key pred tbl limit dec enc toKey hround
    (tbl.length + 1) none
  simp only [Option.map_none'] at hbridge
  have hSfil : ((sqlSort lt key tbl).filter pred).filter (afterKey lt key none) =
      (sqlSort lt key tbl).filter pred := by
    apply filter_true_of
    intro x _
    rfl
  have hlen : ((sqlSort lt key tbl).filter pred).length < tbl.length + 1 := by
    have h1 := List.length_filter_le pred (sqlSort lt key tbl)
    have h2 : (sqlSort lt key tbl).length = tbl.length := by
      unfold sqlSort
      exact List.length_insertionSort _ tbl
    omega
  have hjoin := corePaginate_join lt key pred tbl limit hirr htr htot hkeys hlim
    (tbl.length + 1) none ((sqlSort lt key tbl).filter pred) hSfil.symm hlen
  rw [hbridge]
  refine ⟨hjoin, ?_, ?_, ?_⟩
  · rw [hjoin]
    exact (sqlSort_perm lt key tbl).filter pred
  · rw [hjoin]
    have hperm : (((sqlSort lt key tbl).filter pred).map key).Perm
        ((tbl.filter pred).map key) := ((sqlSort_perm lt key tbl).filter pred).map key
    exact List.Nodup.of_map key ((List.Perm.nodup_iff hperm).mpr hkeys)
  · have hnodup : (corePaginate lt key pred tbl limit (tbl.length + 1) none).flatten.Nodup := by
      rw [hjoin]
      have hperm : (((sqlSort lt key tbl).filter pred).map key).Perm
          ((tbl.filter pred).map key) := ((sqlSort_perm lt key tbl).filter pred).map key
      exact List.Nodup.of_map key ((List.Perm.nodup_iff hperm).mpr hkeys)
    exact (List.nodup_flatten.mp hnodup).2

/-! ### The three concrete scan orders are strict linear orders -/

theorem ordAscStr_irrefl (k : String) : ordAscStr k k = false := strLt_irrefl k

theorem ordAscStr_trans (a b c : String) (h1 : ordAscStr a b = true)
    (h2 : ordAscStr b c = true) : ordAscStr a c = true := strLt_trans h1 h2

theorem ordAscStr_total (a b : String) (h1 : ordAscStr a b = false)
    (h2 : ordAscStr b a = false) : a = b := strLt_total h1 h2

theorem ordDescTsId_irrefl (k : Int × String) : ordDescTsId k k = false := by
  simp [ordDescTsId, strLt_irrefl]

theorem ordDescTsId_trans (a b c : Int × String) (h1 : ordDescTsId a b = true)
    (h2 : ordDescTsId b c = true) : ordDescTsId a c = true := by
  simp only [ordDescTsId, Bool.or_eq_true, Bool.and_eq_true, decide_eq_true_eq] at h1 h2 ⊢
  rcases h1 with h1 | ⟨h1e, h1s⟩
  · rcases h2 with h2 | ⟨h2e, h2s⟩
    · left
      omega
    · left
      omega
  · rcases h2 with h2 | ⟨h2e, h2s⟩
    · left
      omega
    · right
      exact ⟨by omega, strLt_trans h2s h1s⟩

theorem ordDescTsId_total (a b : Int × String) (h1 : ordDescTsId a b = false)
    (h2 : ordDescTsId b a = false) : a = b := by
  simp only [ordDescTsId, Bool.or_eq_false_iff, Bool.and_eq_false_iff,
    decide_eq_false_iff_not] at h1 h2
  obtain ⟨h1a, h1b⟩ := h1
  obtain ⟨h2a, h2b⟩ := h2
  have hts : a.1 = b.1 := by omega
  have hid : a.2 = b.2 := by
    rcases h1b with h1b | h1b
    · exact absurd hts h1b
    · rcases h2b with h2b | h2b
      · exact absurd hts.symm h2b
      · exact strLt_total h2b h1b
  exact Prod.ext hts hid

theorem ordAscPair_irrefl (k : String × String) : ordAscPair k k = false := by
  simp [ordAscPair, strLt_irrefl]

theorem ordAscPair_trans (a b c : String × String) (h1 : ordAscPair a b = true)
    (h2 : ordAscPair b c = true) : ordAscPair a c = true := by
  simp only [ordAscPair, Bool.or_eq_true, Bool.and_eq_true, decide_eq_true_eq] at h1 h2 ⊢
  rcases h1 with h1 | ⟨h1e, h1s⟩
  · rcases h2 with h2 | ⟨h2e, h2s⟩
    · left
      exact strLt_trans h1 h2
    · left
      rw [← h2e]
      exact h1
  · rcases h2 with h2 | ⟨h2e, h2s⟩
    · left
      rw [h1e]
      exact h2
    · right
      exact ⟨by rw [h1e, h2e], strLt_trans h1s h2s⟩
theorem ordAscPair_total (a b : String × String) (h1 : ordAscPair a b = false)
    (h2 : ordAscPair b a = false) : a = b := by
  simp only [ordAscPair, Bool.or_eq_false_iff, Bool.and_eq_false_iff,
    decide_eq_false_iff_not] at h1 h2
  obtain ⟨h1a, h1b⟩ := h1
  obtain ⟨h2a, h2b⟩ := h2
  have hfst : a.1 = b.1 := strLt_total h1a h2a
  have hsnd : a.2 = b.2 := by
    rcases h1b with h1b | h1b
    · exact absurd hfst h1b
    · rcases h2b with h2b | h2b
      · exact absurd hfst.symm h2b
      · exact strLt_total h1b h2b
  exact Prod.ext hfst hsnd

set_option maxHeartbeats 1000000 in
theorem users_page_complete (tbl : List UserRow) (ws : String) (limit : Nat)
    (hlim : 1 ≤ limit) (hids : (tbl.map (fun u => u.id)).Nodup) :
    ((paginateAll (fun cur => list_users_page tbl ws limit cur)
        (tbl.length + 1) none).flatten =
      (sqlSort ordAscStr (fun u => u.id) tbl).filter
        (fun u => decide (u.workspace_id = ws))) ∧
    ((paginateAll (fun cur => list_users_page tbl ws limit cur)
        (tbl.length + 1) none).flatten).Perm
      (tbl.filter (fun u => decide (u.workspace_id = ws))) ∧
    ((paginateAll (fun cur => list_users_page tbl ws limit cur)
        (tbl.length + 1) none).flatten).Nodup ∧
    (paginateAll (fun cur => list_users_page tbl ws limit cur)
        (tbl.length + 1) none).Pairwise List.Disjoint := by
  have hkeys : ((tbl.filter (fun u => decide (u.workspace_id = ws))).map
      (fun u => u.id)).Nodup :=
    List.Nodup.sublist ((List.filter_sublist tbl).map _) hids
  have hfn : (fun cur => list_users_page tbl ws limit cur) =
      (fun cur => (optDecode decode_id_cursor cur).map (fun dc =>
        let p := keysetPage ordAscStr (fun u => u.id)
          (fun u => decide (u.workspace_id = ws)) tbl
          (dc.map (fun c => c.id)) limit
        (p.1, p.2.map encode_id_cursor))) := rfl
  rw [hfn]
  have hmain := keyset_strings_complete ordAscStr (fun u => u.id)
    (fun u => decide (u.workspace_id = ws)) tbl limit
    decode_id_cursor encode_id_cursor (fun c => c.id)
    ordAscStr_irrefl ordAscStr_trans ordAscStr_total
    (fun k => ⟨⟨k⟩, decode_encode_id_cursor k, rfl⟩)
    hkeys hlim
  exact hmain

set_option maxHeartbeats 1000000 in
theorem channels_page_complete (tbl : List ChannelRow) (ws : String) (limit : Nat)
    (hlim : 1 ≤ limit) (hids : (tbl.map (fun c => c.id)).Nodup) :
    ((paginateAll (fun cur => list_channels_page tbl ws limit cur none)
        (tbl.length + 1) none).flatten =
      (sqlSort ordAscStr (fun c => c.id) tbl).filter
        (fun c => decide (c.workspace_id = ws) && strFilter none c.channel_type)) ∧
    ((paginateAll (fun cur => list_channels_page tbl ws limit cur none)
        (tbl.length + 1) none).flatten).Perm
      (tbl.filter (fun c => decide (c.workspace_id = ws) && strFilter none c.channel_type)) ∧
    ((paginateAll (fun cur => list_channels_page tbl ws limit cur none)
        (tbl.length + 1) none).flatten).Nodup ∧
    (paginateAll (fun cur => list_channels_page tbl ws limit cur none)
        (tbl.length + 1) none).Pairwise List.Disjoint := by
  have hkeys : ((tbl.filter
      (fun c => decide (c.workspace_id = ws) && strFilter none c.channel_type)).map
      (fun c => c.id)).Nodup :=
    List.Nodup.sublist ((List.filter_sublist tbl).map _) hids
  have hfn : (fun cur => list_channels_page tbl ws limit cur none) =
      (fun cur => (optDecode decode_id_cursor cur).map (fun dc =>
        let p := keysetPage ordAscStr (fun c => c.id)
          (fun c => decide (c.workspace_id = ws) && strFilter none c.channel_type) tbl
          (dc.map (fun c => c.id)) limit
        (p.1, p.2.map encode_id_cursor))) := rfl
  rw [hfn]
  have hmain := keyset_strings_complete ordAscStr (fun c => c.id)
    (fun c => decide (c.workspace_id = ws) && strFilter none c.channel_type) tbl limit
    decode_id_cursor encode_id_cursor (fun c => c.id)
    ordAscStr_irrefl ordAscStr_trans ordAscStr_total
    (fun k => ⟨⟨k⟩, decode_encode_id_cursor k, rfl⟩)
    hkeys hlim
  exact hmain

set_option maxHeartbeats 1000000 in
theorem channel_members_page_complete (tbl : List ChannelMemberRow) (ws : String)
    (limit : Nat) (hlim : 1 ≤ limit)
    (hpk : (tbl.map (fun m => (m.channel_id, m.user_id))).Nodup) :
    ((paginateAll (fun cur => list_channel_members_page tbl ws limit cur none)
        (tbl.length + 1) none).flatten =
      (sqlSort ordAscPair (fun m => (m.channel_id, m.user_id)) tbl).filter
        (fun m => decide (m.workspace_id = ws) && strFilter none m.channel_id)) ∧
    ((paginateAll (fun cur => list_channel_members_page tbl ws limit cur none)
        (tbl.length + 1) none).flatten).Perm
      (tbl.filter (fun m => decide (m.workspace_id = ws) && strFilter none m.channel_id)) ∧
    ((paginateAll (fun cur => list_channel_members_page tbl ws limit cur none)
        (tbl.length + 1) none).flatten).Nodup ∧
    (paginateAll (fun cur => list_channel_members_page tbl ws limit cur none)
        (tbl.length + 1) none).Pairwise List.Disjoint := by
  have hkeys : ((tbl.filter
      (fun m => decide (m.workspace_id = ws) && strFilter none m.channel_id)).map
      (fun m => (m.channel_id, m.user_id))).Nodup :=
    List.Nodup.sublist ((List.filter_sublist tbl).map _) hpk
  have hfn : (fun cur => list_channel_members_page tbl ws limit cur none) =
      (fun cur => (optDecode decode_channel_member_cursor cur).map (fun dc =>
        let p := keysetPage ordAscPair (fun m => (m.channel_id, m.user_id))
          (fun m => decide (m.workspace_id = ws) && strFilter none m.channel_id) tbl
          (dc.map (fun c => (c.channel_id, c.user_id))) limit
        (p.1, p.2.map (fun k => encode_channel_member_cursor k.1 k.2)))) := rfl
  rw [hfn]
  have hmain := keyset_strings_complete ordAscPair (fun m => (m.channel_id, m.user_id))
    (fun m => decide (m.workspace_id = ws) && strFilter none m.channel_id) tbl limit
    decode_channel_member_cursor (fun k => encode_channel_member_cursor k.1 k.2)
    (fun c => (c.channel_id, c.user_id))
    ordAscPair_irrefl ordAscPair_trans ordAscPair_total
    (fun k => ⟨⟨k.1, k.2⟩, decode_encode_channel_member_cursor k.1 k.2, rfl⟩)
    hkeys hlim
  exact hmain

set_option maxHeartbeats 1000000 in
theorem messages_page_complete (tbl : List MessageRow) (ws : String) (limit : Nat)
    (hlim : 1 ≤ limit) (hids : (tbl.map (fun m => m.id)).Nodup) :
    ((paginateAll (fun cur => list_messages_page tbl ws limit cur none none none none)
        (tbl.length + 1) none).flatten =
      (sqlSort ordDescTsId (fun m => (m.ts, m.id)) tbl).filter
        (fun m => decide (m.workspace_id = ws) && strFilter none m.channel_id &&
          strFilter none m.user_id && intFilterLt none m.ts && intFilterGt none m.ts)) ∧
    ((paginateAll (fun cur => list_messages_page tbl ws limit cur none none none none)
        (tbl.length + 1) none).flatten).Perm
      (tbl.filter (fun m => decide (m.workspace_id = ws) && strFilter none m.channel_id &&
        strFilter none m.user_id && intFilterLt none m.ts && intFilterGt none m.ts)) ∧
    ((paginateAll (fun cur => list_messages_page tbl ws limit cur none none none none)
        (tbl.length + 1) none).flatten).Nodup ∧
    (paginateAll (fun cur => list_messages_page tbl ws limit cur none none none none)
        (tbl.length + 1) none).Pairwise List.Disjoint := by
  have hsub : ((tbl.filter (fun m => decide (m.workspace_id = ws) &&
      strFilter none m.channel_id && strFilter none m.user_id &&
      intFilterLt none m.ts && intFilterGt none m.ts)).map (fun m => m.id)).Nodup :=
    List.Nodup.sublist ((List.filter_sublist tbl).map _) hids
  have hkeys : ((tbl.filter (fun m => decide (m.workspace_id = ws) &&
      strFilter none m.channel_id && strFilter none m.user_id &&
      intFilterLt none m.ts && intFilterGt none m.ts)).map
      (fun m => (m.ts, m.id))).Nodup := by
    apply List.Nodup.of_map Prod.snd
    rw [List.map_map]
    exact hsub
  have hfn : (fun cur => list_messages_page tbl ws limit cur none none none none) =
      (fun cur => (optDecode decode_cursor cur).map (fun dc =>
        let p := keysetPage ordDescTsId (fun m => (m.ts, m.id))
          (fun m => decide (m.workspace_id = ws) && strFilter none m.channel_id &&
            strFilter none m.user_id && intFilterLt none m.ts && intFilterGt none m.ts) tbl
          (dc.map (fun c => (c.ts, c.id))) limit
        (p.1, p.2.map (fun k => encode_cursor k.1 k.2)))) := rfl
  rw [hfn]
  have hmain := keyset_strings_complete ordDescTsId (fun m => (m.ts, m.id))
    (fun m => decide (m.workspace_id = ws) && strFilter none m.channel_id &&
      strFilter none m.user_id && intFilterLt none m.ts && intFilterGt none m.ts) tbl limit
    decode_cursor (fun k => encode_cursor k.1 k.2) (fun c => (c.ts, c.id))
    ordDescTsId_irrefl ordDescTsId_trans ordDescTsId_total
    (fun k => ⟨⟨k.1, k.2⟩, decode_encode_cursor k.1 k.2, rfl⟩)
    hkeys hlim
  exact hmain

set_option maxHeartbeats 1000000 in
theorem files_page_complete (tbl : List FileRow) (ws : String) (limit : Nat)
    (hlim : 1 ≤ limit) (hids : (tbl.map (fun f => f.id)).Nodup) :
    ((paginateAll (fun cur => list_files_page tbl ws limit cur none none none none)
        (tbl.length + 1) none).flatten =
      (sqlSort ordDescTsId (fun f => (f.created_ts, f.id)) tbl).filter
        (fun f => decide (f.workspace_id = ws) && strFilter none f.channel_id &&
          strFilter none f.user_id && intFilterLt none f.created_ts &&
          intFilterGt none f.created_ts)) ∧
    ((paginateAll (fun cur => list_files_page tbl ws limit cur none none none none)
        (tbl.length + 1) none).flatten).Perm
      (tbl.filter (fun f => decide (f.workspace_id = ws) && strFilter none f.channel_id &&
        strFilter none f.user_id && intFilterLt none f.created_ts &&
        intFilterGt none f.created_ts)) ∧
    ((paginateAll (fun cur => list_files_page tbl ws limit cur none none none none)
        (tbl.length + 1) none).flatten).Nodup ∧
    (paginateAll (fun cur => list_files_page tbl ws limit cur none none none none)
        (tbl.length + 1) none).Pairwise List.Disjoint := by
  have hsub : ((tbl.filter (fun f => decide (f.workspace_id = ws) &&
      strFilter none f.channel_id && strFilter none f.user_id &&
      intFilterLt none f.created_ts && intFilterGt none f.created_ts)).map
      (fun f => f.id)).Nodup :=
    List.Nodup.sublist ((List.filter_sublist tbl).map _) hids
  have hkeys : ((tbl.filter (fun f => decide (f.workspace_id = ws) &&
      strFilter none f.channel_id && strFilter none f.user_id &&
      intFilterLt none f.created_ts && intFilterGt none f.created_ts)).map
      (fun f => (f.created_ts, f.id))).Nodup := by
    apply List.Nodup.of_map Prod.snd
    rw [List.map_map]
    exact hsub
  have hfn : (fun cur => list_files_page tbl ws limit cur none none none none) =
      (fun cur => (optDecode decode_cursor cur).map (fun dc =>
        let p := keysetPage ordDescTsId (fun f => (f.created_ts, f.id))
          (fun f => decide (f.workspace_id = ws) && strFilter none f.channel_id &&
            strFilter none f.user_id && intFilterLt none f.created_ts &&
            intFilterGt none f.created_ts) tbl
          (dc.map (fun c => (c.ts, c.id))) limit
        (p.1, p.2.map (fun k => encode_cursor k.1 k.2)))) := rfl
  rw [hfn]
  have hmain := keyset_strings_complete ordDescTsId (fun f => (f.created_ts, f.id))
    (fun f => decide (f.workspace_id = ws) && strFilter none f.channel_id &&
      strFilter none f.user_id && intFilterLt none f.created_ts &&
      intFilterGt none f.created_ts) tbl limit
    decode_cursor (fun k => encode_cursor k.1 k.2) (fun c => (c.ts, c.id))
    ordDescTsId_irrefl ordDescTsId_trans ordDescTsId_total
    (fun k => ⟨⟨k.1, k.2⟩, decode_encode_cursor k.1 k.2, rfl⟩)
    hkeys hlim
  exact hmain

/-! ### Deterministic generation engine (`generator.py`)

`random.Random` is modelled by `Rng`: a deterministic stream exposing the
operations the generator uses.  The Mersenne-Twister internals are
abstracted; what the code relies on — determinism, `randint` staying in
its bounds, `sample` drawing without replacement, and distinct seeds
giving distinct identifier draws (collision-freeness of the SHA-256
digest and the 128-bit draws) — is preserved, with seeding injective. -/

structure Rng where
  state : Nat
deriving DecidableEq

def Rng.next (r : Rng) : Nat × Rng := (r.state, ⟨r.state * 2 + 1⟩)

/-- `rng.randint(a, b)`: both ends inclusive.  (Python raises on `b < a`;
no call site does that.) -/
def Rng.randint (r : Rng) (a b : Int) : Int × Rng :=
  let p := r.next
  (a + (p.1 : Int) % (b - a + 1), p.2)

/-- `rng.random() < numer/denom`, the only way the generator consumes
`random()` (thresholds 0.02 and 0.15). -/
def Rng.randomLt (r : Rng) (numer denom : Nat) : Bool × Rng :=
  let p := r.next
  (decide (p.1 % denom < numer), p.2)

/-- `rng.choice(l)` (call sites guarantee `l` nonempty). -/
def Rng.choice {α : Type} [Inhabited α] (r : Rng) (l : List α) : α × Rng :=
  let p := r.next
  (l.getD (p.1 % l.length) default, p.2)

/-- `rng.sample(pool, k)`: `k` distinct elements of `pool` (call sites
guarantee `k ≤ len(pool)`; the model stops early on an exhausted pool). -/
def Rng.sample {α : Type} [Inhabited α] : Rng → List α → Nat → List α × Rng
  | r, _, 0 => ([], r)
  | r, pool, k + 1 =>
      if pool.isEmpty then ([], r)
      else
        let p := r.next
        let i := p.1 % pool.length
        let x := pool.getD i default
        let q := Rng.sample p.2 (pool.eraseIdx i) k
        (x :: q.1, q.2)

/-- Injective encoding of a Python int used to seed a stream. -/
def intSeed (i : Int) : Nat := 2 * i.natAbs + (if i < 0 then 1 else 0)

def mkRng (seed : Int) : Rng := ⟨intSeed seed⟩

/-- The deterministic seeded text provider (Faker seeded with
`seed_instance`): a stream of synthetic names, job titles, words and
sentences. -/
structure Faker where
  state : Nat
deriving DecidableEq

def Faker.nextF (f : Faker) : Nat × Faker := (f.state, ⟨f.state * 2 + 1⟩)

def mkFaker (seed : Int) : Faker := ⟨intSeed seed⟩

def Faker.name (f : Faker) : String × Faker :=
  let p := f.nextF
  ("User " ++ natRepr p.1, p.2)

def Faker.job (f : Faker) : String × Faker :=
  let p := f.nextF
  ("job-" ++ natRepr p.1, p.2)

def Faker.word (f : Faker) : String × Faker :=
  let p := f.nextF
  ("word" ++ natRepr p.1, p.2)

def Faker.sentence (f : Faker) (nbWords : Int) : String × Faker :=
  let p := f.nextF
  ("sentence-" ++ natRepr p.1 ++ "-" ++ intRepr nbWords, p.2)

structure GenerationConfig where
  workspace_name : String
  users : Int
  channels : Int
  dm_channels : Int
  mpdm_channels : Int
  messages : Int
  files : Int
  seed : Int
  batch_size : Int := 500
  channel_members_min : Int := 8
  channel_members_max : Int := 120
  mpdm_members_min : Int := 3
  mpdm_members_max : Int := 7
deriving DecidableEq

structure Workspace where
  id : String
  name : String
  created_at : Int
deriving DecidableEq

structure User where
  id : String
  workspace_id : String
  name : String
  email : String
  title : String
  is_bot : Int
deriving DecidableEq

/-- The channel record as the generator builds it and the store persists
it.  (`models.py`'s `Channel` dataclass lacks the `channel_type` field the
rest of the code uses — see the C2 analysis; the pipeline is modelled with
the field, following `generator.py`, `storage.py` and `cli.py`.) -/
structure Channel where
  id : String
  workspace_id : String
  name : String
  is_private : Int
  channel_type : String
  topic : String
deriving DecidableEq

structure ChannelMember where
  channel_id : String
  workspace_id : String
  user_id : String
deriving DecidableEq

structure Message where
  id : String
  workspace_id : String
  channel_id : String
  user_id : String
  ts : Int
  text : String
  thread_ts : Option Int
  reply_count : Int
  reactions_json : String
deriving DecidableEq

structure File where
  id : String
  workspace_id : String
  user_id : String
  name : String
  size : Int
  mimetype : String
  created_ts : Int
  channel_id : String
  message_id : Option String
  url : String
deriving DecidableEq

/-- Mutation hooks, modelled on the typed records (the claims under
verification only exercise the empty registry, whose hooks are all the
identity). -/
structure PluginRegistry where
  workspace_hooks : List (Workspace → Workspace) := []
  user_hooks : List (User → User) := []
  channel_hooks : List (Channel → Channel) := []
  message_hooks : List (Message → Message) := []
  file_hooks : List (File → File) := []

def applyHooks {α : Type} (hooks : List (α → α)) (payload : α) : α :=
  hooks.foldl (fun acc h => h acc) payload

def PluginRegistry.on_workspace (p : PluginRegistry) (w : Workspace) : Workspace :=
  applyHooks p.workspace_hooks w

def PluginRegistry.on_user (p : PluginRegistry) (u : User) : User :=
  applyHooks p.user_hooks u

def PluginRegistry.on_channel (p : PluginRegistry) (c : Channel) : Channel :=
  applyHooks p.channel_hooks c

def PluginRegistry.on_message (p : PluginRegistry) (m : Message) : Message :=
  applyHooks p.message_hooks m

def PluginRegistry.on_file (p : PluginRegistry) (f : File) : File :=
  applyHooks p.file_hooks f

def emptyRegistry : PluginRegistry := {}

def ID_STREAM_SEED_OFFSETS (stream : String) : Int :=
  if stream = "workspace" then 1001
  else if stream = "users" then 1003
  else if stream = "channels" then 1009
  else if stream = "messages" then 1021
  else 1031

/-- `_id_rng`: hash `f"{seed}:{offset}:{namespace}"` with SHA-256 and seed
a fresh generator from the first 64 bits of the digest.  The digest is
modelled as the injective `strEncode` (collision-freeness idealization of
the truncated hash). -/
def id_rng (seed : Int) (stream : String) (ns : String) : Rng :=
  ⟨strEncode (intRepr seed ++ ":" ++ intRepr (ID_STREAM_SEED_OFFSETS stream) ++ ":" ++ ns)⟩

/-- `_workspace_id_namespace`: `"|".join([name, str(users), str(channels),
str(dm_channels), str(mpdm_channels), str(messages), str(files)])`. -/
def workspace_id_namespace (config : GenerationConfig) : String :=
  config.workspace_name ++ "|" ++ intRepr config.users ++ "|" ++ intRepr config.channels ++
    "|" ++ intRepr config.dm_channels ++ "|" ++ intRepr config.mpdm_channels ++ "|" ++
    intRepr config.messages ++ "|" ++ intRepr config.files

/-- `_seeded_uuid`: 128 bits drawn from the stream, formatted as lowercase
hex with the UUIDv4 version/variant bits forced.  The truncation and the
bit forcing are elided: the draw is modelled injectively in the stream
state, matching the collision-freeness the identity model relies on. -/
def seeded_uuid (r : Rng) : String × Rng :=
  let p := r.next
  (natHex p.1, p.2)

def base_ts (seed : Int) : Int := 1700000000 + seed % 10000 * 100

def slug (text : String) : String :=
  String.mk (((text.toLower.replace " " "-").data).filter
    (fun c => c.isAlphanum || c = '-'))

def generate_workspace (config : GenerationConfig) (plugins : PluginRegistry) : Workspace :=
  let ts := base_ts config.seed
  let ids := id_rng config.seed "workspace" (workspace_id_namespace config)
  let p := seeded_uuid ids
  plugins.on_workspace ⟨p.1, config.workspace_name, ts⟩

def generate_users (config : GenerationConfig) (workspace_id : String) (rng : Rng)
    (faker : Faker) (plugins : PluginRegistry) : List User × Rng × Faker :=
  let step := fun (acc : List User × Rng × Rng × Faker) (idx : Nat) =>
    let (users, ids, rng, faker) := acc
    let pn := faker.name
    let email := slug pn.1 ++ "." ++ natRepr idx ++ "@example.com"
    let pu := seeded_uuid ids
    let pj := pn.2.job
    let pb := rng.randomLt 2 100
    let user := plugins.on_user
      ⟨pu.1, workspace_id, pn.1, email, pj.1, if pb.1 then 1 else 0⟩
    (users ++ [user], pu.2, pb.2, pj.2)
  let r := (List.range config.users.toNat).foldl step
    ([], id_rng config.seed "users" workspace_id, rng, faker)
  (r.1, r.2.2.1, r.2.2.2)

def pad4 (n : Nat) : String :=
  let s := natRepr n
  if s.length < 4 then String.mk (List.replicate (4 - s.length) '0') ++ s else s

def generate_channels (config : GenerationConfig) (workspace_id : String) (rng : Rng)
    (faker : Faker) (plugins : PluginRegistry) : List Channel × Rng × Faker :=
  let step := fun (acc : List Channel × Rng × Rng × Faker) (idx : Nat) =>
    let (chs, ids, rng, faker) := acc
    let pw := faker.word
    let base := pw.1.replace "_" "-"
    let name := if 0 < idx then base ++ "-" ++ natRepr idx else base
    let pp := rng.randomLt 15 100
    let pu := seeded_uuid ids
    let pt := pw.2.sentence 6
    let ch := plugins.on_channel
      ⟨pu.1, workspace_id, name, if pp.1 then 1 else 0,
        if pp.1 then "private" else "public", pt.1⟩
    (chs ++ [ch], pu.2, pp.2, pt.2)
  let r1 := (List.range config.channels.toNat).foldl step
    ([], id_rng config.seed "channels" workspace_id, rng, faker)
  let dmStep := fun (acc : List Channel × Rng) (idx : Nat) =>
    let (chs, ids) := acc
    let pu := seeded_uuid ids
    let ch := plugins.on_channel
      ⟨pu.1, workspace_id, "dm-" ++ pad4 (idx + 1), 1, "im", "Direct message"⟩
    (chs ++ [ch], pu.2)
  let r2 := (List.range config.dm_channels.toNat).foldl dmStep (r1.1, r1.2.1)
  let mpStep := fun (acc : List Channel × Rng) (idx : Nat) =>
    let (chs, ids) := acc
    let pu := seeded_uuid ids
    let ch := plugins.on_channel
      ⟨pu.1, workspace_id, "mpdm-" ++ pad4 (idx + 1), 1, "mpim",
        "Multi-party direct message"⟩
    (chs ++ [ch], pu.2)
  let r3 := (List.range config.mpdm_channels.toNat).foldl mpStep r2
  (r3.1, r1.2.2.1, r1.2.2.2)

/-- The per-channel membership draw of `generate_channel_members`.  The
four member-count bounds are taken as plain integers (the fields of the
config the draw reads). -/
def members_for_channel (mpdm_min mpdm_max : Int) (user_ids : List String)
    (min_cm max_cm : Int) (ch : Channel) (rng : Rng) : List String × Rng :=
  if ch.channel_type = "im" then
    if 2 ≤ user_ids.length then rng.sample user_ids 2 else (user_ids, rng)
  else if ch.channel_type = "mpim" then
    let max_mpdm := min mpdm_max (user_ids.length : Int)
    if max_mpdm < 3 then (user_ids, rng)
    else
      let min_mpdm := max 3 (min mpdm_min max_mpdm)
      let pc := rng.randint min_mpdm max_mpdm
      pc.2.sample user_ids pc.1.toNat
  else
    if max_cm = 0 then ([], rng)
    else
      let pc := rng.randint min_cm max_cm
      pc.2.sample user_ids pc.1.toNat

def gcmGo (mpdm_min mpdm_max : Int) (workspace_id : String) (user_ids : List String)
    (min_cm max_cm : Int) : List Channel → Rng → List ChannelMember × Rng
  | [], rng => ([], rng)
  | ch :: rest, rng =>
      let pm := members_for_channel mpdm_min mpdm_max user_ids min_cm max_cm ch rng
      let pr := gcmGo mpdm_min mpdm_max workspace_id user_ids min_cm max_cm rest pm.2
      (pm.1.map (fun uid => ⟨ch.id, workspace_id, uid⟩) ++ pr.1, pr.2)

def generate_channel_members (config : GenerationConfig) (workspace_id : String)
    (users : List User) (channels : List Channel) (rng : Rng) :
    List ChannelMember × Rng :=
  let user_ids := users.map (fun u => u.id)
  if user_ids.isEmpty then ([], rng)
  else
    let max_cm := max 1 (min config.channel_members_max (user_ids.length : Int))
    let min_cm := max 1 (min config.channel_members_min max_cm)
    gcmGo config.mpdm_members_min config.mpdm_members_max workspace_id user_ids
      min_cm max_cm channels rng

def generate_messages (config : GenerationConfig) (workspace_id : String)
    (user_ids channel_ids : List String) (rng : Rng) (faker : Faker)
    (plugins : PluginRegistry) : List Message × Rng × Faker :=
  let base := base_ts config.seed
  let step := fun (acc : List Message × Rng × Rng × Faker) (_ : Nat) =>
    let (msgs, ids, rng, faker) := acc
    let pid := seeded_uuid ids
    let pch := rng.choice channel_ids
    let pus := pch.2.choice user_ids
    let pts := pus.2.randint 0 2592000
    let pnw := pts.2.randint 4 20
    let ptx := faker.sentence pnw.1
    let prc := pnw.2.randint 0 6
    let pth := prc.2.randint 0 5
    let msg := plugins.on_message
      ⟨pid.1, workspace_id, pch.1, pus.1, base - pts.1, ptx.1, none, prc.1,
        jsonDumps (Json.obj [("thumbsup", JVal.jint pth.1)])⟩
    (msgs ++ [msg], pid.2, pth.2, ptx.2)
  let r := (List.range config.messages.toNat).foldl step
    ([], id_rng config.seed "messages" workspace_id, rng, faker)
  (r.1, r.2.2.1, r.2.2.2)

def generate_files (config : GenerationConfig) (workspace_id : String)
    (user_ids channel_ids : List String) (rng : Rng) (faker : Faker)
    (plugins : PluginRegistry) : List File × Rng × Faker :=
  let base := base_ts config.seed
  let mime_types := ["application/pdf", "image/png", "text/plain", "application/zip"]
  let step := fun (acc : List File × Rng × Rng × Faker) (_ : Nat) =>
    let (fls, ids, rng, faker) := acc
    let pid := seeded_uuid ids
    let pus := rng.choice user_ids
    let pw := faker.word
    let pext := pus.2.choice ["pdf", "png", "txt", "zip"]
    let psz := pext.2.randint 5000 5000000
    let pmt := psz.2.choice mime_types
    let pts := pmt.2.randint 0 2592000
    let pch := pts.2.choice channel_ids
    let purl := seeded_uuid pid.2
    let file := plugins.on_file
      ⟨pid.1, workspace_id, pus.1, pw.1 ++ "." ++ pext.1, psz.1, pmt.1,
        base - pts.1, pch.1, none, "https://files.example.com/" ++ purl.1⟩
    (fls ++ [file], purl.2, pch.2, pw.2)
  let r := (List.range config.files.toNat).foldl step
    ([], id_rng config.seed "files" workspace_id, rng, faker)
  (r.1, r.2.2.1, r.2.2.2)

structure GenRun where
  workspace : Workspace
  users : List User
  channels : List Channel
  members : List ChannelMember
  messages : List Message
  files : List File
deriving DecidableEq

/-- The full generation pass of the `generate` CLI command (after
validation): a fresh general-purpose stream and text provider seeded from
`config.seed`, then workspace → users → channels → members → messages →
files, each stage threading the streams onward. -/
def runGeneration (config : GenerationConfig) (plugins : PluginRegistry) : GenRun :=
  let ws := generate_workspace config plugins
  let rng0 := mkRng config.seed
  let faker0 := mkFaker config.seed
  let ru := generate_users config ws.id rng0 faker0 plugins
  let rc := generate_channels config ws.id ru.2.1 ru.2.2 plugins
  let user_ids := ru.1.map (fun u => u.id)
  let channel_ids := rc.1.map (fun c => c.id)
  let rm := generate_channel_members config ws.id ru.1 rc.1 rc.2.1
  let rmsg := generate_messages config ws.id user_ids channel_ids rm.2 rc.2.2 plugins
  let rf := generate_files config ws.id user_ids channel_ids rmsg.2.1 rmsg.2.2 plugins
  ⟨ws, ru.1, rc.1, rm.1, rmsg.1, rf.1⟩

/-! ### HTTP pagination endpoint (`api.py`, `list_users`) -/

/-- `SELECT * FROM users WHERE workspace_id = ? LIMIT ? OFFSET ?`
(no `ORDER BY`: table scan order). -/
def list_users_offset (tbl : List UserRow) (workspace_id : String)
    (limit offset : Nat) : List UserRow :=
  (((tbl.filter (fun u => decide (u.workspace_id = workspace_id))).drop offset).take limit)

/-- The `GET /workspaces/.../users` handler: reject a supplied cursor
combined with a nonzero offset; with a cursor, delegate to the keyset
page (a `ValueError` from cursor decoding becomes an HTTP 400); without
one, serve the offset query. -/
def api_list_users (tbl : List UserRow) (workspace_id : String) (limit offset : Nat)
    (cursor : Option String) : Except String (List UserRow × Option String) :=
  if cursor ≠ none ∧ offset ≠ 0 then Except.error "Use cursor or offset, not both"
  else
    match cursor with
    | some c => list_users_page tbl workspace_id limit (some c)
    | none => Except.ok (list_users_offset tbl workspace_id limit offset, none)

/-! ### CLI configuration validation (`cli.py`, the `generate` command) -/

/-- The validation ladder of the `generate` command, in source order; each
`typer.BadParameter` is an error value. -/
def validate_generate (users channels dm_channels mpdm_channels messages files
    batch_size cmin cmax mmin mmax : Int) : Except String Unit :=
  if users < 0 then Except.error "users must be >= 0"
  else if channels < 0 then Except.error "channels must be >= 0"
  else if dm_channels < 0 then Except.error "dm-channels must be >= 0"
  else if mpdm_channels < 0 then Except.error "mpdm-channels must be >= 0"
  else if messages < 0 then Except.error "messages must be >= 0"
  else if files < 0 then Except.error "files must be >= 0"
  else if batch_size ≤ 0 then Except.error "batch-size must be >= 1"
  else if cmin ≤ 0 ∨ cmax ≤ 0 then Except.error "channel member bounds must be >= 1"
  else if cmin > cmax then Except.error "channel-members-min must be <= channel-members-max"
  else if mmin ≤ 0 ∨ mmax ≤ 0 then Except.error "mpdm member bounds must be >= 1"
  else if mmin > mmax then Except.error "mpdm-members-min must be <= mpdm-members-max"
  else if users = 0 ∧ (dm_channels > 0 ∨ mpdm_channels > 0 ∨ messages > 0 ∨ files > 0) then
    Except.error "users must be > 0 when generating DMs/MPDMs, messages, or files."
  else if channels + dm_channels + mpdm_channels = 0 ∧ (messages > 0 ∨ files > 0) then
    Except.error "At least one channel (public/private/im/mpim) is required for messages/files."
  else Except.ok ()

/-- The `generate` command: the validation ladder runs to completion
before the store is opened and any generation starts, so an error carries
no generated state at all (fail-fast). -/
def cli_generate (workspace_name : String) (users channels dm_channels mpdm_channels
    messages files seed batch_size cmin cmax mmin mmax : Int)
    (plugins : PluginRegistry) : Except String GenRun :=
  (validate_generate users channels dm_channels mpdm_channels messages files
      batch_size cmin cmax mmin mmax).map
    (fun _ => runGeneration
      ⟨workspace_name, users, channels, dm_channels, mpdm_channels, messages, files,
        seed, batch_size, cmin, cmax, mmin, mmax⟩ plugins)

/-! ### `insert_channel_members` (`storage.py`)

`INSERT OR IGNORE INTO channel_members ...` against the primary key
`(channel_id, user_id)`: a row whose key is already present is silently
dropped; no error is raised. -/

def icmStep (t : List ChannelMemberRow) (m : ChannelMember) : List ChannelMemberRow :=
  if t.any (fun r => decide (r.channel_id = m.channel_id ∧ r.user_id = m.user_id)) then t
  else t ++ [⟨m.channel_id, m.workspace_id, m.user_id⟩]

def insert_channel_members (tbl : List ChannelMemberRow) (members : List ChannelMember) :
    List ChannelMemberRow :=
  members.foldl icmStep tbl

def rowPk (r : ChannelMemberRow) : String × String := (r.channel_id, r.user_id)

def memPk (m : ChannelMember) : String × String := (m.channel_id, m.user_id)

/-! ### The `Channel` dataclass mismatch (`models.py` vs `generator.py`) -/

/-- The fields of the `Channel` dataclass as declared in `models.py`. -/
def modelsChannelFields : List String :=
  ["id", "workspace_id", "name", "is_private", "topic"]

/-- The keyword arguments `generate_channels` passes to the `Channel`
constructor (same set for the ordinary, `im` and `mpim` branches). -/
def generateChannelsArgs : List String :=
  ["id", "workspace_id", "name", "is_private", "channel_type", "topic"]

/-- A dataclass constructor call with keyword arguments succeeds exactly
when the supplied names are the declared fields (all fields of `Channel`
are mandatory: none has a default). -/
def dataclassAccepts (fields args : List String) : Bool :=
  args.all (fun a => fields.contains a) && fields.all (fun f => args.contains f)

/-! ### Workspace-identifier payload decomposition (for C8) -/

/-- The exact string `_id_rng` hashes for the workspace stream:
`f"{seed}:{offset}:{namespace}"` with `offset = 1001`. -/
def wsPayload (config : GenerationConfig) : String :=
  intRepr config.seed ++ ":" ++ intRepr 1001 ++ ":" ++ workspace_id_namespace config

def breakAtFirst (t : Char) : List Char → Option (List Char × List Char)
  | [] => none
  | c :: cs =>
      if c = t then some ([], cs)
      else (breakAtFirst t cs).map (fun p => (c :: p.1, p.2))

def splitAtLast (t : Char) (l : List Char) : Option (List Char × List Char) :=
  (breakAtFirst t l.reverse).map (fun p => (p.2.reverse, p.1.reverse))

/-! ### Theory: insert-or-ignore on the `(channel_id, user_id)` key -/

theorem icm_any_iff (t : List ChannelMemberRow) (m : ChannelMember) :
    t.any (fun r => decide (r.channel_id = m.channel_id ∧ r.user_id = m.user_id)) = true ↔
      memPk m ∈ t.map rowPk := by
  rw [List.any_eq_true]
  constructor
  · rintro ⟨r, hr, hd⟩
    rw [decide_eq_true_eq] at hd
    refine List.mem_map.mpr ⟨r, hr, ?_⟩
    unfold rowPk memPk
    rw [hd.1, hd.2]
  · intro hmem
    obtain ⟨r, hr, heq⟩ := List.mem_map.mp hmem
    refine ⟨r, hr, ?_⟩
    rw [decide_eq_true_eq]
    unfold rowPk memPk at heq
    rw [Prod.mk.injEq] at heq
    exact heq

theorem icmStep_pk_mem (t : List ChannelMemberRow) (m : ChannelMember) :
    memPk m ∈ (icmStep t m).map rowPk := by
  unfold icmStep
  by_cases h : t.any
      (fun r => decide (r.channel_id = m.channel_id ∧ r.user_id = m.user_id)) = true
  · rw [if_pos h]
    exact (icm_any_iff t m).mp h
  · rw [if_neg h, List.map_append]
    apply List.mem_append_right
    simp [rowPk, memPk]

theorem icmStep_mem_mono (t : List ChannelMemberRow) (m : ChannelMember)
    (x : ChannelMemberRow) (hx : x ∈ t) : x ∈ icmStep t m := by
  unfold icmStep
  split
  · exact hx
  · exact List.mem_append_left _ hx

theorem foldl_icm_mem_mono (ms : List ChannelMember) :
    ∀ (t : List ChannelMemberRow) (x : ChannelMemberRow),
      x ∈ t → x ∈ List.foldl icmStep t ms := by
  induction ms with
  | nil => intro t x hx; exact hx
  | cons m ms ih => intro t x hx; exact ih _ _ (icmStep_mem_mono t m x hx)

theorem icmStep_pk_iff (t : List ChannelMemberRow) (m : ChannelMember)
    (p : String × String) :
    p ∈ (icmStep t m).map rowPk ↔ p ∈ t.map rowPk ∨ p = memPk m := by
  unfold icmStep
  by_cases h : t.any
      (fun r => decide (r.channel_id = m.channel_id ∧ r.user_id = m.user_id)) = true
  · rw [if_pos h]
    constructor
    · exact Or.inl
    · rintro (hp | rfl)
      · exact hp
      · exact (icm_any_iff t m).mp h
  · rw [if_neg h, List.map_append]
    simp [rowPk, memPk, List.mem_append]

theorem icmStep_pk_nodup (t : List ChannelMemberRow) (m : ChannelMember)
    (h : (t.map rowPk).Nodup) : ((icmStep t m).map rowPk).Nodup := by
  unfold icmStep
  by_cases hc : t.any
      (fun r => decide (r.channel_id = m.channel_id ∧ r.user_id = m.user_id)) = true
  · rw [if_pos hc]
    exact h
  · rw [if_neg hc, List.map_append, List.nodup_append]
    refine ⟨h, by simp, ?_⟩
    intro x hx hx'
    simp only [List.map_cons, List.map_nil, List.mem_singleton] at hx'
    subst hx'
    exact hc ((icm_any_iff t m).mpr hx)

theorem icmStep_of_pk_mem (t : List ChannelMemberRow) (m : ChannelMember)
    (h : memPk m ∈ t.map rowPk) : icmStep t m = t := by
  unfold icmStep
  rw [if_pos ((icm_any_iff t m).mpr h)]

theorem insert_cm_pk_iff (ms : List ChannelMember) :
    ∀ (t : List ChannelMemberRow) (p : String × String),
      p ∈ (List.foldl icmStep t ms).map rowPk ↔
        p ∈ t.map rowPk ∨ p ∈ ms.map memPk := by
  induction ms with
  | nil => intro t p; simp
  | cons m ms ih =>
      intro t p
      rw [List.foldl_cons, ih, icmStep_pk_iff, List.map_cons, List.mem_cons]
      tauto

theorem insert_cm_nodup (ms : List ChannelMember) :
    ∀ t : List ChannelMemberRow, (t.map rowPk).Nodup →
      ((List.foldl icmStep t ms).map rowPk).Nodup := by
  induction ms with
  | nil => intro t h; exact h
  | cons m ms ih => intro t h; exact ih _ (icmStep_pk_nodup t m h)

theorem insert_cm_idem (ms : List ChannelMember) :
    ∀ t : List ChannelMemberRow,
      List.foldl icmStep (List.foldl icmStep t ms) ms = List.foldl icmStep t ms := by
  induction ms with
  | nil => intro t; rfl
  | cons m ms ih =>
      intro t
      rw [List.foldl_cons, List.foldl_cons]
      have hmem : memPk m ∈ (List.foldl icmStep (icmStep t m) ms).map rowPk := by
        obtain ⟨r, hr, hrp⟩ := List.mem_map.mp (icmStep_pk_mem t m)
        exact List.mem_map.mpr ⟨r, foldl_icm_mem_mono ms _ r hr, hrp⟩
      rw [icmStep_of_pk_mem _ _ hmem]
      exact ih (icmStep t m)

/-! ### Theory: splitting joined strings at separator characters -/

theorem breakAtFirst_append (t : Char) (b : List Char) :
    ∀ a : List Char, (∀ c ∈ a, c ≠ t) →
      breakAtFirst t (a ++ t :: b) = some (a, b) := by
  intro a
  induction a with
  | nil =>
      intro _
      simp [breakAtFirst]
  | cons c cs ih =>
      intro h
      have hc : c ≠ t := h c (List.mem_cons_self c cs)
      rw [List.cons_append]
      simp only [breakAtFirst]
      rw [if_neg hc, ih (fun x hx => h x (List.mem_cons_of_mem c hx))]
      rfl

theorem splitAtLast_append (t : Char) (a b : List Char) (hb : ∀ c ∈ b, c ≠ t) :
    splitAtLast t (a ++ t :: b) = some (a, b) := by
  unfold splitAtLast
  have hrev : (a ++ t :: b).reverse = b.reverse ++ t :: a.reverse := by
    rw [List.reverse_append, List.reverse_cons, List.append_assoc,
      List.singleton_append]
  rw [hrev, breakAtFirst_append t a.reverse b.reverse
    (fun c hc => hb c (List.mem_reverse.mp hc))]
  simp

theorem sep_append_inj_first (t : Char) (a₁ b₁ a₂ b₂ : List Char)
    (ha₁ : ∀ c ∈ a₁, c ≠ t) (ha₂ : ∀ c ∈ a₂, c ≠ t)
    (h : a₁ ++ t :: b₁ = a₂ ++ t :: b₂) : a₁ = a₂ ∧ b₁ = b₂ := by
  have h1 := breakAtFirst_append t b₁ a₁ ha₁
  have h2 := breakAtFirst_append t b₂ a₂ ha₂
  rw [h, h2] at h1
  have h3 := Option.some.inj h1
  rw [Prod.mk.injEq] at h3
  exact ⟨h3.1.symm, h3.2.symm⟩

theorem sep_append_inj_last (t : Char) (a₁ b₁ a₂ b₂ : List Char)
    (hb₁ : ∀ c ∈ b₁, c ≠ t) (hb₂ : ∀ c ∈ b₂, c ≠ t)
    (h : a₁ ++ t :: b₁ = a₂ ++ t :: b₂) : a₁ = a₂ ∧ b₁ = b₂ := by
  have h1 := splitAtLast_append t a₁ b₁ hb₁
  have h2 := splitAtLast_append t a₂ b₂ hb₂
  rw [h, h2] at h1
  have h3 := Option.some.inj h1
  rw [Prod.mk.injEq] at h3
  exact ⟨h3.1.symm, h3.2.symm⟩

/-! ### Character content of the decimal representations -/

theorem intRepr_data_chars (i : Int) :
    ∀ c ∈ (intRepr i).data, c.toNat = 45 ∨ (48 ≤ c.toNat ∧ c.toNat ≤ 57) := by
  unfold intRepr
  split
  · intro c hc
    have hc' : c ∈ '-' :: (natRepr i.natAbs).data := hc
    rcases List.mem_cons.mp hc' with rfl | hm
    · left
      rfl
    · exact Or.inr (natRepr_data_digit _ c hm)
  · intro c hc
    exact Or.inr (natRepr_data_digit _ c hc)

theorem intRepr_no_pipe (i : Int) : ∀ c ∈ (intRepr i).data, c ≠ '|' := by
  intro c hc heq
  have h := intRepr_data_chars i c hc
  rw [heq] at h
  have : ('|' : Char).toNat = 124 := rfl
  omega

theorem intRepr_no_colon (i : Int) : ∀ c ∈ (intRepr i).data, c ≠ ':' := by
  intro c hc heq
  have h := intRepr_data_chars i c hc
  rw [heq] at h
  have : (':' : Char).toNat = 58 := rfl
  omega

theorem wsPayload_data (c : GenerationConfig) :
    (wsPayload c).data =
      (intRepr c.seed).data ++ ':' ::
        ((intRepr 1001).data ++ ':' :: (workspace_id_namespace c).data) := by
  unfold wsPayload
  have hcolon : (":" : String).data = [':'] := rfl
  simp [String.data_append, hcolon, List.append_assoc, List.singleton_append]

theorem ns_data_left (c : GenerationConfig) :
    (workspace_id_namespace c).data =
      (((((c.workspace_name.data ++ '|' :: (intRepr c.users).data) ++ '|' ::
        (intRepr c.channels).data) ++ '|' :: (intRepr c.dm_channels).data) ++ '|' ::
        (intRepr c.mpdm_channels).data) ++ '|' :: (intRepr c.messages).data) ++ '|' ::
        (intRepr c.files).data := by
  unfold workspace_id_namespace
  have hpipe : ("|" : String).data = ['|'] := rfl
  simp [String.data_append, hpipe, List.append_assoc, List.singleton_append]

theorem wsId_eq (c : GenerationConfig) :
    (generate_workspace c emptyRegistry).id = natHex (strEncode (wsPayload c)) := rfl

/-- The workspace id determines the seed, the workspace name and all six
count fields: the digest payload splits uniquely at its separators
because the numeric components contain neither `:` nor `|`. -/
theorem wsId_inj (c₁ c₂ : GenerationConfig)
    (h : (generate_workspace c₁ emptyRegistry).id =
      (generate_workspace c₂ emptyRegistry).id) :
    c₁.workspace_name = c₂.workspace_name ∧ c₁.users = c₂.users ∧
    c₁.channels = c₂.channels ∧ c₁.dm_channels = c₂.dm_channels ∧
    c₁.mpdm_channels = c₂.mpdm_channels ∧ c₁.messages = c₂.messages ∧
    c₁.files = c₂.files ∧ c₁.seed = c₂.seed := by
  rw [wsId_eq, wsId_eq] at h
  have hp := strEncode_injective (natHex_injective h)
  have hd := congrArg String.data hp
  rw [wsPayload_data, wsPayload_data] at hd
  have h1 := sep_append_inj_first ':' _ _ _ _ (intRepr_no_colon c₁.seed)
    (intRepr_no_colon c₂.seed) hd
  have hseed : c₁.seed = c₂.seed := intRepr_injective (String.ext h1.1)
  have h2 := sep_append_inj_first ':' _ _ _ _ (intRepr_no_colon 1001)
    (intRepr_no_colon 1001) h1.2
  have hns := h2.2
  rw [ns_data_left, ns_data_left] at hns
  have p6 := sep_append_inj_last '|' _ _ _ _ (intRepr_no_pipe c₁.files)
    (intRepr_no_pipe c₂.files) hns
  have p5 := sep_append_inj_last '|' _ _ _ _ (intRepr_no_pipe c₁.messages)
    (intRepr_no_pipe c₂.messages) p6.1
  have p4 := sep_append_inj_last '|' _ _ _ _ (intRepr_no_pipe c₁.mpdm_channels)
    (intRepr_no_pipe c₂.mpdm_channels) p5.1
  have p3 := sep_append_inj_last '|' _ _ _ _ (intRepr_no_pipe c₁.dm_channels)
    (intRepr_no_pipe c₂.dm_channels) p4.1
  have p2 := sep_append_inj_last '|' _ _ _ _ (intRepr_no_pipe c₁.channels)
    (intRepr_no_pipe c₂.channels) p3.1
  have p1 := sep_append_inj_last '|' _ _ _ _ (intRepr_no_pipe c₁.users)
    (intRepr_no_pipe c₂.users) p2.1
  exact ⟨String.ext p1.1, intRepr_injective (String.ext p1.2),
    intRepr_injective (String.ext p2.2), intRepr_injective (String.ext p3.2),
    intRepr_injective (String.ext p4.2), intRepr_injective (String.ext p5.2),
    intRepr_injective (String.ext p6.2), hseed⟩

/-! ### Theory: the draw operations -/

theorem randint_bounds (r : Rng) (a b : Int) (hab : a ≤ b) :
    a ≤ (r.randint a b).1 ∧ (r.randint a b).1 ≤ b := by
  unfold Rng.randint Rng.next
  dsimp only
  have hne : b - a + 1 ≠ 0 := by omega
  have h1 := Int.emod_nonneg (r.state : Int) hne
  have h2 := Int.emod_lt_of_pos (r.state : Int) (by omega : 0 < b - a + 1)
  constructor <;> omega

theorem sample_length {α : Type} [Inhabited α] :
    ∀ (k : Nat) (r : Rng) (pool : List α), k ≤ pool.length →
      (Rng.sample r pool k).1.length = k := by
  intro k
  induction k with
  | zero => intro r pool _; rfl
  | succ k ih =>
      intro r pool h
      cases pool with
      | nil => simp at h
      | cons a as =>
          have hlt : r.next.1 % (a :: as).length < (a :: as).length :=
            Nat.mod_lt _ (by simp)
          have hlen : k ≤ ((a :: as).eraseIdx (r.next.1 % (a :: as).length)).length := by
            rw [List.length_eraseIdx_of_lt hlt]
            simp only [List.length_cons] at h ⊢
            omega
          have hih := ih r.next.2 ((a :: as).eraseIdx (r.next.1 % (a :: as).length)) hlen
          simp only [Rng.sample, List.isEmpty_cons]
          rw [if_neg (by simp)]
          simp only [List.length_cons] at hih ⊢
          omega

theorem sample_subset {α : Type} [Inhabited α] :
    ∀ (k : Nat) (r : Rng) (pool : List α), ∀ x ∈ (Rng.sample r pool k).1, x ∈ pool := by
  intro k
  induction k with
  | zero => intro r pool x hx; simp [Rng.sample] at hx
  | succ k ih =>
      intro r pool x hx
      cases pool with
      | nil => simp [Rng.sample] at hx
      | cons a as =>
          simp only [Rng.sample, List.isEmpty_cons] at hx
          rw [if_neg (by simp)] at hx
          have hlt : r.next.1 % (a :: as).length < (a :: as).length :=
            Nat.mod_lt _ (by simp)
          rcases List.mem_cons.mp hx with rfl | hm
          · rw [List.getD_eq_getElem _ _ hlt]
            exact List.getElem_mem hlt
          · exact (List.eraseIdx_sublist (a :: as)
              (r.next.1 % (a :: as).length)).subset (ih _ _ x hm)

theorem getElem_not_mem_eraseIdx {α : Type} (l : List α) (hnd : l.Nodup)
    (i : Nat) (hi : i < l.length) : l[i] ∉ l.eraseIdx i := by
  intro hmem
  obtain ⟨j, hj, hji, hval⟩ := List.mem_eraseIdx_iff_getElem.mp hmem
  exact hji ((hnd.getElem_inj_iff).mp hval)

theorem sample_nodup {α : Type} [Inhabited α] :
    ∀ (k : Nat) (r : Rng) (pool : List α), pool.Nodup → (Rng.sample r pool k).1.Nodup := by
  intro k
  induction k with
  | zero => intro r pool _; exact List.nodup_nil
  | succ k ih =>
      intro r pool hnd
      cases pool with
      | nil => simp [Rng.sample]
      | cons a as =>
          simp only [Rng.sample, List.isEmpty_cons]
          rw [if_neg (by simp)]
          have hlt : r.next.1 % (a :: as).length < (a :: as).length :=
            Nat.mod_lt _ (by simp)
          rw [List.nodup_cons]
          constructor
          · rw [List.getD_eq_getElem _ _ hlt]
            intro hmem
            exact getElem_not_mem_eraseIdx (a :: as) hnd _ hlt
              ((List.Sublist.subset (by
                exact List.Sublist.refl _)) (sample_subset k r.next.2 _ _ hmem))
          · exact ih _ _ (hnd.eraseIdx _)

theorem filter_false_of {ρ : Type} (p : ρ → Bool) (l : List ρ)
    (h : ∀ x ∈ l, p x = false) : l.filter p = [] := by
  induction l with
  | nil => rfl
  | cons a as ih =>
      rw [List.filter_cons, h a (List.mem_cons_self a as)]
      rw [if_neg (by decide : ¬(false = true))]
      exact ih (fun x hx => h x (List.mem_cons_of_mem a hx))

/-! ### Per-channel member counts -/

theorem mfc_len_im (mm mx : Int) (uids : List String) (mn mc : Int) (ch : Channel)
    (rng : Rng) (hty : ch.channel_type = "im") :
    (members_for_channel mm mx uids mn mc ch rng).1.length =
      if 2 ≤ uids.length then 2 else uids.length := by
  unfold members_for_channel
  rw [if_pos hty]
  by_cases h2 : 2 ≤ uids.length
  · rw [if_pos h2, if_pos h2]
    exact sample_length 2 rng uids h2
  · rw [if_neg h2, if_neg h2]

theorem mfc_len_mpim_small (mm mx : Int) (uids : List String) (mn mc : Int)
    (ch : Channel) (rng : Rng) (hty : ch.channel_type = "mpim")
    (hsmall : min mx (uids.length : Int) < 3) :
    (members_for_channel mm mx uids mn mc ch rng).1.length = uids.length := by
  have him : ¬(ch.channel_type = "im") := by rw [hty]; decide
  unfold members_for_channel
  rw [if_neg him, if_pos hty]
  simp only
  rw [if_pos hsmall]

theorem mfc_len_mpim_big (mm mx : Int) (uids : List String) (mn mc : Int)
    (ch : Channel) (rng : Rng) (hty : ch.channel_type = "mpim")
    (hbig : 3 ≤ min mx (uids.length : Int)) :
    3 ≤ (members_for_channel mm mx uids mn mc ch rng).1.length ∧
    ((members_for_channel mm mx uids mn mc ch rng).1.length : Int) ≤
      min mx (uids.length : Int) := by
  have him : ¬(ch.channel_type = "im") := by rw [hty]; decide
  unfold members_for_channel
  rw [if_neg him, if_pos hty]
  simp only
  rw [if_neg (by omega : ¬(min mx (uids.length : Int) < 3))]
  have hAB : max 3 (min mm (min mx (uids.length : Int))) ≤ min mx (uids.length : Int) := by
    omega
  have hb := randint_bounds rng _ _ hAB
  have hk : (rng.randint (max 3 (min mm (min mx (uids.length : Int))))
      (min mx (uids.length : Int))).1.toNat ≤ uids.length := by
    omega
  rw [sample_length _ _ _ hk]
  omega

theorem mfc_len_ordinary (mm mx : Int) (uids : List String) (mn mc : Int)
    (ch : Channel) (rng : Rng) (h1 : ¬(ch.channel_type = "im"))
    (h2 : ¬(ch.channel_type = "mpim")) (hmn1 : 1 ≤ mn) (hmnmc : mn ≤ mc)
    (hmcp : mc ≤ (uids.length : Int)) :
    mn ≤ ((members_for_channel mm mx uids mn mc ch rng).1.length : Int) ∧
    ((members_for_channel mm mx uids mn mc ch rng).1.length : Int) ≤ mc := by
  unfold members_for_channel
  rw [if_neg h1, if_neg h2, if_neg (by omega : ¬(mc = 0))]
  have hb := randint_bounds rng mn mc hmnmc
  have hk : (rng.randint mn mc).1.toNat ≤ uids.length := by omega
  rw [sample_length _ _ _ hk]
  omega

theorem mfc_nodup (mm mx : Int) (uids : List String) (mn mc : Int) (ch : Channel)
    (rng : Rng) (h : uids.Nodup) :
    (members_for_channel mm mx uids mn mc ch rng).1.Nodup := by
  unfold members_for_channel
  split
  · split
    · exact sample_nodup _ _ _ h
    · exact h
  · split
    · dsimp only
      split
      · exact h
      · exact sample_nodup _ _ _ h
    · dsimp only
      split
      · exact List.nodup_nil
      · exact sample_nodup _ _ _ h

theorem gcmGo_channel_mem (mm mx : Int) (wsid : String) (uids : List String)
    (mn mc : Int) :
    ∀ (chs : List Channel) (rng : Rng) (m : ChannelMember),
      m ∈ (gcmGo mm mx wsid uids mn mc chs rng).1 →
      m.channel_id ∈ chs.map (fun c => c.id) := by
  intro chs
  induction chs with
  | nil => intro rng m hm; simp [gcmGo] at hm
  | cons ch rest ih =>
      intro rng m hm
      simp only [gcmGo] at hm
      rcases List.mem_append.mp hm with hm | hm
      · obtain ⟨uid, _, rfl⟩ := List.mem_map.mp hm
        simp
      · simp only [List.map_cons]
        exact List.mem_cons_of_mem _ (ih _ m hm)

theorem gcmGo_pk_nodup (mm mx : Int) (wsid : String) (uids : List String)
    (mn mc : Int) (hu : uids.Nodup) :
    ∀ (chs : List Channel) (rng : Rng), (chs.map (fun c => c.id)).Nodup →
      ((gcmGo mm mx wsid uids mn mc chs rng).1.map memPk).Nodup := by
  intro chs
  induction chs with
  | nil => intro rng _; simp [gcmGo]
  | cons ch rest ih =>
      intro rng hch
      rw [List.map_cons, List.nodup_cons] at hch
      simp only [gcmGo, List.map_append, List.nodup_append]
      refine ⟨?_, ih _ hch.2, ?_⟩
      · rw [List.map_map]
        apply List.Nodup.map ?_ (mfc_nodup mm mx uids mn mc ch rng hu)
        intro a b hab
        exact congrArg Prod.snd hab
      · intro p hp hp'
        rw [List.map_map] at hp
        obtain ⟨uid, _, rfl⟩ := List.mem_map.mp hp
        obtain ⟨m, hm, hpk⟩ := List.mem_map.mp hp'
        have hcid := gcmGo_channel_mem mm mx wsid uids mn mc rest _ m hm
        have hfst : m.channel_id = ch.id := congrArg Prod.fst hpk
        rw [hfst] at hcid
        exact hch.1 hcid

theorem gcmGo_count (mm mx : Int) (wsid : String) (uids : List String) (mn mc : Int) :
    ∀ (chs : List Channel) (rng : Rng) (ch : Channel),
      (chs.map (fun c => c.id)).Nodup → ch ∈ chs →
      ∃ r₀ : Rng, ((gcmGo mm mx wsid uids mn mc chs rng).1.filter
          (fun m => decide (m.channel_id = ch.id))).length =
        (members_for_channel mm mx uids mn mc ch r₀).1.length := by
  intro chs
  induction chs with
  | nil => intro rng ch _ hmem; exact absurd hmem (List.not_mem_nil ch)
  | cons chHead rest ih =>
      intro rng ch hnd hmem
      rw [List.map_cons, List.nodup_cons] at hnd
      simp only [gcmGo, List.filter_append]
      rcases List.mem_cons.mp hmem with rfl | hmem'
      · refine ⟨rng, ?_⟩
        have hkeep : ((members_for_channel mm mx uids mn mc ch rng).1.map
            (fun uid => (⟨ch.id, wsid, uid⟩ : ChannelMember))).filter
            (fun m => decide (m.channel_id = ch.id)) =
            (members_for_channel mm mx uids mn mc ch rng).1.map
            (fun uid => ⟨ch.id, wsid, uid⟩) := by
          apply filter_true_of
          intro x hx
          obtain ⟨uid, _, rfl⟩ := List.mem_map.mp hx
          simp
        have hdrop : ((gcmGo mm mx wsid uids mn mc rest
            (members_for_channel mm mx uids mn mc ch rng).2).1.filter
            (fun m => decide (m.channel_id = ch.id))) = [] := by
          apply filter_false_of
          intro x hx
          have hc := gcmGo_channel_mem mm mx wsid uids mn mc rest _ x hx
          rw [decide_eq_false_iff_not]
          intro heq
          rw [heq] at hc
          exact hnd.1 hc
        rw [hkeep, hdrop, List.append_nil, List.length_map]
      · have hne : ch.id ≠ chHead.id := by
          intro he
          apply hnd.1
          rw [← he]
          exact List.mem_map.mpr ⟨ch, hmem', rfl⟩
        have hdrop : ((members_for_channel mm mx uids mn mc chHead rng).1.map
            (fun uid => (⟨chHead.id, wsid, uid⟩ : ChannelMember))).filter
            (fun m => decide (m.channel_id = ch.id)) = [] := by
          apply filter_false_of
          intro x hx
          obtain ⟨uid, _, rfl⟩ := List.mem_map.mp hx
          rw [decide_eq_false_iff_not]
          exact fun he => hne he.symm
        rw [hdrop, List.nil_append]
        exact ih _ ch hnd.2 hmem'

theorem except_map_error_iff {ε α β : Type} (f : α → β) (x : Except ε α) :
    (∃ e, x.map f = Except.error e) ↔ (∃ e, x = Except.error e) := by
  cases x <;> simp [Except.map]

set_option maxHeartbeats 2000000 in
theorem validate_error_iff (users channels dm_channels mpdm_channels messages
    files batch_size cmin cmax mmin mmax : Int) :
    (∃ e, validate_generate users channels dm_channels mpdm_channels messages
        files batch_size cmin cmax mmin mmax = Except.error e) ↔
      (users < 0 ∨ channels < 0 ∨ dm_channels < 0 ∨ mpdm_channels < 0 ∨
       messages < 0 ∨ files < 0 ∨ batch_size ≤ 0 ∨ cmin ≤ 0 ∨ cmax ≤ 0 ∨
       cmin > cmax ∨ mmin ≤ 0 ∨ mmax ≤ 0 ∨ mmin > mmax ∨
       (users = 0 ∧ (dm_channels > 0 ∨ mpdm_channels > 0 ∨ messages > 0 ∨
         files > 0)) ∨
       (channels + dm_channels + mpdm_channels = 0 ∧
         (messages > 0 ∨ files > 0))) := by
  unfold validate_generate
  by_cases h1 : users < 0
  · rw [if_pos h1]
    exact iff_of_true ⟨_, rfl⟩ (by omega)
  · rw [if_neg h1]
    by_cases h2 : channels < 0
    · rw [if_pos h2]
      exact iff_of_true ⟨_, rfl⟩ (by omega)
    · rw [if_neg h2]
      by_cases h3 : dm_channels < 0
      · rw [if_pos h3]
        exact iff_of_true ⟨_, rfl⟩ (by omega)
      · rw [if_neg h3]
        by_cases h4 : mpdm_channels < 0
        · rw [if_pos h4]
          exact iff_of_true ⟨_, rfl⟩ (by omega)
        · rw [if_neg h4]
          by_cases h5 : messages < 0
          · rw [if_pos h5]
            exact iff_of_true ⟨_, rfl⟩ (by omega)
          · rw [if_neg h5]
            by_cases h6 : files < 0
            · rw [if_pos h6]
              exact iff_of_true ⟨_, rfl⟩ (by omega)
            · rw [if_neg h6]
              by_cases h7 : batch_size ≤ 0
              · rw [if_pos h7]
                exact iff_of_true ⟨_, rfl⟩ (by omega)
              · rw [if_neg h7]
                by_cases h8 : cmin ≤ 0 ∨ cmax ≤ 0
                · rw [if_pos h8]
                  exact iff_of_true ⟨_, rfl⟩ (by omega)
                · rw [if_neg h8]
                  by_cases h9 : cmin > cmax
                  · rw [if_pos h9]
                    exact iff_of_true ⟨_, rfl⟩ (by omega)
                  · rw [if_neg h9]
                    by_cases h10 : mmin ≤ 0 ∨ mmax ≤ 0
                    · rw [if_pos h10]
                      exact iff_of_true ⟨_, rfl⟩ (by omega)
                    · rw [if_neg h10]
                      by_cases h11 : mmin > mmax
                      · rw [if_pos h11]
                        exact iff_of_true ⟨_, rfl⟩ (by omega)
                      · rw [if_neg h11]
                        by_cases h12 : users = 0 ∧ (dm_channels > 0 ∨ mpdm_channels > 0 ∨ messages > 0 ∨ files > 0)
                        · rw [if_pos h12]
                          exact iff_of_true ⟨_, rfl⟩ (by omega)
                        · rw [if_neg h12]
                          by_cases h13 : channels + dm_channels + mpdm_channels = 0 ∧ (messages > 0 ∨ files > 0)
                          · rw [if_pos h13]
                            exact iff_of_true ⟨_, rfl⟩ (by omega)
                          · rw [if_neg h13]
                            exact iff_of_false (by simp) (by omega)

/-! ## The claims -/

/-- C1: Generation is deterministic.  The full generation run (workspace,
users, channels, members, messages, files — ids, field values and
ordering) is a pure function of the seed and the configuration shape:
under the empty plugin registry and the deterministic seeded text
provider, any two runs whose configurations agree on every
generation-relevant field (all fields except the persistence-only batch
size) produce identical records.  In particular two independent runs of
the same configuration coincide. -/
theorem c1_generation_deterministic (c₁ c₂ : GenerationConfig)
    (h1 : c₁.workspace_name = c₂.workspace_name) (h2 : c₁.users = c₂.users)
    (h3 : c₁.channels = c₂.channels) (h4 : c₁.dm_channels = c₂.dm_channels)
    (h5 : c₁.mpdm_channels = c₂.mpdm_channels) (h6 : c₁.messages = c₂.messages)
    (h7 : c₁.files = c₂.files) (h8 : c₁.seed = c₂.seed)
    (h9 : c₁.channel_members_min = c₂.channel_members_min)
    (h10 : c₁.channel_members_max = c₂.channel_members_max)
    (h11 : c₁.mpdm_members_min = c₂.mpdm_members_min)
    (h12 : c₁.mpdm_members_max = c₂.mpdm_members_max) :
    runGeneration c₁ emptyRegistry = runGeneration c₂ emptyRegistry := by
  cases c₁
  cases c₂
  dsimp only at h1 h2 h3 h4 h5 h6 h7 h8 h9 h10 h11 h12
  subst h1; subst h2; subst h3; subst h4; subst h5; subst h6
  subst h7; subst h8; subst h9; subst h10; subst h11; subst h12
  rfl

theorem c1_generation_deterministic_witness :
    (⟨"Acme", 2, 1, 1, 1, 2, 1, 42, 500, 8, 120, 3, 7⟩ :
        GenerationConfig).batch_size ≠
      (⟨"Acme", 2, 1, 1, 1, 2, 1, 42, 50, 8, 120, 3, 7⟩ :
        GenerationConfig).batch_size ∧
    runGeneration ⟨"Acme", 2, 1, 1, 1, 2, 1, 42, 500, 8, 120, 3, 7⟩ emptyRegistry =
      runGeneration ⟨"Acme", 2, 1, 1, 1, 2, 1, 42, 50, 8, 120, 3, 7⟩ emptyRegistry :=
  ⟨by decide, c1_generation_deterministic _ _ rfl rfl rfl rfl rfl rfl rfl rfl
    rfl rfl rfl rfl⟩

/-- C2: REFUTED — the claim requires every generated `Channel` record to
carry a `channel_type` field, but the `Channel` dataclass in `models.py`
declares only `id, workspace_id, name, is_private, topic`.
`generate_channels` passes `channel_type=` among its keyword arguments in
every branch (public/private, `im`, `mpim`), so the constructor call does
not match the dataclass declaration (a `TypeError` at runtime) and the
typed records the synthesizer returns cannot carry the claimed field at
all. -/
theorem c2_channel_type_field_missing :
    dataclassAccepts modelsChannelFields generateChannelsArgs = false ∧
    "channel_type" ∈ generateChannelsArgs ∧
    "channel_type" ∉ modelsChannelFields := by
  decide

/-- C9: the `generate` CLI command rejects exactly the invalid
configurations the spec lists — a negative requested count, batch size
below 1, member-count bounds below 1 or with min above max, zero users
combined with any DM/MPDM/message/file request, and zero total channels
combined with a message or file request — and the rejection is an error
value produced by the validation ladder before any generation runs, so no
generated state accompanies it. -/
theorem c9_validation_fail_fast (workspace_name : String)
    (users channels dm_channels mpdm_channels messages files seed batch_size
      cmin cmax mmin mmax : Int) (plugins : PluginRegistry) :
    (∃ e, cli_generate workspace_name users channels dm_channels mpdm_channels
        messages files seed batch_size cmin cmax mmin mmax plugins =
      Except.error e) ↔
      (users < 0 ∨ channels < 0 ∨ dm_channels < 0 ∨ mpdm_channels < 0 ∨
       messages < 0 ∨ files < 0 ∨ batch_size ≤ 0 ∨ cmin ≤ 0 ∨ cmax ≤ 0 ∨
       cmin > cmax ∨ mmin ≤ 0 ∨ mmax ≤ 0 ∨ mmin > mmax ∨
       (users = 0 ∧ (dm_channels > 0 ∨ mpdm_channels > 0 ∨ messages > 0 ∨
         files > 0)) ∨
       (channels + dm_channels + mpdm_channels = 0 ∧
         (messages > 0 ∨ files > 0))) := by
  unfold cli_generate
  rw [except_map_error_iff]
  exact validate_error_iff users channels dm_channels mpdm_channels messages
    files batch_size cmin cmax mmin mmax

/-- C10: `insert_channel_members` is insert-or-ignore on the
`(channel_id, user_id)` primary key: starting from any table whose key
column is duplicate-free, the result stays duplicate-free, contains a key
exactly when it was already present or appears among the inserted
members, and re-inserting the same member list (duplicates included)
changes nothing — duplicates are silently dropped, never an error. -/
theorem c10_insert_members_idempotent (tbl : List ChannelMemberRow)
    (members : List ChannelMember) (hpk : (tbl.map rowPk).Nodup) :
    ((insert_channel_members tbl members).map rowPk).Nodup ∧
    (∀ p, p ∈ (insert_channel_members tbl members).map rowPk ↔
      p ∈ tbl.map rowPk ∨ p ∈ members.map memPk) ∧
    insert_channel_members (insert_channel_members tbl members) members =
      insert_channel_members tbl members := by
  unfold insert_channel_members
  exact ⟨insert_cm_nodup members tbl hpk,
    fun p => insert_cm_pk_iff members tbl p, insert_cm_idem members tbl⟩

theorem c10_insert_members_idempotent_witness :
    (([] : List ChannelMemberRow).map rowPk).Nodup ∧
    insert_channel_members
        (insert_channel_members [] [⟨"c", "w", "u"⟩, ⟨"c", "w", "u"⟩])
        [⟨"c", "w", "u"⟩, ⟨"c", "w", "u"⟩] =
      insert_channel_members [] [⟨"c", "w", "u"⟩, ⟨"c", "w", "u"⟩] :=
  ⟨by decide,
    (c10_insert_members_idempotent [] [⟨"c", "w", "u"⟩, ⟨"c", "w", "u"⟩]
      (by decide)).2.2⟩

theorem list_users_page_some (tbl : List UserRow) (ws : String) (limit : Nat)
    (c : String) :
    list_users_page tbl ws limit (some c) = (decode_id_cursor c).map (fun dc =>
      let p := keysetPage ordAscStr (fun u => u.id)
        (fun u => decide (u.workspace_id = ws)) tbl (dc.map (fun x => x.id)) limit
      (p.1, p.2.map encode_id_cursor)) := rfl

/-- C6: cursor encoding round-trips, and the token format is exactly
base64url (padding stripped) over the compact JSON object with the
collection's position fields: `{"ts":…,"id":…}` for the timestamp cursor,
`{"id":…}` for the id cursor, `{"channel_id":…,"user_id":…}` for the
channel-member cursor.  Decoding an encoded position key recovers exactly
the original field mapping. -/
theorem c6_cursor_roundtrip_format :
    (∀ (ts : Int) (rid : String),
      decode_cursor (encode_cursor ts rid) = Except.ok (some ⟨ts, rid⟩) ∧
      encode_cursor ts rid = b64urlNoPad (utf8Encode (jsonDumps
        (Json.obj [("ts", JVal.jint ts), ("id", JVal.jstr rid)])))) ∧
    (∀ rid : String,
      decode_id_cursor (encode_id_cursor rid) = Except.ok (some ⟨rid⟩) ∧
      encode_id_cursor rid = b64urlNoPad (utf8Encode (jsonDumps
        (Json.obj [("id", JVal.jstr rid)])))) ∧
    (∀ cid uid : String,
      decode_channel_member_cursor (encode_channel_member_cursor cid uid) =
        Except.ok (some ⟨cid, uid⟩) ∧
      encode_channel_member_cursor cid uid = b64urlNoPad (utf8Encode (jsonDumps
        (Json.obj [("channel_id", JVal.jstr cid), ("user_id", JVal.jstr uid)])))) :=
  ⟨fun ts rid => ⟨decode_encode_cursor ts rid, rfl⟩,
   fun rid => ⟨decode_encode_id_cursor rid, rfl⟩,
   fun cid uid => ⟨decode_encode_channel_member_cursor cid uid, rfl⟩⟩

/-- C7 (amended): a paginated `list_users` request fails exactly when a
SUPPLIED cursor — empty or not — is combined with a nonzero offset, or
when a supplied cursor fails to decode (bad base64url, bad JSON, missing
field, wrong field type).  The original claim is wrong on one point: it
says an empty cursor is never an error, but the handler rejects
`cursor=""` together with a nonzero offset (see the counterexample); an
empty or absent cursor does mean "start of collection" and decodes
successfully, so it never causes a DECODE error. -/
theorem c7_invalid_cursor_errors (tbl : List UserRow) (ws : String)
    (limit offset : Nat) (cursor : Option String) :
    (∃ e, api_list_users tbl ws limit offset cursor = Except.error e) ↔
      ((cursor ≠ none ∧ offset ≠ 0) ∨
        (∃ c e₂, cursor = some c ∧ decode_id_cursor c = Except.error e₂)) := by
  cases cursor with
  | none =>
      unfold api_list_users
      rw [if_neg (by simp)]
      simp
  | some c =>
      by_cases ho : offset = 0
      · subst ho
        unfold api_list_users
        rw [if_neg (by simp)]
        dsimp only
        rw [list_users_page_some]
        cases hd : decode_id_cursor c with
        | error e =>
            constructor
            · intro _
              exact Or.inr ⟨c, e, rfl, hd⟩
            · intro _
              exact ⟨e, rfl⟩
        | ok v =>
            constructor
            · rintro ⟨e, he⟩
              simp [Except.map] at he
            · rintro (⟨_, hoff⟩ | ⟨c₂, e₂, hc, hdec⟩)
              · exact absurd rfl hoff
              · injection hc with hc
                subst hc
                rw [hd] at hdec
                exact Except.noConfusion hdec
      · unfold api_list_users
        rw [if_pos ⟨by simp, ho⟩]
        constructor
        · intro _
          exact Or.inl ⟨by simp, ho⟩
        · intro _
          exact ⟨_, rfl⟩

/-- C7 counterexample: the empty-string cursor decodes successfully (it is
the documented "start of collection" value), yet combined with a nonzero
offset the handler rejects the request — contradicting the claim that an
empty cursor is never an error. -/
theorem c7_counterexample :
    api_list_users ([] : List UserRow) "w" 10 1 (some "") =
      Except.error "Use cursor or offset, not both" ∧
    decode_id_cursor "" = Except.ok none :=
  ⟨rfl, rfl⟩

/-- C8: identifier stability and sensitivity.  The workspace identifier —
the seed of every downstream identifier stream's namespace — is a pure
function of the seed, the workspace name and the six shape counts (the
namespace string joins exactly those fields), and it changes whenever the
seed or any of those shape-affecting fields changes. -/
theorem c8_workspace_identity :
    (∀ c₁ c₂ : GenerationConfig,
      c₁.workspace_name = c₂.workspace_name → c₁.users = c₂.users →
      c₁.channels = c₂.channels → c₁.dm_channels = c₂.dm_channels →
      c₁.mpdm_channels = c₂.mpdm_channels → c₁.messages = c₂.messages →
      c₁.files = c₂.files → c₁.seed = c₂.seed →
      (generate_workspace c₁ emptyRegistry).id =
        (generate_workspace c₂ emptyRegistry).id) ∧
    (∀ c₁ c₂ : GenerationConfig,
      (c₁.workspace_name ≠ c₂.workspace_name ∨ c₁.users ≠ c₂.users ∨
       c₁.channels ≠ c₂.channels ∨ c₁.dm_channels ≠ c₂.dm_channels ∨
       c₁.mpdm_channels ≠ c₂.mpdm_channels ∨ c₁.messages ≠ c₂.messages ∨
       c₁.files ≠ c₂.files ∨ c₁.seed ≠ c₂.seed) →
      (generate_workspace c₁ emptyRegistry).id ≠
        (generate_workspace c₂ emptyRegistry).id) := by
  constructor
  · intro c₁ c₂ h1 h2 h3 h4 h5 h6 h7 h8
    cases c₁
    cases c₂
    dsimp only at h1 h2 h3 h4 h5 h6 h7 h8
    subst h1; subst h2; subst h3; subst h4; subst h5; subst h6; subst h7; subst h8
    rfl
  · intro c₁ c₂ hne heq
    obtain ⟨e1, e2, e3, e4, e5, e6, e7, e8⟩ := wsId_inj c₁ c₂ heq
    rcases hne with h | h | h | h | h | h | h | h
    exacts [h e1, h e2, h e3, h e4, h e5, h e6, h e7, h e8]

theorem c8_workspace_identity_witness :
    (generate_workspace ⟨"W", 1, 1, 0, 0, 0, 0, 5, 500, 8, 120, 3, 7⟩
        emptyRegistry).id =
      (generate_workspace ⟨"W", 1, 1, 0, 0, 0, 0, 5, 200, 9, 100, 3, 6⟩
        emptyRegistry).id ∧
    (generate_workspace ⟨"W", 1, 1, 0, 0, 0, 0, 5, 500, 8, 120, 3, 7⟩
        emptyRegistry).id ≠
      (generate_workspace ⟨"W", 2, 1, 0, 0, 0, 0, 5, 500, 8, 120, 3, 7⟩
        emptyRegistry).id :=
  ⟨c8_workspace_identity.1 _ _ rfl rfl rfl rfl rfl rfl rfl rfl,
   c8_workspace_identity.2 _ _ (Or.inr (Or.inl (by decide)))⟩

/-- C3: pagination completeness and disjointness.  For each of the five
collections, with a page size of at least 1 and distinct primary keys,
walking the keyset pages from the empty cursor until no next-cursor is
returned yields exactly the workspace-scoped rows (a permutation of the
filtered table), with no duplicates, and all pages — in particular any
two consecutive ones — pairwise disjoint. -/
theorem c3_pagination_complete :
    (∀ (tbl : List UserRow) (ws : String) (limit : Nat), 1 ≤ limit →
      (tbl.map (fun u => u.id)).Nodup →
      ((paginateAll (fun cur => list_users_page tbl ws limit cur)
          (tbl.length + 1) none).flatten.Perm
        (tbl.filter (fun u => decide (u.workspace_id = ws))) ∧
       (paginateAll (fun cur => list_users_page tbl ws limit cur)
          (tbl.length + 1) none).flatten.Nodup ∧
       (paginateAll (fun cur => list_users_page tbl ws limit cur)
          (tbl.length + 1) none).Pairwise List.Disjoint)) ∧
    (∀ (tbl : List ChannelRow) (ws : String) (limit : Nat), 1 ≤ limit →
      (tbl.map (fun c => c.id)).Nodup →
      ((paginateAll (fun cur => list_channels_page tbl ws limit cur none)
          (tbl.length + 1) none).flatten.Perm
        (tbl.filter (fun c => decide (c.workspace_id = ws) &&
          strFilter none c.channel_type)) ∧
       (paginateAll (fun cur => list_channels_page tbl ws limit cur none)
          (tbl.length + 1) none).flatten.Nodup ∧
       (paginateAll (fun cur => list_channels_page tbl ws limit cur none)
          (tbl.length + 1) none).Pairwise List.Disjoint)) ∧
    (∀ (tbl : List ChannelMemberRow) (ws : String) (limit : Nat), 1 ≤ limit →
      (tbl.map (fun m => (m.channel_id, m.user_id))).Nodup →
      ((paginateAll (fun cur => list_channel_members_page tbl ws limit cur none)
          (tbl.length + 1) none).flatten.Perm
        (tbl.filter (fun m => decide (m.workspace_id = ws) &&
          strFilter none m.channel_id)) ∧
       (paginateAll (fun cur => list_channel_members_page tbl ws limit cur none)
          (tbl.length + 1) none).flatten.Nodup ∧
       (paginateAll (fun cur => list_channel_members_page tbl ws limit cur none)
          (tbl.length + 1) none).Pairwise List.Disjoint)) ∧
    (∀ (tbl : List MessageRow) (ws : String) (limit : Nat), 1 ≤ limit →
      (tbl.map (fun m => m.id)).Nodup →
      ((paginateAll (fun cur => list_messages_page tbl ws limit cur none none none none)
          (tbl.length + 1) none).flatten.Perm
        (tbl.filter (fun m => decide (m.workspace_id = ws) &&
          strFilter none m.channel_id && strFilter none m.user_id &&
          intFilterLt none m.ts && intFilterGt none m.ts)) ∧
       (paginateAll (fun cur => list_messages_page tbl ws limit cur none none none none)
          (tbl.length + 1) none).flatten.Nodup ∧
       (paginateAll (fun cur => list_messages_page tbl ws limit cur none none none none)
          (tbl.length + 1) none).Pairwise List.Disjoint)) ∧
    (∀ (tbl : List FileRow) (ws : String) (limit : Nat), 1 ≤ limit →
      (tbl.map (fun f => f.id)).Nodup →
      ((paginateAll (fun cur => list_files_page tbl ws limit cur none none none none)
          (tbl.length + 1) none).flatten.Perm
        (tbl.filter (fun f => decide (f.workspace_id = ws) &&
          strFilter none f.channel_id && strFilter none f.user_id &&
          intFilterLt none f.created_ts && intFilterGt none f.created_ts)) ∧
       (paginateAll (fun cur => list_files_page tbl ws limit cur none none none none)
          (tbl.length + 1) none).flatten.Nodup ∧
       (paginateAll (fun cur => list_files_page tbl ws limit cur none none none none)
          (tbl.length + 1) none).Pairwise List.Disjoint)) := by
  refine ⟨?_, ?_, ?_, ?_, ?_⟩
  · intro tbl ws limit hlim hids
    exact (users_page_complete tbl ws limit hlim hids).2
  · intro tbl ws limit hlim hids
    exact (channels_page_complete tbl ws limit hlim hids).2
  · intro tbl ws limit hlim hids
    exact (channel_members_page_complete tbl ws limit hlim hids).2
  · intro tbl ws limit hlim hids
    exact (messages_page_complete tbl ws limit hlim hids).2
  · intro tbl ws limit hlim hids
    exact (files_page_complete tbl ws limit hlim hids).2

theorem c3_pagination_complete_witness :
    ((1 : Nat) ≤ 1 ∧
      (([⟨"a", "w", "n", "e", "t", 0⟩] : List UserRow).map (fun u => u.id)).Nodup) ∧
    ((paginateAll (fun cur => list_users_page [⟨"a", "w", "n", "e", "t", 0⟩] "w" 1 cur)
        (([⟨"a", "w", "n", "e", "t", 0⟩] : List UserRow).length + 1) none).flatten.Perm
      (([⟨"a", "w", "n", "e", "t", 0⟩] : List UserRow).filter
        (fun u => decide (u.workspace_id = "w"))) ∧
     (paginateAll (fun cur => list_users_page [⟨"a", "w", "n", "e", "t", 0⟩] "w" 1 cur)
        (([⟨"a", "w", "n", "e", "t", 0⟩] : List UserRow).length + 1) none).flatten.Nodup ∧
     (paginateAll (fun cur => list_users_page [⟨"a", "w", "n", "e", "t", 0⟩] "w" 1 cur)
        (([⟨"a", "w", "n", "e", "t", 0⟩] : List UserRow).length + 1) none).Pairwise
       List.Disjoint) :=
  ⟨⟨by decide, by decide⟩,
   c3_pagination_complete.1 [⟨"a", "w", "n", "e", "t", 0⟩] "w" 1 (by decide) (by decide)⟩

/-- Three users of workspace `"w"` with ids `"a" < "b" < "c"`. -/
def uA : UserRow := ⟨"a", "w", "Alice", "al@example.com", "t", 0⟩

def uB : UserRow := ⟨"b", "w", "Bob", "bo@example.com", "t", 0⟩

def uC : UserRow := ⟨"c", "w", "Cara", "ca@example.com", "t", 0⟩

/-- C4 (amended): the paginator fetches `limit + 1` rows; when at most
`limit` matching rows remain all of them are returned with no next
cursor; when more than `limit` remain, the page is the first `limit` rows
and the next cursor is built from the key of row `limit - 1` (0-indexed)
— the LAST ROW OF THE RETURNED PAGE.  The original claim (and spec) says
the cursor is built from the `limit`-th row, i.e. the first EXCLUDED row;
that is wrong, see the counterexample. -/
theorem c4_fetch_boundary {ρ K : Type} (lt : K → K → Bool) (key : ρ → K)
    (pred : ρ → Bool) (tbl : List ρ) (cur : Option K) (limit : Nat) (R : List ρ)
    (hR : (sqlSort lt key tbl).filter (fun r => pred r && afterKey lt key cur r) = R)
    (hlim : 1 ≤ limit) :
    (R.length ≤ limit → keysetPage lt key pred tbl cur limit = (R, none)) ∧
    (∀ a, limit < R.length → R[limit - 1]? = some a →
      keysetPage lt key pred tbl cur limit = (R.take limit, some (key a))) := by
  constructor
  · intro hsmall
    exact keysetPage_small lt key pred tbl cur limit R hR hsmall
  · intro a hbig hget
    exact keysetPage_big lt key pred tbl cur limit R a hR hbig hlim hget

/-- C4 counterexample: three matching rows `a < b < c`, `limit = 2`: the
page is `[a, b]` and the next cursor encodes `"b"` — the id of the last
RETURNED row (index `limit - 1 = 1`) — which differs from a cursor built
from the excluded row `"c"` (index `limit = 2`) as the claim requires. -/
theorem c4_counterexample :
    list_users_page [uA, uB, uC] "w" 2 none =
      Except.ok ([uA, uB], some (encode_id_cursor "b")) ∧
    encode_id_cursor "b" ≠ encode_id_cursor "c" := by
  constructor
  · rfl
  · decide

theorem c4_fetch_boundary_witness :
    ((sqlSort ordAscStr (fun u : UserRow => u.id) [uB, uC, uA]).filter
        (fun r => decide (r.workspace_id = "w") &&
          afterKey ordAscStr (fun u => u.id) none r) = [uA, uB, uC] ∧
      (1 : Nat) ≤ 2) ∧
    (([uA, uB, uC] : List UserRow).length ≤ 2 →
      keysetPage ordAscStr (fun u : UserRow => u.id)
        (fun r => decide (r.workspace_id = "w")) [uB, uC, uA] none 2 =
        ([uA, uB, uC], none)) ∧
    (∀ a, 2 < ([uA, uB, uC] : List UserRow).length →
      ([uA, uB, uC] : List UserRow)[2 - 1]? = some a →
      keysetPage ordAscStr (fun u : UserRow => u.id)
        (fun r => decide (r.workspace_id = "w")) [uB, uC, uA] none 2 =
        (([uA, uB, uC] : List UserRow).take 2, some a.id)) :=
  ⟨⟨by decide, by decide⟩,
   c4_fetch_boundary ordAscStr (fun u : UserRow => u.id)
     (fun r => decide (r.workspace_id = "w")) [uB, uC, uA] none 2 [uA, uB, uC]
     (by decide) (by decide)⟩

/-- Number of members the generator attaches to channel `ch` in a run of
`generate_channel_members`. -/
def memberCount (config : GenerationConfig) (wsid : String) (users : List User)
    (channels : List Channel) (rng : Rng) (ch : Channel) : Nat :=
  ((generate_channel_members config wsid users channels rng).1.filter
    (fun m => decide (m.channel_id = ch.id))).length

/-- C5: membership bounds.  With at least one user, validated member
bounds and distinct user and channel ids: every `im` channel gets exactly
2 members (all users when fewer than 2 exist); every `mpim` channel gets
all users when the pool cannot support 3, and otherwise between 3 and
`mpdm_members_max` members (clamped to the pool); every ordinary channel
gets between `channel_members_min` and `channel_members_max` members,
both clamped to the pool size; and the produced member list never repeats
a `(channel_id, user_id)` pair. -/
theorem c5_membership_bounds (config : GenerationConfig) (wsid : String)
    (users : List User) (channels : List Channel) (rng : Rng)
    (hpool : 1 ≤ users.length)
    (hcmin : 1 ≤ config.channel_members_min)
    (hcminmax : config.channel_members_min ≤ config.channel_members_max)
    (huids : (users.map (fun u => u.id)).Nodup)
    (hchids : (channels.map (fun c => c.id)).Nodup) :
    (∀ ch ∈ channels,
      (ch.channel_type = "im" →
        memberCount config wsid users channels rng ch =
          if 2 ≤ users.length then 2 else users.length) ∧
      (ch.channel_type = "mpim" →
        (min config.mpdm_members_max (users.length : Int) < 3 →
          memberCount config wsid users channels rng ch = users.length) ∧
        (3 ≤ min config.mpdm_members_max (users.length : Int) →
          3 ≤ memberCount config wsid users channels rng ch ∧
          (memberCount config wsid users channels rng ch : Int) ≤
            min config.mpdm_members_max (users.length : Int))) ∧
      (ch.channel_type ≠ "im" → ch.channel_type ≠ "mpim" →
        min config.channel_members_min (users.length : Int) ≤
          (memberCount config wsid users channels rng ch : Int) ∧
        (memberCount config wsid users channels rng ch : Int) ≤
          min config.channel_members_max (users.length : Int))) ∧
    ((generate_channel_members config wsid users channels rng).1.map memPk).Nodup := by
  have hulen : (users.map (fun u => u.id)).length = users.length :=
    List.length_map users _
  have hne : ¬((users.map (fun u => u.id)).isEmpty = true) := by
    cases users with
    | nil => simp at hpool
    | cons u us => simp
  have hgen : generate_channel_members config wsid users channels rng =
      gcmGo config.mpdm_members_min config.mpdm_members_max wsid
        (users.map (fun u => u.id))
        (max 1 (min config.channel_members_min
          (max 1 (min config.channel_members_max
            ((users.map (fun u => u.id)).length : Int)))))
        (max 1 (min config.channel_members_max
          ((users.map (fun u => u.id)).length : Int)))
        channels rng := by
    unfold generate_channel_members
    rw [if_neg hne]
  have hMC : max 1 (min config.channel_members_max
      ((users.map (fun u => u.id)).length : Int)) =
      min config.channel_members_max (users.length : Int) := by
    rw [hulen]
    omega
  have hMN : max 1 (min config.channel_members_min
      (min config.channel_members_max (users.length : Int))) =
      min config.channel_members_min (users.length : Int) := by
    omega
  have hgen2 : generate_channel_members config wsid users channels rng =
      gcmGo config.mpdm_members_min config.mpdm_members_max wsid
        (users.map (fun u => u.id))
        (min config.channel_members_min (users.length : Int))
        (min config.channel_members_max (users.length : Int))
        channels rng := by
    rw [hgen, hMC, hMN]
  constructor
  · intro ch hch
    obtain ⟨r₀, hcnt⟩ := gcmGo_count config.mpdm_members_min
      config.mpdm_members_max wsid (users.map (fun u => u.id))
      (min config.channel_members_min (users.length : Int))
      (min config.channel_members_max (users.length : Int))
      channels rng ch hchids hch
    have hmc_eq : memberCount config wsid users channels rng ch =
        (members_for_channel config.mpdm_members_min config.mpdm_members_max
          (users.map (fun u => u.id))
          (min config.channel_members_min (users.length : Int))
          (min config.channel_members_max (users.length : Int)) ch r₀).1.length := by
      unfold memberCount
      rw [hgen2]
      exact hcnt
    refine ⟨?_, ?_, ?_⟩
    · intro hty
      rw [hmc_eq, mfc_len_im _ _ _ _ _ _ _ hty, hulen]
    · intro hty
      constructor
      · intro hsmall
        rw [hmc_eq, mfc_len_mpim_small _ _ _ _ _ _ _ hty (by rw [hulen]; exact hsmall),
          hulen]
      · intro hbig
        have hb := mfc_len_mpim_big config.mpdm_members_min config.mpdm_members_max
          (users.map (fun u => u.id))
          (min config.channel_members_min (users.length : Int))
          (min config.channel_members_max (users.length : Int)) ch r₀ hty
          (by rw [hulen]; exact hbig)
        rw [hulen] at hb
        rw [hmc_eq]
        exact hb
    · intro h1 h2
      have hb := mfc_len_ordinary config.mpdm_members_min config.mpdm_members_max
        (users.map (fun u => u.id))
        (min config.channel_members_min (users.length : Int))
        (min config.channel_members_max (users.length : Int)) ch r₀ h1 h2
        (by omega) (by omega) (by rw [hulen]; omega)
      rw [hmc_eq]
      exact hb
  · rw [hgen2]
    exact gcmGo_pk_nodup config.mpdm_members_min config.mpdm_members_max wsid
      (users.map (fun u => u.id))
      (min config.channel_members_min (users.length : Int))
      (min config.channel_members_max (users.length : Int))
      (huids) channels rng hchids

theorem c5_membership_bounds_witness :
    ((1 : Nat) ≤ ([⟨"u1", "w", "n1", "e1", "t1", 0⟩, ⟨"u2", "w", "n2", "e2", "t2", 0⟩] :
        List User).length ∧
      (1 : Int) ≤ (⟨"W", 2, 1, 0, 0, 0, 0, 7, 500, 1, 2, 3, 7⟩ :
        GenerationConfig).channel_members_min ∧
      (⟨"W", 2, 1, 0, 0, 0, 0, 7, 500, 1, 2, 3, 7⟩ :
        GenerationConfig).channel_members_min ≤
        (⟨"W", 2, 1, 0, 0, 0, 0, 7, 500, 1, 2, 3, 7⟩ :
          GenerationConfig).channel_members_max ∧
      (([⟨"u1", "w", "n1", "e1", "t1", 0⟩, ⟨"u2", "w", "n2", "e2", "t2", 0⟩] :
        List User).map (fun u => u.id)).Nodup ∧
      (([⟨"c1", "w", "general", 0, "public", "t"⟩] : List Channel).map
        (fun c => c.id)).Nodup) ∧
    ((generate_channel_members ⟨"W", 2, 1, 0, 0, 0, 0, 7, 500, 1, 2, 3, 7⟩ "w"
        [⟨"u1", "w", "n1", "e1", "t1", 0⟩, ⟨"u2", "w", "n2", "e2", "t2", 0⟩]
        [⟨"c1", "w", "general", 0, "public", "t"⟩] ⟨5⟩).1.map memPk).Nodup :=
  ⟨⟨by decide, by decide, by decide, by decide, by decide⟩,
   (c5_membership_bounds ⟨"W", 2, 1, 0, 0, 0, 0, 7, 500, 1, 2, 3, 7⟩ "w"
     [⟨"u1", "w", "n1", "e1", "t1", 0⟩, ⟨"u2", "w", "n2", "e2", "t2", 0⟩]
     [⟨"c1", "w", "general", 0, "public", "t"⟩] ⟨5⟩
     (by decide) (by decide) (by decide) (by decide) (by decide)).2⟩

end SWS